import Mathlib

/-!
# tetsuo/fortune: the instrumented database handle

A shallow embedding of `internal/database` (`database.go`, `logging.go`):
the query logger, `DB.Exec`, `DB.Prepare`, `buildInsertQuery`, `processRows`,
`bulkInsert` and `BulkInsert`, followed by the properties proved about them.

Modelling conventions.

* A Go `string` is its sequence of bytes (`GoString`); `len` is `List.length`
  and `s[i:j]` is `List.take`/`List.drop`.
* Everything outside the package (the SQL driver and server, the clock, the
  state of every `context.Context`) is an environment `Env σ` acting on an
  abstract state `σ`; nothing is assumed about it.
* Every call into the environment and every log record is appended, in
  program order, to a list of `Event`s returned next to the result.
* Go `int` values here are lengths of slices and sums of a length with a
  number below 1001; they are natural numbers.  The `int64` counter of
  `logging.go` wraps explicitly.
-/

namespace Fortune

/-! ## Strings -/

/-- A Go string: a read-only sequence of bytes. -/
abbrev GoString := List UInt8

/-- The bytes (UTF-8) of a string literal of the source. -/
def go (s : String) : GoString := s.data.flatMap String.utf8EncodeChar

/-- Go `strings.Join`. -/
def stringsJoin : List GoString → GoString → GoString
  | [], _ => []
  | [a], _ => a
  | a :: b :: rest, sep => a ++ sep ++ stringsJoin (b :: rest) sep

/-- Go `strings.Repeat`, for a count that is not negative. -/
def stringsRepeat (s : GoString) : Nat → GoString
  | 0 => []
  | n + 1 => s ++ stringsRepeat s n

/-- Go `strings.Contains`. -/
def stringsContains (s substr : GoString) : Bool :=
  s.tails.any (fun t => substr.isPrefixOf t)

/-- The decimal digits of `n`, most significant first; `fuel` bounds their
number, and `n + 1` is always enough. -/
def decimalAux : Nat → Nat → GoString
  | 0, _ => []
  | fuel + 1, n =>
    if n < 10 then [UInt8.ofNat (48 + n)]
    else decimalAux fuel (n / 10) ++ [UInt8.ofNat (48 + n % 10)]

/-- Decimal rendering of a natural number. -/
def decimal (n : Nat) : GoString := decimalAux (n + 1) n

/-- Decimal rendering of an integer (the `%d` verb). -/
def itoa : Int → GoString
  | .ofNat m => decimal m
  | .negSucc m => 0x2D :: decimal (m + 1)

/-- The value of the continuation byte `b` (its low six bits). -/
def contBits (b : UInt8) : Nat := b.toNat % 64

/-- Whether `b` lies in the closed byte range `lo..hi`. -/
def inRange (b : UInt8) (lo hi : Nat) : Bool := decide (lo ≤ b.toNat) && decide (b.toNat ≤ hi)

/-- The Unicode replacement character, `utf8.RuneError`. -/
def RuneError : Nat := 0xFFFD

/-- Go `utf8.DecodeRuneInString` on a non-empty string: the first rune and
the number of bytes it takes; malformed input yields `(RuneError, 1)`. -/
def decodeRune (b0 : UInt8) (rest : GoString) : Nat × Nat :=
  let x := b0.toNat
  if x < 0x80 then (x, 1)
  else if x < 0xC2 then (RuneError, 1)
  else if x < 0xE0 then
    match rest with
    | b1 :: _ =>
      if inRange b1 0x80 0xBF then ((x % 32) * 64 + contBits b1, 2) else (RuneError, 1)
    | _ => (RuneError, 1)
  else if x < 0xF0 then
    let lo := if x = 0xE0 then 0xA0 else 0x80
    let hi := if x = 0xED then 0x9F else 0xBF
    match rest with
    | b1 :: b2 :: _ =>
      if inRange b1 lo hi && inRange b2 0x80 0xBF then
        ((x % 16) * 4096 + contBits b1 * 64 + contBits b2, 3)
      else (RuneError, 1)
    | _ => (RuneError, 1)
  else if x < 0xF5 then
    let lo := if x = 0xF0 then 0x90 else 0x80
    let hi := if x = 0xF4 then 0x8F else 0xBF
    match rest with
    | b1 :: b2 :: b3 :: _ =>
      if inRange b1 lo hi && inRange b2 0x80 0xBF && inRange b3 0x80 0xBF then
        ((x % 8) * 262144 + contBits b1 * 4096 + contBits b2 * 64 + contBits b3, 4)
      else (RuneError, 1)
    | _ => (RuneError, 1)
  else (RuneError, 1)

/-- The runes a `for _, c := range s` loop visits.  `fuel` bounds the number
of runes; `s.length` is always enough since every rune takes at least one byte. -/
def runesAux : Nat → GoString → List Nat
  | 0, _ => []
  | _ + 1, [] => []
  | fuel + 1, b0 :: rest =>
    let d := decodeRune b0 rest
    d.1 :: runesAux fuel (rest.drop (d.2 - 1))

/-- The runes of a string, in order. -/
def runes (s : GoString) : List Nat := runesAux s.length s

/-- Go `utf8.AppendRune`: the UTF-8 encoding of one rune; surrogates and
values above U+10FFFF are encoded as `RuneError`. -/
def encodeRune (r : Nat) : GoString :=
  if r < 0x80 then [UInt8.ofNat r]
  else if r < 0x800 then [UInt8.ofNat (0xC0 + r / 64), UInt8.ofNat (0x80 + r % 64)]
  else if (0xD800 ≤ r ∧ r ≤ 0xDFFF) ∨ 0x10FFFF < r then [0xEF, 0xBF, 0xBD]
  else if r < 0x10000 then
    [UInt8.ofNat (0xE0 + r / 4096), UInt8.ofNat (0x80 + r / 64 % 64), UInt8.ofNat (0x80 + r % 64)]
  else
    [UInt8.ofNat (0xF0 + r / 262144), UInt8.ofNat (0x80 + r / 4096 % 64),
      UInt8.ofNat (0x80 + r / 64 % 64), UInt8.ofNat (0x80 + r % 64)]

/-- Go `string(r)` for `r []rune`. -/
def stringOfRunes (r : List Nat) : GoString := r.flatMap encodeRune

/-- Go `unicode.IsSpace`. -/
def IsSpace (r : Nat) : Bool :=
  if r ≤ 0xFF then
    r = 0x09 || r = 0x0A || r = 0x0B || r = 0x0C || r = 0x0D || r = 0x20 || r = 0x85 || r = 0xA0
  else
    r = 0x1680 || (decide (0x2000 ≤ r) && decide (r ≤ 0x200A)) || r = 0x2028 || r = 0x2029 ||
      r = 0x202F || r = 0x205F || r = 0x3000

/-! ## Values and errors -/

/-- The scalars bound to a statement (`any` in the source). -/
inductive Value where
  | str (s : GoString)
  | int (n : Int)
  | null
  deriving DecidableEq, Repr

/-- Go `fmt.Sprint` of one value. -/
def Sprint : Value → GoString
  | .str s => s
  | .int n => itoa n
  | .null => go "<nil>"

/-- An error value made outside this package: by the driver, by
`database/sql`, by `context`, or by a callback of the caller. -/
inductive ExtError where
  | canceled
  | deadlineExceeded
  | other (text : GoString)
  deriving DecidableEq, Repr

/-- An error value.  `errorString` is what `fmt.Errorf` without `%w` makes,
`wrapError` what `fmt.Errorf` with `%w` makes (`msg` is the whole text).
`multi` and `multiNil` are the values of type `MultiErr`: a slice whose first
entry is the error the function was about to return (`multiNil` when that is
nil) and whose other entries are what closing returned, nil or not. -/
inductive Error where
  | errorString (s : GoString)
  | wrapError (msg : GoString) (err : Error)
  | ext (e : ExtError)
  | multi (outerErr : Error) (closeErrs : List (Option ExtError))
  | multiNil (closeErrs : List (Option ExtError))
  deriving DecidableEq, Repr

/-- Go `err.Error()` of an external error. -/
def ExtError.text : ExtError → GoString
  | .canceled => go "context canceled"
  | .deadlineExceeded => go "context deadline exceeded"
  | .other text => text

/-- The loop of `MultiErr.Error` over the texts of the entries (`none` for a
nil entry): the texts of the entries that are not nil, with "|" in front of
each one that does not start the text. -/
def multiErrText (m : List (Option GoString)) : GoString :=
  m.foldl (fun sb err =>
    let sep := if sb.length > 0 then go "|" else go ""
    match err with
    | some t => sb ++ (sep ++ t)
    | none => sb) []

/-- Go `err.Error()`. -/
def Error.text : Error → GoString
  | .errorString s => s
  | .wrapError msg _ => msg
  | .ext e => e.text
  | .multi outerErr closeErrs =>
    multiErrText (some outerErr.text :: closeErrs.map (fun e => e.map ExtError.text))
  | .multiNil closeErrs => multiErrText (none :: closeErrs.map (fun e => e.map ExtError.text))

/-- Go `errors.Is(err, target)` for a target that is an external error. -/
def Error.Is : Error → ExtError → Bool
  | .errorString _, _ => false
  | .wrapError _ err, target => err.Is target
  | .ext e, target => decide (e = target)
  | .multi _ _, _ => false
  | .multiNil _, _ => false

/-- Modelled from the spec: `wraperr.Wrap` (package `internal/wraperr`, not
among the sources).  The spec has errors "carry enough context (query identity
via correlation ID, table name, chunk range)": a nil error stays nil, any
other error is wrapped with the context in front of its text and stays
reachable by unwrapping. -/
def wraperr.Wrap (err : Option Error) (context : GoString) : Option Error :=
  match err with
  | none => none
  | some e => some (.wrapError (context ++ go ": " ++ e.text) e)

/-! ## The environment, the world and the events -/

/-- A `context.Context`: Go passes it to every call; its state lives in the
environment. -/
structure Context where
  id : Nat
  deriving DecidableEq, Repr

/-- A `*sql.Stmt`: a fresh object per successful prepare (`id`), for one
statement text. -/
structure Stmt where
  id : Nat
  query : GoString
  deriving DecidableEq, Repr

/-- A `*sql.Rows`: the rows `Next` yields in turn, and what `Err` returns
once `Next` has returned false. -/
structure Rows where
  rows : List (List Value)
  err : Option ExtError
  deriving DecidableEq, Repr

/-- A `sql.Result`, as far as the package reads it: what `RowsAffected` returns. -/
structure Result where
  RowsAffected : Except ExtError Int

/-- Everything outside the package, over a state `σ` of its own. -/
structure Env (σ : Type) where
  /-- `(*sql.DB).PrepareContext`: succeeds (`none`) or fails. -/
  PrepareContext : σ → Context → GoString → σ × Option ExtError
  /-- `(*sql.Stmt).ExecContext`. -/
  StmtExecContext : σ → Context → Stmt → List Value → σ × Option ExtError
  /-- `(*sql.Stmt).QueryContext`. -/
  StmtQueryContext : σ → Context → Stmt → List Value → σ × Except ExtError Rows
  /-- `(*sql.Stmt).Close`. -/
  StmtClose : σ → Stmt → σ
  /-- `(*sql.Rows).Close`. -/
  RowsClose : σ → σ
  /-- `(*sql.DB).ExecContext`. -/
  ExecContext : σ → Context → GoString → List Value → σ × Except ExtError Result
  /-- `time.Now`, as nanoseconds on the monotonic clock: reading the clock
  leaves the environment as it is. -/
  Now : σ → Nat
  /-- `ctx.Err()`. -/
  CtxErr : σ → Context → Option ExtError

/-- The mutable state a call runs in: the environment's state, the two
package-level variables of `logging.go`, and the number of `*sql.Stmt`
objects allocated so far. -/
structure World (σ : Type) where
  env : σ
  queryCounter : Int
  QueryLoggingDisabled : Bool
  stmts : Nat

/-- The state of a fresh process on the environment state `s`. -/
def World.init {σ : Type} (s : σ) : World σ :=
  { env := s, queryCounter := 0, QueryLoggingDisabled := false, stmts := 0 }

/-- The level of a log record. -/
inductive Level where
  | debug
  | error
  deriving DecidableEq, Repr

/-- The structured completion record.  `DurationSeconds` holds the duration
in nanoseconds (the source converts it to floating-point seconds). -/
structure queryEndLogEntry where
  ID : GoString
  Query : GoString
  Args : GoString
  DurationSeconds : Int
  Error : GoString
  deriving DecidableEq, Repr

/-- What is handed to the logger: a formatted text or a structured entry. -/
inductive Record where
  | text (s : GoString)
  | entry (e : queryEndLogEntry)
  deriving DecidableEq, Repr

/-- One observable step of a call, with its outcome. -/
inductive Event where
  | log (level : Level) (r : Record)
  | prepare (query : GoString) (err : Option ExtError)
  | stmtExec (stmt : Stmt) (args : List Value) (err : Option ExtError)
  | stmtQuery (stmt : Stmt) (args : List Value) (err : Option ExtError)
  | scan (row : List Value) (err : Option ExtError)
  | rowsErr (err : Option ExtError)
  | rowsClose
  | stmtClose (stmt : Stmt)
  | exec (query : GoString) (args : List Value) (err : Option ExtError)
  deriving DecidableEq, Repr

/-- How a call ends: it returns, or it panics.  `outOfFuel` belongs to the
model only: a loop given too little fuel; `bulkInsert_fuel` shows it is never
the outcome of `bulkInsert`. -/
inductive Outcome (α : Type) where
  | ret (a : α)
  | panic (msg : GoString)
  | outOfFuel
  deriving DecidableEq, Repr

/-- A finished call: the state it leaves, the events it caused, its result. -/
structure Step (σ α : Type) where
  world : World σ
  events : List Event
  val : α

/-! ## logging.go -/

/-- Two's-complement wrap-around of an `int64`. -/
def wrapInt64 (n : Int) : Int := (n + 2 ^ 63) % 2 ^ 64 - 2 ^ 63

/-- Go `generateLoggingID`. -/
def generateLoggingID {σ : Type} (instanceID : GoString) (w : World σ) : World σ × GoString :=
  let instanceID :=
    if instanceID = [] then go "local"
    else if instanceID.length > 8 then instanceID.drop (instanceID.length - 4)
    else instanceID
  let n := wrapInt64 (w.queryCounter + 1)
  ({ w with queryCounter := n }, instanceID ++ go "-" ++ itoa n)

/-- The first loop of `logQuery`: newlines become spaces and a whitespace
rune that follows a whitespace rune is dropped. -/
def collapseSpaces (query : GoString) : List Nat :=
  (runes query).foldl
    (fun r c =>
      let c := if c = 0x0A then 0x20 else c
      match r.getLast? with
      | none => r ++ [c]
      | some last => if !IsSpace last || !IsSpace c then r ++ [c] else r)
    []

/-- The query text `logQuery` displays (`maxlen = 300`). -/
def displayQuery (query : GoString) : GoString :=
  let query := stringOfRunes (collapseSpaces query)
  if query.length > 300 then query.take 300 ++ go "..." else query

/-- The second loop of `logQuery`, from index `i` on, `argStrings` so far
(`maxArgs = 20`, `maxArgLen = 50`); `fuel` bounds the iterations. -/
def argStringsLoop (args : List Value) : Nat → Nat → List GoString → List GoString
  | 0, _, argStrings => argStrings
  | fuel + 1, i, argStrings =>
    if i < args.length ∧ i < 20 then
      match args[i]? with
      | none => argStrings
      | some a =>
        let s := Sprint a
        let s := if s.length > 50 then s.take 50 ++ go "..." else s
        argStringsLoop args fuel (i + 1) (argStrings ++ [s])
    else argStrings

/-- The argument preview of `logQuery`: the loop, the trailing "..." and
the join. -/
def displayArgs (args : List Value) : GoString :=
  let argStrings := argStringsLoop args (args.length + 1) 0 []
  let argStrings := if args.length > 20 then argStrings ++ [go "..."] else argStrings
  stringsJoin argStrings (go ", ")

/-- What the function returned by `logQuery` has captured; `none` stands for
the function that does nothing (logging disabled). -/
structure QueryLog where
  ctx : Context
  uid : GoString
  query : GoString
  argString : GoString
  start : Nat
  deriving DecidableEq, Repr

/-- Go `logQuery`, up to the `return` of the closure. -/
def logQuery {σ : Type} (E : Env σ) (ctx : Context) (query : GoString) (args : List Value)
    (instanceID : GoString) (w : World σ) : Step σ (Option QueryLog) :=
  if w.QueryLoggingDisabled then ⟨w, [], none⟩
  else
    let query := displayQuery query
    let (w, uid) := generateLoggingID instanceID w
    let argString := displayArgs args
    let ev := Event.log .debug (.text (uid ++ go " " ++ query ++ go " args=" ++ argString))
    let start := E.Now w.env
    ⟨w, [ev], some ⟨ctx, uid, query, argString, start⟩⟩

/-- The function `logQuery` returns, applied to `errp`.  A nil `errp` is
`none`; otherwise `errp` points at an error variable, whose value after the
call is returned (`none` for a nil pointer). -/
def logQueryDone {σ : Type} (E : Env σ) (f : Option QueryLog) (errp : Option (Option Error))
    (w : World σ) : Step σ (Option (Option Error)) :=
  match f with
  | none => ⟨w, [], errp⟩
  | some f =>
    let dur : Int := (E.Now w.env : Int) - (f.start : Int)
    match errp with
    | none => ⟨w, [.log .debug (.text (f.uid ++ go " done"))], none⟩
    | some err =>
      let err := wraperr.Wrap err (go "DB running query " ++ f.uid)
      let entry : queryEndLogEntry :=
        { ID := f.uid, Query := f.query, Args := f.argString, DurationSeconds := dur, Error := [] }
      match err with
      | none => ⟨w, [.log .debug (.entry entry)], some err⟩
      | some e =>
        let entry := { entry with Error := e.text }
        let level :=
          if (match E.CtxErr w.env f.ctx with
              | none => false
              | some ce => (Error.ext ce).Is .canceled) ||
              stringsContains entry.Error (go "pq: canceling statement due to user request")
          then Level.debug else Level.error
        ⟨w, [.log level (.entry entry)], some err⟩

/-! ## database.go -/

/-- The handle `DB`: the `*sql.DB` behind it is the environment and the
logger is the event list, so only the instance identifier remains. -/
structure DB where
  instanceID : GoString
  deriving DecidableEq, Repr

/-- One hexadecimal digit, lower case. -/
def hexDigit (n : Nat) : UInt8 := UInt8.ofNat (if n < 10 then 48 + n else 87 + n)

/-- Go `strconv.Quote` (the `%q` verb) byte by byte: exact on ASCII text;
bytes above 0x7F are kept as they are, where Go escapes the runes that are
not printable. -/
def strconvQuote (s : GoString) : GoString :=
  go "\"" ++ s.flatMap (fun b =>
    let x := b.toNat
    if x = 0x22 then go "\\\""
    else if x = 0x5C then go "\\\\"
    else if x = 0x07 then go "\\a"
    else if x = 0x08 then go "\\b"
    else if x = 0x0C then go "\\f"
    else if x = 0x0A then go "\\n"
    else if x = 0x0D then go "\\r"
    else if x = 0x09 then go "\\t"
    else if x = 0x0B then go "\\v"
    else if x < 0x20 ∨ x = 0x7F then go "\\x" ++ [hexDigit (x / 16), hexDigit (x % 16)]
    else [b]) ++ go "\""

/-- The `%v` verb on a `[]string`. -/
def fmtStrings (xs : List GoString) : GoString := go "[" ++ stringsJoin xs (go " ") ++ go "]"

/-- Go `OnConflictDoNothing`. -/
def OnConflictDoNothing : GoString := go "ON DUPLICATE KEY UPDATE colA = colA"

/-- Go `(*DB).execResult`. -/
def DB.execResult {σ : Type} (E : Env σ) (_db : DB) (ctx : Context) (query : GoString)
    (args : List Value) (w : World σ) : Step σ (Except ExtError Result) :=
  let (s, res) := E.ExecContext w.env ctx query args
  ⟨{ w with env := s }, [.exec query args (match res with | .error e => some e | .ok _ => none)], res⟩

/-- The body of `(*DB).Exec` below its `defer`: the underlying execution
and what it leaves in the results `(_, err)`. -/
def DB.ExecBody {σ : Type} (E : Env σ) (db : DB) (ctx : Context) (query : GoString)
    (args : List Value) (w : World σ) : Step σ (Int × Option Error) :=
  let x := db.execResult E ctx query args w
  match x.val with
  | .error e => ⟨x.world, x.events, (0, some (.ext e))⟩
  | .ok res =>
    match res.RowsAffected with
    | .error e => ⟨x.world, x.events, (0, some (.errorString (go "RowsAffected: " ++ e.text)))⟩
    | .ok n => ⟨x.world, x.events, (n, none)⟩

/-- Go `(*DB).Exec`.  `defer logQuery(...)(&err)` calls `logQuery` at the
`defer` statement and the function it returned when `Exec` returns, on the
named result `err`. -/
def DB.Exec {σ : Type} (E : Env σ) (db : DB) (ctx : Context) (query : GoString)
    (args : List Value) (w : World σ) : Step σ (Int × Option Error) :=
  let l := logQuery E ctx query args db.instanceID w
  let b := db.ExecBody E ctx query args l.world
  let d := logQueryDone E l.val (some b.val.2) b.world
  ⟨d.world, l.events ++ b.events ++ d.events, (b.val.1, d.val.getD b.val.2)⟩

/-- Go `(*DB).Prepare`.  `defer logQuery(...)` defers the call of `logQuery`
itself: it runs when `Prepare` returns, and the function it returns is dropped. -/
def DB.Prepare {σ : Type} (E : Env σ) (db : DB) (ctx : Context) (query : GoString)
    (w : World σ) : Step σ (Except ExtError Stmt) :=
  let (s, err) := E.PrepareContext w.env ctx query
  let w := { w with env := s }
  let (w, res) : World σ × Except ExtError Stmt :=
    match err with
    | some e => (w, .error e)
    | none => ({ w with stmts := w.stmts + 1 }, .ok ⟨w.stmts, query⟩)
  let l := logQuery E ctx (go "preparing " ++ query) [] db.instanceID w
  ⟨l.world, .prepare query err :: l.events, res⟩

/-- Go `buildInsertQuery`. -/
def buildInsertQuery (table : GoString) (columns returningColumns : List GoString)
    (nvalues : Nat) (conflictAction : GoString) : GoString :=
  let b := go "INSERT INTO " ++ table ++ go " (" ++ stringsJoin columns (go ", ") ++ go ") VALUES "
  let values := List.replicate (nvalues / columns.length)
    (go "(" ++ stringsRepeat (go "?,") (columns.length - 1) ++ go "?)")
  let b := b ++ stringsJoin values (go ", ")
  let b := if conflictAction ≠ [] then b ++ (go " " ++ conflictAction) else b
  if returningColumns.length > 0 then
    b ++ go " RETURNING " ++ stringsJoin returningColumns (go ", ")
  else b

/-- The panic of calling a nil function value. -/
def nilDereference : GoString := go "runtime error: invalid memory address or nil pointer dereference"

/-- The loop of `processRows` over the rows still to come, `n` counted so far. -/
def processRowsLoop (f : Option (List Value → Option ExtError)) (final : Option ExtError) :
    List (List Value) → Nat → List Event × Outcome (Nat × Option ExtError)
  | [], n => ([.rowsErr final], .ret (n, final))
  | row :: rest, n =>
    match f with
    | none => ([], .panic nilDereference)
    | some g =>
      match g row with
      | some err => ([.scan row (some err)], .ret (n + 1, some err))
      | none =>
        let r := processRowsLoop f final rest (n + 1)
        (.scan row none :: r.1, r.2)

/-- Go `processRows`: the callback on every row, then the deferred `rows.Close()`. -/
def processRows {σ : Type} (E : Env σ) (rows : Rows) (f : Option (List Value → Option ExtError))
    (w : World σ) : Step σ (Outcome (Nat × Option ExtError)) :=
  let r := processRowsLoop f rows.err rows.rows 0
  ⟨{ w with env := E.RowsClose w.env }, r.1 ++ [.rowsClose], r.2⟩

/-- The error of a failed chunk: `fmt.Errorf("running bulk insert query, values[%d:%d]): %w", ...)`. -/
def chunkError (leftBound rightBound : Nat) (err : ExtError) : Error :=
  .wrapError (go "running bulk insert query, values[" ++ itoa leftBound ++ go ":" ++
    itoa rightBound ++ go "]): " ++ err.text) (.ext err)

/-- The `rightBound` of the chunk that starts at `leftBound`. -/
def rightBoundOf (stride len leftBound : Nat) : Nat :=
  if leftBound + stride > len then len else leftBound + stride

/-- What the loop of `bulkInsert` leaves behind: `deferred` lists the
statements whose `Close` was deferred, in the order of the `defer`s. -/
structure LoopResult (σ : Type) where
  world : World σ
  events : List Event
  deferred : List Stmt
  val : Outcome (Option Error)

/-- The `for` loop of `bulkInsert`, from `leftBound` on. -/
def bulkInsertLoop {σ : Type} (E : Env σ) (db : DB) (ctx : Context) (table : GoString)
    (columns : List GoString) (returningColumns : Option (List GoString)) (values : List Value)
    (conflictAction : GoString) (scanFunc : Option (List Value → Option ExtError))
    (stride : Nat) : Nat → Nat → World σ → LoopResult σ
  | 0, _, w => ⟨w, [], [], .outOfFuel⟩
  | fuel + 1, leftBound, w =>
    if leftBound < values.length then
      let rightBound := rightBoundOf stride values.length leftBound
      let p := db.Prepare E ctx
        (buildInsertQuery table columns (returningColumns.getD []) (rightBound - leftBound)
          conflictAction) w
      match p.val with
      | .error e => ⟨p.world, p.events, [], .ret (some (.ext e))⟩
      | .ok stmt =>
        let valueSlice := (values.take rightBound).drop leftBound
        match returningColumns with
        | none =>
          let (s, err) := E.StmtExecContext p.world.env ctx stmt valueSlice
          let w1 := { p.world with env := s }
          let ev := p.events ++ [.stmtExec stmt valueSlice err]
          match err with
          | some e => ⟨w1, ev, [stmt], .ret (some (chunkError leftBound rightBound e))⟩
          | none =>
            let r := bulkInsertLoop E db ctx table columns returningColumns values conflictAction
              scanFunc stride fuel (leftBound + stride) w1
            ⟨r.world, ev ++ r.events, stmt :: r.deferred, r.val⟩
        | some _ =>
          let (s, res) := E.StmtQueryContext p.world.env ctx stmt valueSlice
          let w1 := { p.world with env := s }
          match res with
          | .error e => ⟨w1, p.events ++ [.stmtQuery stmt valueSlice (some e)], [stmt],
              .ret (some (.ext e))⟩
          | .ok rows =>
            let pr := processRows E rows scanFunc w1
            let ev := p.events ++ [.stmtQuery stmt valueSlice none] ++ pr.events
            match pr.val with
            | .panic msg => ⟨pr.world, ev, [stmt], .panic msg⟩
            | .outOfFuel => ⟨pr.world, ev, [stmt], .outOfFuel⟩
            | .ret (_, some e) =>
              ⟨pr.world, ev, [stmt], .ret (some (chunkError leftBound rightBound e))⟩
            | .ret (_, none) =>
              let r := bulkInsertLoop E db ctx table columns returningColumns values
                conflictAction scanFunc stride fuel (leftBound + stride) pr.world
              ⟨r.world, ev ++ r.events, stmt :: r.deferred, r.val⟩
    else ⟨w, [], [], .ret none⟩

/-- The deferred `stmt.Close()` calls, in the order given. -/
def closeAll {σ : Type} (E : Env σ) : List Stmt → World σ → World σ × List Event
  | [], w => (w, [])
  | stmt :: rest, w =>
    let r := closeAll E rest { w with env := E.StmtClose w.env stmt }
    (r.1, .stmtClose stmt :: r.2)

/-- The parameter ceiling of `bulkInsert`. -/
def maxParameters : Nat := 1000

/-- Go `(*DB).bulkInsert`.  A nil `returningColumns` is `none` (the source
tests `returningColumns == nil`, which an empty non-nil slice does not
satisfy); `len(columns) == 0` panics in the first `%`.  The deferred closes
run last in, first out when the function returns or panics. -/
def DB.bulkInsert {σ : Type} (E : Env σ) (db : DB) (ctx : Context) (table : GoString)
    (columns : List GoString) (returningColumns : Option (List GoString)) (values : List Value)
    (conflictAction : GoString) (scanFunc : Option (List Value → Option ExtError))
    (w : World σ) : Step σ (Outcome (Option Error)) :=
  if columns.length = 0 then ⟨w, [], .panic (go "runtime error: integer divide by zero")⟩
  else
    let remainder := values.length % columns.length
    if remainder ≠ 0 then
      ⟨w, [], .ret (some (.errorString
        (go "modulus of len(values) and len(columns) must be 0: got " ++ itoa remainder)))⟩
    else
      let stride := (maxParameters / columns.length) * columns.length
      if stride = 0 then
        ⟨w, [], .ret (some (.errorString
          (go "too many columns to insert: " ++ itoa columns.length)))⟩
      else
        let r := bulkInsertLoop E db ctx table columns returningColumns values conflictAction
          scanFunc stride (values.length + 1) 0 w
        let c := closeAll E r.deferred.reverse r.world
        ⟨c.1, r.events ++ c.2, r.val⟩

/-- Go `(*DB).BulkInsert`: `bulkInsert` without returning columns, its error
wrapped by the deferred `wraperr.Wrap`. -/
def DB.BulkInsert {σ : Type} (E : Env σ) (db : DB) (ctx : Context) (table : GoString)
    (columns : List GoString) (values : List Value) (conflictAction : GoString)
    (w : World σ) : Step σ (Outcome (Option Error)) :=
  let context := go "DB.BulkInsert(ctx, " ++ strconvQuote table ++ go ", " ++ fmtStrings columns ++
    go ", [" ++ itoa values.length ++ go " values], " ++ strconvQuote conflictAction ++ go ")"
  let r := db.bulkInsert E ctx table columns none values conflictAction none w
  match r.val with
  | .ret err => ⟨r.world, r.events, .ret (wraperr.Wrap err context)⟩
  | o => ⟨r.world, r.events, o⟩

/-! ## Reading a run -/

/-- The error an event ended with, if any. -/
def Event.err : Event → Option ExtError
  | .prepare _ e => e
  | .stmtExec _ _ e => e
  | .stmtQuery _ _ e => e
  | .scan _ e => e
  | .rowsErr e => e
  | .exec _ _ e => e
  | .log _ _ => none
  | .rowsClose => none
  | .stmtClose _ => none

/-- Whether the event is a log record. -/
def Event.isLog : Event → Bool
  | .log _ _ => true
  | _ => false

/-- Whether the event is the release of a statement. -/
def Event.isStmtClose : Event → Bool
  | .stmtClose _ => true
  | _ => false

/-- The events of a run that reach the database: all but the log records. -/
def dbEvents (evs : List Event) : List Event := evs.filter (fun e => !e.isLog)

/-- The statement text an event prepares, if it is a prepare. -/
def Event.prepared : Event → Option GoString
  | .prepare q _ => some q
  | _ => none

/-- The statement text an event sends for direct execution, if it does. -/
def Event.direct : Event → Option GoString
  | .exec q _ _ => some q
  | _ => none

/-- The values an event binds to a prepared statement, if it runs one. -/
def Event.bound : Event → Option (List Value)
  | .stmtExec _ args _ => some args
  | .stmtQuery _ args _ => some args
  | _ => none

/-- The statement texts prepared, in order. -/
def preparedTexts (evs : List Event) : List GoString := evs.filterMap Event.prepared

/-- The texts sent to the database for direct execution, in order. -/
def directTexts (evs : List Event) : List GoString := evs.filterMap Event.direct

/-- The value slices bound to prepared statements, in order. -/
def boundArgs (evs : List Event) : List (List Value) := evs.filterMap Event.bound

/-- The statement text of a chunk of `n` values in a call of `bulkInsert`. -/
def chunkText (table : GoString) (columns : List GoString)
    (returningColumns : Option (List GoString)) (conflictAction : GoString) (n : Nat) : GoString :=
  buildInsertQuery table columns (returningColumns.getD []) n conflictAction

/-- The stride of `bulkInsert` for `c` columns. -/
def strideOf (c : Nat) : Nat := (maxParameters / c) * c

/-- The number of values in the `i`-th chunk (counted from 0). -/
def chunkSize (stride len i : Nat) : Nat := rightBoundOf stride len (i * stride) - i * stride

/-- The `i`-th chunk of the values: `values[i*stride : rightBound]`. -/
def chunkSlice (stride : Nat) (values : List Value) (i : Nat) : List Value :=
  (values.take (rightBoundOf stride values.length (i * stride))).drop (i * stride)

/-- The number of chunks of `n` values: `n / stride`, rounded up. -/
def chunkCount (stride n : Nat) : Nat := (n + stride - 1) / stride

/-- The shape of what the loop of `bulkInsert` does from `leftBound = l` on:
its database events, the statements whose `Close` it deferred, and its
outcome.  `q` gives the statement text for a number of values, `returning`
says whether returning columns were asked for. -/
inductive Run (q : Nat → GoString) (values : List Value) (stride : Nat) (returning : Bool) :
    Nat → List Event → List Stmt → Outcome (Option Error) → Prop
  | done (l : Nat) (h : ¬ l < values.length) : Run q values stride returning l [] [] (.ret none)
  | prepareFailed (l : Nat) (e : ExtError) (h : l < values.length) :
      Run q values stride returning l
        [.prepare (q (rightBoundOf stride values.length l - l)) (some e)] [] (.ret (some (.ext e)))
  | execFailed (l id : Nat) (e : ExtError) (h : l < values.length) (hm : returning = false) :
      Run q values stride returning l
        [.prepare (q (rightBoundOf stride values.length l - l)) none,
          .stmtExec ⟨id, q (rightBoundOf stride values.length l - l)⟩
            ((values.take (rightBoundOf stride values.length l)).drop l) (some e)]
        [⟨id, q (rightBoundOf stride values.length l - l)⟩]
        (.ret (some (chunkError l (rightBoundOf stride values.length l) e)))
  | execOk (l id : Nat) (evs : List Event) (d : List Stmt) (o : Outcome (Option Error))
      (h : l < values.length) (hm : returning = false)
      (rest : Run q values stride returning (l + stride) evs d o) :
      Run q values stride returning l
        (.prepare (q (rightBoundOf stride values.length l - l)) none ::
          .stmtExec ⟨id, q (rightBoundOf stride values.length l - l)⟩
            ((values.take (rightBoundOf stride values.length l)).drop l) none :: evs)
        (⟨id, q (rightBoundOf stride values.length l - l)⟩ :: d) o
  | queryFailed (l id : Nat) (e : ExtError) (h : l < values.length) (hm : returning = true) :
      Run q values stride returning l
        [.prepare (q (rightBoundOf stride values.length l - l)) none,
          .stmtQuery ⟨id, q (rightBoundOf stride values.length l - l)⟩
            ((values.take (rightBoundOf stride values.length l)).drop l) (some e)]
        [⟨id, q (rightBoundOf stride values.length l - l)⟩]
        (.ret (some (.ext e)))
  | rowsFailed (l id : Nat) (f : Option (List Value → Option ExtError)) (rows : Rows)
      (n : Nat) (e : ExtError) (h : l < values.length) (hm : returning = true)
      (hr : (processRowsLoop f rows.err rows.rows 0).2 = .ret (n, some e)) :
      Run q values stride returning l
        (.prepare (q (rightBoundOf stride values.length l - l)) none ::
          .stmtQuery ⟨id, q (rightBoundOf stride values.length l - l)⟩
            ((values.take (rightBoundOf stride values.length l)).drop l) none ::
          ((processRowsLoop f rows.err rows.rows 0).1 ++ [.rowsClose]))
        [⟨id, q (rightBoundOf stride values.length l - l)⟩]
        (.ret (some (chunkError l (rightBoundOf stride values.length l) e)))
  | rowsPanic (l id : Nat) (f : Option (List Value → Option ExtError)) (rows : Rows)
      (msg : GoString) (h : l < values.length) (hm : returning = true)
      (hr : (processRowsLoop f rows.err rows.rows 0).2 = .panic msg) :
      Run q values stride returning l
        (.prepare (q (rightBoundOf stride values.length l - l)) none ::
          .stmtQuery ⟨id, q (rightBoundOf stride values.length l - l)⟩
            ((values.take (rightBoundOf stride values.length l)).drop l) none ::
          ((processRowsLoop f rows.err rows.rows 0).1 ++ [.rowsClose]))
        [⟨id, q (rightBoundOf stride values.length l - l)⟩]
        (.panic msg)
  | rowsOk (l id : Nat) (f : Option (List Value → Option ExtError)) (rows : Rows)
      (n : Nat) (evs : List Event) (d : List Stmt) (o : Outcome (Option Error))
      (h : l < values.length) (hm : returning = true)
      (hr : (processRowsLoop f rows.err rows.rows 0).2 = .ret (n, none))
      (rest : Run q values stride returning (l + stride) evs d o) :
      Run q values stride returning l
        (.prepare (q (rightBoundOf stride values.length l - l)) none ::
          .stmtQuery ⟨id, q (rightBoundOf stride values.length l - l)⟩
            ((values.take (rightBoundOf stride values.length l)).drop l) none ::
          ((processRowsLoop f rows.err rows.rows 0).1 ++ [.rowsClose] ++ evs))
        (⟨id, q (rightBoundOf stride values.length l - l)⟩ :: d) o

/-- An environment in which every call succeeds; its state counts the calls. -/
def okEnv : Env Nat where
  PrepareContext s _ _ := (s + 1, none)
  StmtExecContext s _ _ _ := (s + 1, none)
  StmtQueryContext s _ _ _ := (s + 1, .ok ⟨[], none⟩)
  StmtClose s _ := s + 1
  RowsClose s := s + 1
  ExecContext s _ _ _ := (s + 1, .ok ⟨.ok 1⟩)
  Now s := s
  CtxErr _ _ := none

/-- An environment whose statements reject a null value (the column
`colA VARCHAR(255) NOT NULL` of the test table) and accept everything else. -/
def notNullEnv : Env Nat where
  PrepareContext s _ _ := (s + 1, none)
  StmtExecContext s _ _ args :=
    (s + 1, if args.contains Value.null then some (.other (go "Column colA cannot be null"))
      else none)
  StmtQueryContext s _ _ _ := (s + 1, .ok ⟨[], none⟩)
  StmtClose s _ := s + 1
  RowsClose s := s + 1
  ExecContext s _ _ _ := (s + 1, .ok ⟨.ok 1⟩)
  Now s := s
  CtxErr _ _ := none

/-- An environment whose driver refuses to prepare any statement (the
statement names a column the table does not have) and accepts everything else. -/
def unknownColumnEnv : Env Nat where
  PrepareContext s _ _ := (s + 1, some (.other (go "Unknown column invalid_col in field list")))
  StmtExecContext s _ _ _ := (s + 1, none)
  StmtQueryContext s _ _ _ := (s + 1, .ok ⟨[], none⟩)
  StmtClose s _ := s + 1
  RowsClose s := s + 1
  ExecContext s _ _ _ := (s + 1, .ok ⟨.ok 1⟩)
  Now s := s
  CtxErr _ _ := none

/-- An environment in which the caller has cancelled every context: each
call fails with `context.Canceled`. -/
def canceledEnv : Env Nat where
  PrepareContext s _ _ := (s + 1, some .canceled)
  StmtExecContext s _ _ _ := (s + 1, some .canceled)
  StmtQueryContext s _ _ _ := (s + 1, .error .canceled)
  StmtClose s _ := s + 1
  RowsClose s := s + 1
  ExecContext s _ _ _ := (s + 1, .error .canceled)
  Now s := s
  CtxErr _ _ := some .canceled

/-- Go `errors.Is(err, target)` for an `err` that may be nil. -/
def errorsIs (err : Option Error) (target : ExtError) : Bool :=
  match err with
  | none => false
  | some e => e.Is target

/-- The statement texts of a complete `BulkInsert` of `n` values: one per
chunk, each determined by the table, the columns, the conflict clause and `n`. -/
def bulkInsertTexts (table : GoString) (columns : List GoString) (conflictAction : GoString)
    (n : Nat) : List GoString :=
  (List.range' 0 (chunkCount (strideOf columns.length) n)).map
    (fun i => buildInsertQuery table columns [] (chunkSize (strideOf columns.length) n i)
      conflictAction)

/-- What `bulkInsert` returns when the event `ev` of the chunk
`values[l:r]` fails with `e`: the error as it is for a failed prepare or a
failed `QueryContext` (both `return err`), the chunk error otherwise. -/
def failureReturn (ev : Event) (l r : Nat) (e : ExtError) : Error :=
  match ev with
  | .prepare _ _ => .ext e
  | .stmtQuery _ _ _ => .ext e
  | _ => chunkError l r e

/-- An environment in which the deadline of every context has passed: each
call fails with `context.DeadlineExceeded`. -/
def deadlineEnv : Env Nat where
  PrepareContext s _ _ := (s + 1, some .deadlineExceeded)
  StmtExecContext s _ _ _ := (s + 1, some .deadlineExceeded)
  StmtQueryContext s _ _ _ := (s + 1, .error .deadlineExceeded)
  StmtClose s _ := s + 1
  RowsClose s := s + 1
  ExecContext s _ _ _ := (s + 1, .error .deadlineExceeded)
  Now s := s
  CtxErr _ _ := some .deadlineExceeded

/-- The driver message `logQuery` looks for in the text of an error. -/
def cancelingStatement : GoString := go "pq: canceling statement due to user request"

/-- The first step of the whitespace clean-up, in the words of the source
comment: newlines are replaced with spaces. -/
def replaceNewlines (rs : List Nat) : List Nat := rs.map (fun c => if c = 0x0A then 0x20 else c)

/-- The second step, in the words of the source comment: adjacent whitespace
is collapsed, every run of whitespace runes keeping its first rune only.
`afterSpace` tells whether the rune before the list is whitespace. -/
def collapseRuns : Bool → List Nat → List Nat
  | _, [] => []
  | afterSpace, c :: rest =>
    if afterSpace && IsSpace c then collapseRuns true rest
    else c :: collapseRuns (IsSpace c) rest

/-- The body of the first loop of `logQuery`: `r` so far, the rune `c`. -/
def collapseStep (r : List Nat) (c : Nat) : List Nat :=
  let c := if c = 0x0A then 0x20 else c
  match r.getLast? with
  | none => r ++ [c]
  | some last => if !IsSpace last || !IsSpace c then r ++ [c] else r

/-- One argument of the preview, in the words of the spec: its default
string form, cut to its first 50 bytes plus "..." when it is longer. -/
def previewArg (a : Value) : GoString :=
  if (Sprint a).length > 50 then (Sprint a).take 50 ++ go "..." else Sprint a

/-- Reads a string of decimal digits back, most significant first. -/
def parseDecimal (ds : GoString) : Nat := ds.foldl (fun acc b => acc * 10 + (b.toNat - 48)) 0

/-- The shortened instance identifier of `generateLoggingID`. -/
def shortInstanceID (instanceID : GoString) : GoString :=
  if instanceID = [] then go "local"
  else if instanceID.length > 8 then instanceID.drop (instanceID.length - 4)
  else instanceID

/-- The correlation IDs of successive logged calls, made for the instance
identifiers `ids` in call order, starting in the world `w`. -/
def loggingIDs {σ : Type} : List GoString → World σ → List GoString
  | [], _ => []
  | id :: rest, w => (generateLoggingID id w).2 :: loggingIDs rest (generateLoggingID id w).1

/-! ## Redaction of data-source strings -/

/-- The class `\w` of the regular expression: the ASCII letters, digits and
the underscore. -/
def isWordByte (b : UInt8) : Bool :=
  (48 ≤ b.toNat && b.toNat ≤ 57) || (65 ≤ b.toNat && b.toNat ≤ 90) || b.toNat = 95 ||
    (97 ≤ b.toNat && b.toNat ≤ 122)

/-- The class `[^@]` of the regular expression.  It matches every character
but '@'; as '@' is ASCII, on the bytes of a string that is every byte but
0x40. -/
def isNotAt (b : UInt8) : Bool := b != 0x40

/-- The items a regular expression of the shape used here is a sequence of:
one literal byte, or one or more bytes of a class (greedy). -/
inductive Item where
  | lit (b : UInt8)
  | plus (p : UInt8 → Bool)

/-- Greedy repetition with backtracking: the longest count first, down to one
byte, each followed by the rest of the expression. -/
def tryLengths (cont : GoString → Option (List Nat)) (s : GoString) :
    Nat → Option (List Nat)
  | 0 => none
  | k + 1 =>
    match cont (s.drop (k + 1)) with
    | some ls => some ((k + 1) :: ls)
    | none => tryLengths cont s k

/-- The match of a sequence of items at the start of `s` that a backtracking
search finds first, which is the match Go's `regexp` reports: the number of
bytes each item matched. -/
def matchItems : List Item → GoString → Option (List Nat)
  | [], _ => some []
  | .lit b :: rest, s =>
    match s with
    | [] => none
    | c :: s' => if c = b then (matchItems rest s').map (fun ls => 1 :: ls) else none
  | .plus p :: rest, s => tryLengths (matchItems rest) s (s.takeWhile p).length

/-- The leftmost match in `s`: the text before the match, the bytes each item
matched, and the text from the start of the match on. -/
def findFirst (items : List Item) : GoString → Option (GoString × List Nat × GoString)
  | [] => (matchItems items []).map (fun ls => ([], ls, []))
  | c :: s =>
    match matchItems items (c :: s) with
    | some ls => some ([], ls, c :: s)
    | none => (findFirst items s).map (fun r => (c :: r.1, r.2.1, r.2.2))

/-- The expression `(?P<user>\w+):(?P<password>[^@]+)@` of `dsnPasswordRegexp`. -/
def dsnPasswordRegexp : List Item :=
  [.plus isWordByte, .lit 0x3A, .plus isNotAt, .lit 0x40]

/-- The loop of `ReplaceAllString` with the template `${user}:REDACTED@`: the
text before each match is copied, the match is replaced by what the group
`user` (the first item) matched followed by ":REDACTED@", and the search goes
on after the match. -/
def replaceAllLoop : Nat → GoString → GoString
  | 0, s => s
  | fuel + 1, s =>
    match findFirst dsnPasswordRegexp s with
    | none => s
    | some (pre, ls, m) =>
      pre ++ m.take (ls.headD 0) ++ go ":REDACTED@" ++ replaceAllLoop fuel (m.drop ls.sum)

def redactPassword (dsn : GoString) : GoString := replaceAllLoop (dsn.length + 1) dsn

structure DBConfig where
  DBHost : GoString
  DBPort : GoString
  DBUser : GoString
  DBPassword : GoString
  DBName : GoString

def dataSourceName (c : DBConfig) (host : GoString) : GoString :=
  c.DBUser ++ go ":" ++ c.DBPassword ++ go "@tcp(" ++ host ++ go ":" ++ c.DBPort ++ go ")/" ++
    c.DBName ++ go "?parseTime=true&multiStatements=true"

def DBConfig.DSN (c : DBConfig) : GoString := dataSourceName c c.DBHost

def exampleConfig (password : GoString) : DBConfig :=
  { DBHost := go "localhost", DBPort := go "3306", DBUser := go "root",
    DBPassword := password, DBName := go "fortune_db" }

/-! ## dbutil.go and testdbutil.go -/

/-- What `(*migrate.Migrate).Up` returns when it fails: the sentinel
`migrate.ErrNoChange`, or another error. -/
inductive UpError where
  | ErrNoChange
  | other (e : ExtError)
  deriving DecidableEq, Repr

/-- The database server, the migration library and the run-time system as the
utilities use them, over a state `σ` of their own. -/
structure UtilEnv (σ : Type) where
  /-- `sql.Open(driverName, uri)`. -/
  sqlOpen : σ → GoString → GoString → σ × Option ExtError
  /-- `(*sql.DB).Ping`. -/
  Ping : σ → σ × Option ExtError
  /-- `(*sql.DB).PingContext` under the 30 second timeout. -/
  PingContext : σ → σ × Option ExtError
  /-- `(*sql.DB).Close`. -/
  Close : σ → σ × Option ExtError
  /-- `(*sql.DB).Exec(query)`. -/
  Exec : σ → GoString → σ × Option ExtError
  /-- `(*sql.DB).Query(query, args...)`. -/
  Query : σ → GoString → List Value → σ × Except ExtError Rows
  /-- `(*sql.Rows).Close`. -/
  RowsClose : σ → σ
  /-- `migrate.New(source, dbURI)`. -/
  migrateNew : σ → GoString → GoString → σ × Option ExtError
  /-- `(*migrate.Migrate).Up`. -/
  Up : σ → σ × Option UpError
  /-- `(*migrate.Migrate).Close`: the source error and the database error. -/
  migrateClose : σ → σ × Option ExtError × Option ExtError
  /-- `runtime.Caller(1)` in `testDataPath`: the file name, or `none` when
  the information is not available. -/
  Caller : Option GoString
  /-- `filepath.Clean(filepath.Join(filepath.Dir(filename), filepath.FromSlash(rel)))`. -/
  resolve : GoString → GoString → GoString
  /-- `filepath.ToSlash`. -/
  ToSlash : GoString → GoString

/-- One observable step of the utilities, with its outcome. -/
inductive UtilEvent where
  | sqlOpen (driverName uri : GoString) (err : Option ExtError)
  | ping (err : Option ExtError)
  | pingContext (err : Option ExtError)
  | close (err : Option ExtError)
  | exec (query : GoString) (err : Option ExtError)
  | query (query : GoString) (args : List Value) (err : Option ExtError)
  | rowsClose
  | migrateNew (source dbURI : GoString) (err : Option ExtError)
  | up (err : Option UpError)
  | migrateClose (srcErr dbErr : Option ExtError)
  | printf (text : GoString)
  deriving DecidableEq, Repr

/-- A finished call of a utility: the state it leaves, the events it caused,
its result. -/
structure UtilStep (σ α : Type) where
  state : σ
  events : List UtilEvent
  val : α

/-- One hexadecimal digit, upper case. -/
def upperhex (n : Nat) : UInt8 := UInt8.ofNat (if n < 10 then 48 + n else 55 + n)

/-- Go `url.QueryEscape`: letters, digits, '-', '_', '.' and '~' stay, a
space becomes '+', every other byte becomes "%XX". -/
def urlQueryEscape (s : GoString) : GoString :=
  s.flatMap (fun b =>
    let x := b.toNat
    if (48 ≤ x ∧ x ≤ 57) ∨ (65 ≤ x ∧ x ≤ 90) ∨ (97 ≤ x ∧ x ≤ 122) ∨
        x = 0x2D ∨ x = 0x5F ∨ x = 0x2E ∨ x = 0x7E then [b]
    else if x = 0x20 then go "+"
    else [0x25, upperhex (x / 16), upperhex (x % 16)])

/-- Go `DBConnURI`. -/
def DBConnURI (dbName : GoString) : GoString :=
  let user := go "root"
  let password := go "example"
  let host := go "localhost"
  let port := go "3306"
  urlQueryEscape user ++ go ":" ++ urlQueryEscape password ++ go "@tcp(" ++ host ++ go ":" ++
    port ++ go ")/" ++ dbName ++ go "?parseTime=true&multiStatements=true"

/-- The value `MultiErr{outerErr, closeErrs...}`. -/
def MultiErr (outerErr : Option Error) (closeErrs : List (Option ExtError)) : Error :=
  match outerErr with
  | some e => .multi e closeErrs
  | none => .multiNil closeErrs

/-- Go `ConnectAndExecute`.  `captured` is the variable of the caller that
`dbFunc` assigns to, if it has one; the deferred function closes the
connection after `dbFunc` has returned and may replace the result. -/
def ConnectAndExecute {σ β : Type} (E : UtilEnv σ) (uri : GoString) (captured : β)
    (dbFunc : β → σ → UtilStep σ (β × Option Error)) (s : σ) : UtilStep σ (β × Option Error) :=
  let (s, err) := E.sqlOpen s (go "mysql") uri
  let evOpen : List UtilEvent := [.sqlOpen (go "mysql") uri err]
  let (s, err, evs) : σ × Option ExtError × List UtilEvent :=
    match err with
    | none =>
      let (s, err) := E.Ping s
      (s, err, evOpen ++ [.ping err])
    | some e => (s, some e, evOpen)
  match err with
  | some e => ⟨s, evs, (captured, some (.ext e))⟩
  | none =>
    let r := dbFunc captured s
    let (s, cerr) := E.Close r.state
    let outerErr := r.val.2
    let outerErr :=
      match cerr with
      | some e => some (MultiErr outerErr [some e])
      | none => outerErr
    ⟨s, evs ++ r.events ++ [.close cerr], (r.val.1, outerErr)⟩

/-- The statement `CreateDB` executes. -/
def createQuery (dbName : GoString) : GoString :=
  go "CREATE DATABASE IF NOT EXISTS \x60" ++ dbName ++
    go "\x60 CHARACTER SET utf8mb4 COLLATE utf8mb4_unicode_ci;"

/-- Go `CreateDB`. -/
def CreateDB {σ : Type} (E : UtilEnv σ) (dbName : GoString) (s : σ) : UtilStep σ (Option Error) :=
  let query := createQuery dbName
  let r := ConnectAndExecute E (DBConnURI (go "")) () (fun _ s =>
    let (s, err) := E.Exec s query
    match err with
    | some e =>
      ⟨s, [.exec query err],
        ((), some (.errorString (go "error creating " ++ strconvQuote dbName ++ go ": " ++ e.text)))⟩
    | none => ⟨s, [.exec query err], ((), none)⟩) s
  ⟨r.state, r.events, r.val.2⟩

/-- The statement `DropDB` executes. -/
def dropQuery (dbName : GoString) : GoString :=
  go "DROP DATABASE IF EXISTS \x60" ++ dbName ++ go "\x60;"

/-- Go `DropDB`. -/
def DropDB {σ : Type} (E : UtilEnv σ) (dbName : GoString) (s : σ) : UtilStep σ (Option Error) :=
  let query := dropQuery dbName
  let r := ConnectAndExecute E (DBConnURI (go "")) () (fun _ s =>
    let (s, err) := E.Exec s query
    match err with
    | some e =>
      ⟨s, [.exec query err],
        ((), some (.errorString (go "error dropping " ++ strconvQuote dbName ++ go ": " ++ e.text)))⟩
    | none => ⟨s, [.exec query err], ((), none)⟩) s
  ⟨r.state, r.events, r.val.2⟩

/-- Go `checkIfDBExists`.  The captured variable is `exists`; `rows.Close`
is deferred in `dbFunc`. -/
def checkIfDBExists {σ : Type} (E : UtilEnv σ) (dbName : GoString) (s : σ) :
    UtilStep σ (Bool × Option Error) :=
  let query := go "SELECT SCHEMA_NAME FROM INFORMATION_SCHEMA.SCHEMATA WHERE SCHEMA_NAME = ?"
  ConnectAndExecute E (DBConnURI (go "")) false (fun existsVar s =>
    let (s, res) := E.Query s query [.str dbName]
    match res with
    | .error e => ⟨s, [.query query [.str dbName] (some e)], (existsVar, some (.ext e))⟩
    | .ok rows =>
      let evQuery : List UtilEvent := [.query query [.str dbName] none]
      if rows.rows ≠ [] then
        ⟨E.RowsClose s, evQuery ++ [.rowsClose], (true, none)⟩
      else
        ⟨E.RowsClose s, evQuery ++ [.rowsClose], (existsVar, rows.err.map Error.ext)⟩) s

/-- Go `CreateDBIfNotExists`. -/
def CreateDBIfNotExists {σ : Type} (E : UtilEnv σ) (dbName : GoString) (s : σ) :
    UtilStep σ (Option Error) :=
  let c := checkIfDBExists E dbName s
  if c.val.2 ≠ none ∨ c.val.1 = true then ⟨c.state, c.events, c.val.2⟩
  else
    let evLog : List UtilEvent :=
      [.printf (go "database " ++ strconvQuote dbName ++ go " does not exist, creating.")]
    let r := CreateDB E dbName c.state
    ⟨r.state, c.events ++ evLog ++ r.events, r.val⟩

/-- Go `testDataPath`. -/
def testDataPath {σ : Type} (E : UtilEnv σ) (rel : GoString) : Outcome GoString :=
  match E.Caller with
  | none => .panic (go "unable to determine relative path")
  | some filename => .ret (E.resolve filename rel)

/-- Go `migrationsSource`. -/
def migrationsSource {σ : Type} (E : UtilEnv σ) : Outcome GoString :=
  match testDataPath E (go "../../etc/migrations") with
  | .ret migrationsDir => .ret (go "file://" ++ E.ToSlash migrationsDir)
  | .panic msg => .panic msg
  | .outOfFuel => .outOfFuel

/-- Go `TryToMigrate`: the results are `(isMigrationError, outerErr)`.  The
deferred function runs once `migrate.New` has succeeded, after the results
are set, and may replace `outerErr`. -/
def TryToMigrate {σ : Type} (E : UtilEnv σ) (dbName : GoString) (s : σ) :
    UtilStep σ (Outcome (Bool × Option Error)) :=
  let dbURI := go "mysql://" ++ DBConnURI dbName
  match migrationsSource E with
  | .panic msg => ⟨s, [], .panic msg⟩
  | .outOfFuel => ⟨s, [], .outOfFuel⟩
  | .ret source =>
    let (s, err) := E.migrateNew s source dbURI
    let evNew : List UtilEvent := [.migrateNew source dbURI err]
    match err with
    | some e => ⟨s, evNew, .ret (false, some (.errorString (go "migrate.New(): " ++ e.text)))⟩
    | none =>
      let (s, uerr) := E.Up s
      let (isMigrationError, outerErr) : Bool × Option Error :=
        match uerr with
        | some (.other e) =>
          (true, some (.errorString (go "m.Up() " ++ strconvQuote source ++ go ": " ++ e.text)))
        | some .ErrNoChange => (false, none)
        | none => (false, none)
      let (s, srcErr, dbErr) := E.migrateClose s
      let outerErr :=
        if srcErr ≠ none ∨ dbErr ≠ none then some (MultiErr outerErr [srcErr, dbErr])
        else outerErr
      ⟨s, evNew ++ [.up uerr, .migrateClose srcErr dbErr], .ret (isMigrationError, outerErr)⟩

/-- Go `recreateDB`. -/
def recreateDB {σ : Type} (E : UtilEnv σ) (dbName : GoString) (s : σ) : UtilStep σ (Option Error) :=
  let d := DropDB E dbName s
  match d.val with
  | some err => ⟨d.state, d.events, some err⟩
  | none =>
    let c := CreateDB E dbName d.state
    ⟨c.state, d.events ++ c.events, c.val⟩

/-- Go `Open`. -/
def Open {σ : Type} (E : UtilEnv σ) (driverName dsn instanceID : GoString) (s : σ) :
    UtilStep σ (Option DB × Option Error) :=
  let context := go "database.Open(" ++ strconvQuote driverName ++ go ", " ++
    strconvQuote (redactPassword dsn) ++ go ")"
  let (s, err) := E.sqlOpen s driverName dsn
  let evOpen : List UtilEvent := [.sqlOpen driverName dsn err]
  match err with
  | some e => ⟨s, evOpen, (none, wraperr.Wrap (some (.ext e)) context)⟩
  | none =>
    let (s, err) := E.PingContext s
    match err with
    | some e => ⟨s, evOpen ++ [.pingContext err], (none, wraperr.Wrap (some (.ext e)) context)⟩
    | none => ⟨s, evOpen ++ [.pingContext err], (some ⟨instanceID⟩, wraperr.Wrap none context)⟩

/-- The error `SetupTestDB` returns when migrating has failed for good. -/
def unfixableError (err : Error) : Error :=
  .errorString (go "unfixable error migrating database: " ++ err.text ++
    go ".\nConsider running ./scripts/drop_test_dbs.sh")

/-- The line `SetupTestDB` logs before it recreates the database. -/
def recreatingLog (dbName : GoString) (err : Error) : UtilEvent :=
  .printf (go "Migration failed for " ++ dbName ++ go ": " ++ err.text ++ go ", recreating ")

/-- The block `if isMigrationError, err := TryToMigrate(dbName); err != nil`
of `SetupTestDB`: `some e` when the block returns `nil, e`, `none` when
`SetupTestDB` goes on after it. -/
def migrateOrRecreate {σ : Type} (E : UtilEnv σ) (dbName : GoString) (s : σ) :
    UtilStep σ (Outcome (Option Error)) :=
  let m := TryToMigrate E dbName s
  match m.val with
  | .panic msg => ⟨m.state, m.events, .panic msg⟩
  | .outOfFuel => ⟨m.state, m.events, .outOfFuel⟩
  | .ret (_, none) => ⟨m.state, m.events, .ret none⟩
  | .ret (isMigrationError, some err) =>
    if isMigrationError then
      let evLog : List UtilEvent := [recreatingLog dbName err]
      let r := recreateDB E dbName m.state
      match r.val with
      | some err =>
        ⟨r.state, m.events ++ evLog ++ r.events, .ret (some (.errorString
          (go "recreateDB(" ++ strconvQuote dbName ++ go "): " ++ err.text)))⟩
      | none =>
        let m2 := TryToMigrate E dbName r.state
        let evs := m.events ++ evLog ++ r.events ++ m2.events
        match m2.val with
        | .panic msg => ⟨m2.state, evs, .panic msg⟩
        | .outOfFuel => ⟨m2.state, evs, .outOfFuel⟩
        | .ret (_, some err) => ⟨m2.state, evs, .ret (some (unfixableError err))⟩
        | .ret (_, none) => ⟨m2.state, evs, .ret none⟩
    else ⟨m.state, m.events, .ret (some (unfixableError err))⟩

/-- Go `SetupTestDB`: the results are the handle and `err`; the deferred
`wraperr.Wrap` adds the context to `err` on every return. -/
def SetupTestDB {σ : Type} (E : UtilEnv σ) (dbName : GoString) (s : σ) :
    UtilStep σ (Outcome (Option DB × Option Error)) :=
  let context := go "SetupTestDB(" ++ strconvQuote dbName ++ go ")"
  let c := CreateDBIfNotExists E dbName s
  match c.val with
  | some err =>
    ⟨c.state, c.events, .ret (none, wraperr.Wrap (some (.wrapError
      (go "CreateDBIfNotExists(" ++ strconvQuote dbName ++ go "): " ++ err.text) err)) context)⟩
  | none =>
    let b := migrateOrRecreate E dbName c.state
    match b.val with
    | .panic msg => ⟨b.state, c.events ++ b.events, .panic msg⟩
    | .outOfFuel => ⟨b.state, c.events ++ b.events, .outOfFuel⟩
    | .ret (some err) => ⟨b.state, c.events ++ b.events, .ret (none, wraperr.Wrap (some err) context)⟩
    | .ret none =>
      let o := Open E (go "mysql") (DBConnURI dbName) (go "test") b.state
      match o.val.2 with
      | some err =>
        ⟨o.state, c.events ++ b.events ++ o.events, .ret (none, wraperr.Wrap (some err) context)⟩
      | none =>
        ⟨o.state, c.events ++ b.events ++ o.events, .ret (o.val.1, wraperr.Wrap none context)⟩

/-- The source `TryToMigrate` hands to `migrate.New` when the caller's file
name is `filename`. -/
def sourceOf {σ : Type} (E : UtilEnv σ) (filename : GoString) : GoString :=
  go "file://" ++ E.ToSlash (E.resolve filename (go "../../etc/migrations"))

/-- The environment's answers to the three calls of `TryToMigrate`, in turn. -/
def newAnswer {σ : Type} (E : UtilEnv σ) (dbName filename : GoString) (s : σ) :
    σ × Option ExtError :=
  E.migrateNew s (sourceOf E filename) (go "mysql://" ++ DBConnURI dbName)

def upAnswer {σ : Type} (E : UtilEnv σ) (dbName filename : GoString) (s : σ) :
    σ × Option UpError :=
  E.Up (newAnswer E dbName filename s).1

def closeAnswer {σ : Type} (E : UtilEnv σ) (dbName filename : GoString) (s : σ) :
    σ × Option ExtError × Option ExtError :=
  E.migrateClose (upAnswer E dbName filename s).1

/-- Whether an event is the execution of the statement of `DropDB`. -/
def UtilEvent.isDrop (dbName : GoString) : UtilEvent → Bool
  | .exec q _ => decide (q = dropQuery dbName)
  | _ => false

/-- Whether an event is the execution of the statement of `CreateDB`. -/
def UtilEvent.isCreate (dbName : GoString) : UtilEvent → Bool
  | .exec q _ => decide (q = createQuery dbName)
  | _ => false

/-- Whether an event is the start of a migration attempt. -/
def UtilEvent.isMigrateNew : UtilEvent → Bool
  | .migrateNew _ _ _ => true
  | _ => false

/-- Whether an event is the liveness check of `Open`. -/
def UtilEvent.isPingContext : UtilEvent → Bool
  | .pingContext _ => true
  | _ => false

/-- An environment in which the database exists and every call succeeds,
except that `Up` answers `up n` on its call number `n` (from 0) and closing
the migration reports `closeErr` for the database. -/
def scriptedEnv (up : Nat → Option UpError) (closeErr : Option ExtError) : UtilEnv Nat where
  sqlOpen s _ _ := (s, none)
  Ping s := (s, none)
  PingContext s := (s, none)
  Close s := (s, none)
  Exec s _ := (s, none)
  Query s _ _ := (s, .ok ⟨[[.str (go "db")]], none⟩)
  RowsClose s := s
  migrateNew s _ _ := (s, none)
  Up s := (s + 1, up s)
  migrateClose s := (s, none, closeErr)
  Caller := some (go "/src/internal/database/dbutil.go")
  resolve _ _ := go "/src/etc/migrations"
  ToSlash path := path

/-- An error of the migration step other than "no change". -/
def dirtyDatabase : UpError := .other (.other (go "Dirty database version 2. Fix and force version."))

/-- A property of events that holds of no event but the execution of a
statement, the start of a migration attempt and the liveness check of `Open`. -/
def Quiet (p : UtilEvent → Bool) : Prop :=
  (∀ d u e, p (.sqlOpen d u e) = false) ∧ (∀ e, p (.ping e) = false) ∧
    (∀ e, p (.close e) = false) ∧ (∀ q a e, p (.query q a e) = false) ∧
    p .rowsClose = false ∧ (∀ t, p (.printf t) = false) ∧ (∀ e, p (.up e) = false) ∧
    (∀ a b, p (.migrateClose a b) = false)

/-- The first migration attempt of `SetupTestDB`, after `CreateDBIfNotExists`. -/
def firstAttempt {σ : Type} (E : UtilEnv σ) (dbName : GoString) (s : σ) :
    UtilStep σ (Outcome (Bool × Option Error)) :=
  TryToMigrate E dbName (CreateDBIfNotExists E dbName s).state

/-- The call of `recreateDB` in `SetupTestDB`, after the first attempt. -/
def recreation {σ : Type} (E : UtilEnv σ) (dbName : GoString) (s : σ) : UtilStep σ (Option Error) :=
  recreateDB E dbName (firstAttempt E dbName s).state

/-- The second migration attempt of `SetupTestDB`, after `recreateDB`. -/
def retry {σ : Type} (E : UtilEnv σ) (dbName : GoString) (s : σ) :
    UtilStep σ (Outcome (Bool × Option Error)) :=
  TryToMigrate E dbName (recreation E dbName s).state

/-! ## The statement text, as the specification words it -/

/-- One group "(?,...,?)" of `c` placeholders. -/
def placeholderGroup (c : Nat) : GoString :=
  go "(" ++ stringsJoin (List.replicate c (go "?")) (go ",") ++ go ")"

/-- The statement text in the words of the specification: "INSERT INTO
<table> (<columns joined by ', '>) VALUES ", then `nvalues / len(columns)`
groups of `len(columns)` placeholders joined by ", ", then a space and the
conflict clause if the clause is not empty, then " RETURNING " and the
returning columns joined by ", " if there are any. -/
def insertQueryText (table : GoString) (columns returningColumns : List GoString)
    (nvalues : Nat) (conflictAction : GoString) : GoString :=
  go "INSERT INTO " ++ table ++ go " (" ++ stringsJoin columns (go ", ") ++ go ") VALUES " ++
    stringsJoin (List.replicate (nvalues / columns.length) (placeholderGroup columns.length))
      (go ", ") ++
    (if conflictAction ≠ [] then go " " ++ conflictAction else []) ++
    (if returningColumns ≠ [] then go " RETURNING " ++ stringsJoin returningColumns (go ", ")
     else [])

/-- The number of '?' placeholders in a statement text. -/
def placeholders (query : GoString) : Nat := query.count 0x3F

/-- The statement an event runs and the values it binds to it, if it runs one. -/
def Event.run : Event → Option (Stmt × List Value)
  | .stmtExec stmt args _ => some (stmt, args)
  | .stmtQuery stmt args _ => some (stmt, args)
  | _ => none

/-- The statements run with the values bound to them, in order. -/
def stmtRuns (evs : List Event) : List (Stmt × List Value) := evs.filterMap Event.run

/-- The statement an event releases, if it is a `Close`. -/
def Event.closed : Event → Option Stmt
  | .stmtClose stmt => some stmt
  | _ => none

/-- The statements released, in order. -/
def closedStmts (evs : List Event) : List Stmt := evs.filterMap Event.closed

/-- Whether an event is a prepare that succeeded. -/
def Event.isPrepared : Event → Bool
  | .prepare _ none => true
  | _ => false

/-! ## ResetDB -/

/-- The three statements of `ResetDB`. -/
def disableChecks : GoString := go "SET FOREIGN_KEY_CHECKS = 0;"

def truncateTable : GoString := go "TRUNCATE TABLE fortune_cookies;"

def enableChecks : GoString := go "SET FOREIGN_KEY_CHECKS = 1;"

/-- The error `ResetDB` makes of a failed statement. -/
def resetError (err : Error) : Error :=
  .errorString (go "error resetting test DB: " ++ err.text)

/-- Go `ResetDB`. -/
def ResetDB {σ : Type} (E : Env σ) (ctx : Context) (db : DB) (w : World σ) :
    Step σ (Option Error) :=
  let r1 := db.Exec E ctx disableChecks [] w
  match r1.val.2 with
  | some err => ⟨r1.world, r1.events, some (resetError err)⟩
  | none =>
    let r2 := db.Exec E ctx truncateTable [] r1.world
    match r2.val.2 with
    | some err => ⟨r2.world, r1.events ++ r2.events, some (resetError err)⟩
    | none =>
      let r3 := db.Exec E ctx enableChecks [] r2.world
      match r3.val.2 with
      | some err => ⟨r3.world, r1.events ++ r2.events ++ r3.events, some (resetError err)⟩
      | none => ⟨r3.world, r1.events ++ r2.events ++ r3.events, none⟩

/-- An environment in which the table `fortune_cookies` does not exist: the
truncation fails, every other call succeeds. -/
def noTableEnv : Env Nat where
  PrepareContext s _ _ := (s + 1, none)
  StmtExecContext s _ _ _ := (s + 1, none)
  StmtQueryContext s _ _ _ := (s + 1, .ok ⟨[], none⟩)
  StmtClose s _ := s + 1
  RowsClose s := s + 1
  ExecContext s _ query _ :=
    if query = truncateTable then
      (s + 1, .error (.other (go "Error 1146: Table fortune_cookies does not exist")))
    else (s + 1, .ok ⟨.ok 0⟩)
  Now s := s
  CtxErr _ _ := none

/-! ## frontend/api.go: decodeBody -/

/-- Go `strings.Split(s, sep)` for a separator of one byte: the pieces
between the occurrences of the separator, `cur` being the piece under way. -/
def stringsSplitLoop (sep : UInt8) : GoString → GoString → List GoString
  | [], cur => [cur]
  | c :: s, cur =>
    if c = sep then cur :: stringsSplitLoop sep s [] else stringsSplitLoop sep s (cur ++ [c])

def stringsSplit (s : GoString) (sep : UInt8) : List GoString := stringsSplitLoop sep s []

/-- The runes of a string, each with the bytes it takes, decoded from the
left as `range` does.  `fuel` bounds their number; `s.length` is enough. -/
def runeChunksAux : Nat → GoString → List (Nat × GoString)
  | 0, _ => []
  | _ + 1, [] => []
  | fuel + 1, b0 :: rest =>
    let d := decodeRune b0 rest
    (d.1, b0 :: rest.take (d.2 - 1)) :: runeChunksAux fuel (rest.drop (d.2 - 1))

def runeChunks (s : GoString) : List (Nat × GoString) := runeChunksAux s.length s

/-- Go `strings.TrimSpace`: the string without its leading and its trailing
runes that are white space (`unicode.IsSpace`). -/
def stringsTrimSpace (s : GoString) : GoString :=
  let chunks := (runeChunks s).dropWhile (fun c => IsSpace c.1)
  let chunks := (chunks.reverse.dropWhile (fun c => IsSpace c.1)).reverse
  chunks.flatMap (fun c => c.2)

def minCookieLength : Nat := 3

def maxCookieLength : Nat := 10000

/-- The body of `if len(currentBlock) > 0` in `decodeBody`, with the test:
the cookies after the block `currentBlock` has been closed. -/
def closeBlock (currentBlock : List GoString) (cookies : List Value) : List Value :=
  if currentBlock.length > 0 then
    let cookie := stringsTrimSpace (stringsJoin currentBlock (go "\n"))
    let length := cookie.length
    if length ≥ minCookieLength ∧ length ≤ maxCookieLength then cookies ++ [.str cookie]
    else cookies
  else cookies

/-- The loop of `decodeBody` over the lines still to come. -/
def decodeLines : List GoString → List GoString → List Value → List GoString × List Value
  | [], currentBlock, cookies => (currentBlock, cookies)
  | line :: lines, currentBlock, cookies =>
    let trimmed := stringsTrimSpace line
    if trimmed = go "%" then
      if currentBlock.length > 0 then decodeLines lines [] (closeBlock currentBlock cookies)
      else decodeLines lines currentBlock cookies
    else decodeLines lines (currentBlock ++ [line]) cookies

/-- Go `decodeBody`.  The reader is what `io.ReadAll` gets from it: the
bytes, or an error. -/
def decodeBody (r : Except ExtError GoString) : List Value × Option Error :=
  match r with
  | .error err => ([], some (.ext err))
  | .ok data =>
    let input := data
    let lines := stringsSplit input 0x0A
    let (currentBlock, cookies) := decodeLines lines [] []
    (closeBlock currentBlock cookies, none)

/-- Whether a line is a separator, in the words of the specification: a line
equal to "%" once surrounding whitespace is trimmed. -/
def isSeparatorLine (line : GoString) : Bool := decide (stringsTrimSpace line = go "%")

/-- The records of a body in the words of the specification: the blocks of
lines delimited by separator lines, each block joined with newlines and
trimmed of surrounding whitespace, keeping only the blocks whose trimmed
length is between 3 and 10000 inclusive. -/
def recordsOf (input : GoString) : List GoString :=
  (((stringsSplit input 0x0A).splitOnP isSeparatorLine).map
    (fun block => stringsTrimSpace (stringsJoin block (go "\n")))).filter
    (fun cookie => decide (3 ≤ cookie.length ∧ cookie.length ≤ 10000))

/-- The record a block of lines makes, if its trimmed length is in range. -/
def cookieOf (block : List GoString) : Option Value :=
  if 3 ≤ (stringsTrimSpace (stringsJoin block (go "\n"))).length ∧
      (stringsTrimSpace (stringsJoin block (go "\n"))).length ≤ 10000 then
    some (.str (stringsTrimSpace (stringsJoin block (go "\n"))))
  else none

/-! ## testdbutil.go: the pool of test databases -/

/-- A `*DB` of the pool: the handles `SetupTestDB` returns are distinct
objects, told apart by the index of their database `<base>_<index>`. -/
abbrev Handle := Nat

/-- The `context.Background()` of `ResetTestDB`. -/
def contextBackground : Context := ⟨0⟩

/-- Go `ResetTestDB`: `some msg` when it ends in `t.Fatalf(msg)`, which stops
the calling test there. -/
def ResetTestDB {σ : Type} (E : Env σ) (db : DB) (w : World σ) : Step σ (Option GoString) :=
  let ctx := contextBackground
  let r := ResetDB E ctx db w
  match r.val with
  | some err => ⟨r.world, r.events, some (go "error resetting test DB: " ++ err.text)⟩
  | none => ⟨r.world, r.events, none⟩

/-- The state `RunDBTestsInParallel` sets up and its closures share: the
world of the databases, the channel `dbs` (its buffer, oldest first, and its
capacity), and who holds which handle: `held` is not a variable of the
program, it records the callers to whom `acquire` has returned a handle that
has not been sent back yet. -/
structure Pool (σ : Type) where
  world : World σ
  dbs : List Handle
  capacity : Nat
  held : List (Nat × Handle)

/-- How a call of the release function ends: it returns, the test is stopped
by `t.Fatalf`, or it waits at `dbs <- db` on a full channel. -/
inductive Ended where
  | returned
  | fatal (msg : GoString)
  | blocked
  deriving DecidableEq, Repr

/-- The function stored in `*acquirep`, for the test `caller`, up to its
`return`: `none` when `<-dbs` finds the channel empty and waits. -/
def acquire {σ : Type} (p : Pool σ) (caller : Nat) : Option (Pool σ × Handle) :=
  match p.dbs with
  | [] => none
  | db :: rest => some ({ p with dbs := rest, held := p.held ++ [(caller, db)] }, db)

/-- The function `release` that `acquire` returned to `caller` with the
handle `db`.  `E db` is the connection of that handle; every handle is opened
with the instance identifier "test". -/
def release {σ : Type} (E : Handle → Env σ) (caller : Nat) (db : Handle) (p : Pool σ) :
    Pool σ × List Event × Ended :=
  let r := ResetTestDB (E db) ⟨go "test"⟩ p.world
  match r.val with
  | some msg => ({ p with world := r.world }, r.events, .fatal msg)
  | none =>
    if p.dbs.length < p.capacity then
      ({ p with world := r.world, dbs := p.dbs ++ [db], held := p.held.erase (caller, db) },
        r.events, .returned)
    else ({ p with world := r.world }, r.events, .blocked)

/-- The pool once `RunDBTestsInParallel` has set up `numDBs` databases
without error and sent their handles to the channel: query logging is
disabled, the channel of capacity `numDBs` holds the handles in the order of
their indices, and no handle is held. -/
def Pool.init {σ : Type} (numDBs : Nat) (w : World σ) : Pool σ :=
  { world := { w with QueryLoggingDisabled := true }, dbs := List.range numDBs,
    capacity := numDBs, held := [] }

/-- A step of a test on the pool. -/
inductive PoolOp where
  | acquire (caller : Nat)
  | release (caller : Nat) (db : Handle)
  deriving DecidableEq, Repr

/-- The pool after a step, `none` when the step waits (an acquire on an
empty channel, a send on a full one). -/
def PoolOp.run {σ : Type} (E : Handle → Env σ) : PoolOp → Pool σ → Option (Pool σ)
  | .acquire caller, p => (Fortune.acquire p caller).map Prod.fst
  | .release caller db, p =>
    match Fortune.release E caller db p with
    | (_, _, .blocked) => none
    | (p', _, _) => some p'

/-- The protocol of the specification for a step: the release function is
invoked once per acquired handle, that is by a caller that holds the handle. -/
def PoolOp.orderly {σ : Type} : PoolOp → Pool σ → Prop
  | .acquire _, _ => True
  | .release caller db, p => (caller, db) ∈ p.held

/-- The states reachable from `p` by steps that follow the protocol. -/
inductive Reachable {σ : Type} (E : Handle → Env σ) (p : Pool σ) : Pool σ → Prop
  | start : Reachable E p p
  | step (q r : Pool σ) (op : PoolOp) (h : Reachable E p q) (ho : op.orderly q)
      (hr : op.run E q = some r) : Reachable E p r

/-- The pool after a sequence of steps, whether they follow the protocol or
not; `none` when one of them waits. -/
def runOps {σ : Type} (E : Handle → Env σ) : List PoolOp → Pool σ → Option (Pool σ)
  | [], p => some p
  | op :: ops, p =>
    match op.run E p with
    | some q => runOps E ops q
    | none => none

/-- How the set-up of the pool ends: all handles are in the channel, or the
process is stopped by `log.Fatal(err)`, or by a panic. -/
inductive PoolSetup where
  | ready (dbs : List Handle)
  | fatal (err : Error)
  | panic (msg : GoString)

/-- The loop `for i := 0; i < numDBs; i++` of `RunDBTestsInParallel`, with
`todo` iterations to go from `i` on: `SetupTestDB` of the database
`<base>_<i>`, then `dbs <- db`, which never waits since the channel has room
for `numDBs` handles. -/
def setupLoop {σ : Type} (U : UtilEnv σ) (dbBaseName : GoString) :
    Nat → Nat → σ → List Handle → UtilStep σ PoolSetup
  | 0, _, s, dbs => ⟨s, [], .ready dbs⟩
  | todo + 1, i, s, dbs =>
    let r := SetupTestDB U (dbBaseName ++ go "_" ++ itoa i) s
    match r.val with
    | .panic msg => ⟨r.state, r.events, .panic msg⟩
    | .outOfFuel => ⟨r.state, r.events, .panic []⟩
    | .ret (_, some err) => ⟨r.state, r.events, .fatal err⟩
    | .ret (_, none) =>
      let rest := setupLoop U dbBaseName todo (i + 1) r.state (dbs ++ [i])
      ⟨rest.state, r.events ++ rest.events, rest.val⟩

/-- The start of `RunDBTestsInParallel`, up to the assignment of `*acquirep`:
the pool, when every database was set up. -/
def setUpPool {σ : Type} (U : UtilEnv σ) (dbBaseName : GoString) (numDBs : Nat) (w : World σ) :
    List UtilEvent × Option (Pool σ) :=
  let r := setupLoop U dbBaseName numDBs 0 w.env []
  match r.val with
  | .ready dbs =>
    (r.events, some
      { world := { w with QueryLoggingDisabled := true, env := r.state },
        dbs := dbs, capacity := numDBs, held := [] })
  | _ => (r.events, none)

/-- The invariant of the pool of `n` handles: the handles in the channel
followed by the handles held are the `n` handles, each once, and the capacity
of the channel is `n`. -/
def PoolInv {σ : Type} (n : Nat) (p : Pool σ) : Prop :=
  (p.dbs ++ p.held.map Prod.snd).Perm (List.range n) ∧ p.capacity = n

/-- A pool of two handles after the test 7 has acquired the handle 0. -/
def busyPool : Pool Nat :=
  { world := { World.init 0 with QueryLoggingDisabled := true }, dbs := [1], capacity := 2,
    held := [(7, 0)] }

/-! ## The loop of bulkInsert -/

theorem dbEvents_append (a b : List Event) : dbEvents (a ++ b) = dbEvents a ++ dbEvents b := by
  simp [dbEvents]

theorem logQuery_dbEvents {σ : Type} (E : Env σ) (ctx : Context) (query : GoString)
    (args : List Value) (instanceID : GoString) (w : World σ) :
    dbEvents (logQuery E ctx query args instanceID w).events = [] := by
  unfold logQuery
  split <;> simp [dbEvents, Event.isLog]

theorem dbEvents_nil : dbEvents [] = [] := rfl

theorem dbEvents_cons (e : Event) (evs : List Event) :
    dbEvents (e :: evs) = if e.isLog then dbEvents evs else e :: dbEvents evs := by
  cases h : e.isLog <;> simp [dbEvents, h]

theorem Prepare_dbEvents {σ : Type} (E : Env σ) (db : DB) (ctx : Context) (query : GoString)
    (w : World σ) :
    (∀ e, (db.Prepare E ctx query w).val = .error e →
      dbEvents (db.Prepare E ctx query w).events = [.prepare query (some e)]) ∧
    (∀ stmt, (db.Prepare E ctx query w).val = .ok stmt →
      dbEvents (db.Prepare E ctx query w).events = [.prepare query none] ∧
        stmt.query = query) := by
  unfold DB.Prepare
  rcases hp : E.PrepareContext w.env ctx query with ⟨s, err⟩
  cases err with
  | none =>
    constructor
    · intro e he
      simp at he
    · intro stmt hs
      simp at hs
      subst hs
      simp [dbEvents_cons, Event.isLog, logQuery_dbEvents]
  | some e0 =>
    constructor
    · intro e he
      simp at he
      subst he
      simp [dbEvents_cons, Event.isLog, logQuery_dbEvents]
    · intro stmt hs
      simp at hs

theorem processRowsLoop_dbEvents (f : Option (List Value → Option ExtError))
    (final : Option ExtError) (rows : List (List Value)) (n : Nat) :
    dbEvents (processRowsLoop f final rows n).1 = (processRowsLoop f final rows n).1 := by
  induction rows generalizing n with
  | nil => simp [processRowsLoop, dbEvents_cons, dbEvents_nil, Event.isLog]
  | cons row rest ih =>
    unfold processRowsLoop
    cases f with
    | none => simp [dbEvents_nil]
    | some g =>
      cases hg : g row with
      | some err => simp [hg, dbEvents_cons, dbEvents_nil, Event.isLog]
      | none => simp [hg, dbEvents_cons, Event.isLog, ih (n + 1)]

theorem processRowsLoop_fuel (f : Option (List Value → Option ExtError))
    (final : Option ExtError) (rows : List (List Value)) (n : Nat) :
    (processRowsLoop f final rows n).2 ≠ .outOfFuel := by
  induction rows generalizing n with
  | nil => simp [processRowsLoop]
  | cons row rest ih =>
    unfold processRowsLoop
    cases f with
    | none => simp
    | some g =>
      cases hg : g row with
      | some err => simp [hg]
      | none => simpa [hg] using ih (n + 1)


theorem bulkInsertLoop_run {σ : Type} (E : Env σ) (db : DB) (ctx : Context) (table : GoString)
    (columns : List GoString) (returningColumns : Option (List GoString)) (values : List Value)
    (conflictAction : GoString) (scanFunc : Option (List Value → Option ExtError))
    (stride : Nat) (hs : 0 < stride) :
    ∀ (fuel l : Nat) (w : World σ), values.length - l < fuel →
      Run (chunkText table columns returningColumns conflictAction) values stride
        returningColumns.isSome l
        (dbEvents (bulkInsertLoop E db ctx table columns returningColumns values conflictAction
          scanFunc stride fuel l w).events)
        (bulkInsertLoop E db ctx table columns returningColumns values conflictAction
          scanFunc stride fuel l w).deferred
        (bulkInsertLoop E db ctx table columns returningColumns values conflictAction
          scanFunc stride fuel l w).val := by
  intro fuel
  induction fuel with
  | zero => intro l w h; omega
  | succ fuel ih =>
    intro l w h
    unfold bulkInsertLoop
    by_cases hl : l < values.length
    · simp only [hl, if_true]
      have hP := Prepare_dbEvents E db ctx (buildInsertQuery table columns (returningColumns.getD [])
        (rightBoundOf stride values.length l - l) conflictAction) w
      generalize db.Prepare E ctx (buildInsertQuery table columns (returningColumns.getD [])
        (rightBoundOf stride values.length l - l) conflictAction) w = p at hP ⊢
      rcases p with ⟨pw, pev, pval⟩
      have hfuel : values.length - (l + stride) < fuel := by omega
      cases pval with
      | error e =>
        simp only
        rw [hP.1 e rfl]
        exact Run.prepareFailed l e hl
      | ok stmt =>
        obtain ⟨hev, hq⟩ := hP.2 stmt rfl
        simp only at hev
        rcases stmt with ⟨id, sq⟩
        simp only at hq
        subst hq
        simp only
        cases returningColumns with
        | none =>
          simp only
          split
          · rename_i e he
            simp only [he, dbEvents_append, hev, dbEvents_cons, dbEvents_nil, Event.isLog]
            exact Run.execFailed l id e hl rfl
          · rename_i he
            simp only [he, dbEvents_append, hev, dbEvents_cons, dbEvents_nil, Event.isLog]
            exact Run.execOk l id _ _ _ hl rfl (ih (l + stride) _ hfuel)
        | some rc =>
          simp only
          split
          · rename_i e he
            simp only [dbEvents_append, hev, dbEvents_cons, dbEvents_nil, Event.isLog]
            exact Run.queryFailed l id e hl rfl
          · rename_i rows he
            simp only [processRows]
            have hne := processRowsLoop_fuel scanFunc rows.err rows.rows 0
            have hdb := processRowsLoop_dbEvents scanFunc rows.err rows.rows 0
            split
            · rename_i msg hr
              simp only [dbEvents_append, hev, dbEvents_cons, dbEvents_nil, Event.isLog, hdb]
              exact Run.rowsPanic l id scanFunc rows msg hl rfl hr
            · rename_i hr
              exact absurd hr hne
            · rename_i n e hr
              simp only [dbEvents_append, hev, dbEvents_cons, dbEvents_nil, Event.isLog, hdb]
              exact Run.rowsFailed l id scanFunc rows n e hl rfl hr
            · rename_i n hr
              simp only [dbEvents_append, hev, dbEvents_cons, dbEvents_nil, Event.isLog, hdb]
              exact Run.rowsOk l id scanFunc rows n _ _ _ hl rfl hr (ih (l + stride) _ hfuel)
    · simp only [hl, if_false, dbEvents_nil]
      exact Run.done l hl

theorem closeAll_events {σ : Type} (E : Env σ) (ds : List Stmt) (w : World σ) :
    (closeAll E ds w).2 = ds.map Event.stmtClose := by
  induction ds generalizing w with
  | nil => rfl
  | cons d rest ih => simp [closeAll, ih]

theorem dbEvents_stmtClose (ds : List Stmt) :
    dbEvents (ds.map Event.stmtClose) = ds.map Event.stmtClose := by
  induction ds with
  | nil => rfl
  | cons d rest ih => simp [dbEvents_cons, Event.isLog, ih]

theorem strideOf_pos (c : Nat) (h1 : 0 < c) (h2 : c ≤ 1000) : 0 < strideOf c := by
  unfold strideOf maxParameters
  have : 0 < 1000 / c := Nat.div_pos h2 h1
  exact Nat.mul_pos this h1

theorem strideOf_eq_zero (c : Nat) (h1 : 0 < c) : strideOf c = 0 ↔ 1000 < c := by
  constructor
  · intro h
    by_contra hc
    have := strideOf_pos c h1 (by omega)
    omega
  · intro h
    unfold strideOf maxParameters
    rw [Nat.div_eq_of_lt h]
    simp

theorem strideOf_le (c : Nat) : strideOf c ≤ 1000 := by
  unfold strideOf maxParameters
  exact Nat.div_mul_le_self 1000 c

theorem strideOf_dvd (c : Nat) : c ∣ strideOf c := by
  unfold strideOf
  exact Dvd.intro_left _ rfl

theorem bulkInsert_eq {σ : Type} (E : Env σ) (db : DB) (ctx : Context) (table : GoString)
    (columns : List GoString) (returningColumns : Option (List GoString)) (values : List Value)
    (conflictAction : GoString) (scanFunc : Option (List Value → Option ExtError))
    (w : World σ) (hc : columns ≠ []) (hm : values.length % columns.length = 0)
    (hk : columns.length ≤ 1000) :
    db.bulkInsert E ctx table columns returningColumns values conflictAction scanFunc w =
      ⟨(closeAll E (bulkInsertLoop E db ctx table columns returningColumns values conflictAction
          scanFunc (strideOf columns.length) (values.length + 1) 0 w).deferred.reverse
          (bulkInsertLoop E db ctx table columns returningColumns values conflictAction
          scanFunc (strideOf columns.length) (values.length + 1) 0 w).world).1,
        (bulkInsertLoop E db ctx table columns returningColumns values conflictAction
          scanFunc (strideOf columns.length) (values.length + 1) 0 w).events ++
        (bulkInsertLoop E db ctx table columns returningColumns values conflictAction
          scanFunc (strideOf columns.length) (values.length + 1) 0 w).deferred.reverse.map
            Event.stmtClose,
        (bulkInsertLoop E db ctx table columns returningColumns values conflictAction
          scanFunc (strideOf columns.length) (values.length + 1) 0 w).val⟩ := by
  have hpos : 0 < columns.length := List.length_pos.mpr hc
  have hs : 0 < strideOf columns.length := strideOf_pos _ hpos hk
  have hs2 : ¬ (maxParameters / columns.length * columns.length = 0) := by
    have := hs
    unfold strideOf at this
    omega
  unfold DB.bulkInsert
  simp only [Nat.ne_of_gt hpos, if_false, hm, ne_eq, not_true_eq_false, hs2, closeAll_events]
  rfl

/-- After validation `bulkInsert` is its loop from 0 followed by the deferred
closes, last in, first out. -/
theorem bulkInsert_run {σ : Type} (E : Env σ) (db : DB) (ctx : Context) (table : GoString)
    (columns : List GoString) (returningColumns : Option (List GoString)) (values : List Value)
    (conflictAction : GoString) (scanFunc : Option (List Value → Option ExtError))
    (w : World σ) (hc : columns ≠ []) (hm : values.length % columns.length = 0)
    (hk : columns.length ≤ 1000) :
    ∃ evs d,
      Run (chunkText table columns returningColumns conflictAction) values
        (strideOf columns.length) returningColumns.isSome 0 evs d
        (db.bulkInsert E ctx table columns returningColumns values conflictAction scanFunc w).val ∧
      dbEvents (db.bulkInsert E ctx table columns returningColumns values conflictAction
        scanFunc w).events = evs ++ d.reverse.map Event.stmtClose := by
  have hpos : 0 < columns.length := List.length_pos.mpr hc
  have hs : 0 < strideOf columns.length := strideOf_pos _ hpos hk
  have hrun := bulkInsertLoop_run E db ctx table columns returningColumns values conflictAction
    scanFunc (strideOf columns.length) hs (values.length + 1) 0 w (by omega)
  rw [bulkInsert_eq E db ctx table columns returningColumns values conflictAction scanFunc w hc hm hk]
  refine ⟨_, _, hrun, ?_⟩
  simp only [dbEvents_append, dbEvents_stmtClose]


theorem Run_val_ne_errorString {q : Nat → GoString} {values : List Value} {stride : Nat}
    {returning : Bool} {l : Nat} {evs : List Event} {d : List Stmt} {o : Outcome (Option Error)}
    (h : Run q values stride returning l evs d o) (s : GoString) :
    o ≠ .ret (some (.errorString s)) := by
  induction h with
  | done l h => simp
  | prepareFailed l e h => simp
  | execFailed l id e h hm => simp [chunkError]
  | execOk l id evs d o h hm rest ih => exact ih
  | queryFailed l id e h hm => simp
  | rowsFailed l id f rows n e h hm hr => simp [chunkError]
  | rowsPanic l id f rows msg h hm hr => simp
  | rowsOk l id f rows n evs d o h hm hr rest ih => exact ih

theorem bulkInsert_stride_zero {σ : Type} (E : Env σ) (db : DB) (ctx : Context)
    (table : GoString) (columns : List GoString) (returningColumns : Option (List GoString))
    (values : List Value) (conflictAction : GoString)
    (scanFunc : Option (List Value → Option ExtError)) (w : World σ)
    (hm : values.length % columns.length = 0) (hk : 1000 < columns.length) :
    db.bulkInsert E ctx table columns returningColumns values conflictAction scanFunc w =
      ⟨w, [], .ret (some (.errorString
        (go "too many columns to insert: " ++ itoa columns.length)))⟩ := by
  have hpos : 0 < columns.length := by omega
  have hz := (strideOf_eq_zero columns.length hpos).mpr hk
  unfold strideOf at hz
  unfold DB.bulkInsert
  simp [Nat.ne_of_gt hpos, hm, hz]

theorem bulkInsert_no_values {σ : Type} (E : Env σ) (db : DB) (ctx : Context)
    (table : GoString) (columns : List GoString) (returningColumns : Option (List GoString))
    (conflictAction : GoString) (scanFunc : Option (List Value → Option ExtError)) (w : World σ)
    (hc : columns ≠ []) (hk : columns.length ≤ 1000) :
    db.bulkInsert E ctx table columns returningColumns [] conflictAction scanFunc w =
      ⟨w, [], .ret none⟩ := by
  rw [bulkInsert_eq E db ctx table columns returningColumns [] conflictAction scanFunc w hc
    (by simp) hk]
  simp [bulkInsertLoop, closeAll]

theorem rightBoundOf_le (stride len l : Nat) : rightBoundOf stride len l ≤ len := by
  unfold rightBoundOf
  split <;> omega

theorem rightBoundOf_sub (stride len l : Nat) (hs : 0 < stride) (h : l < len) :
    0 < rightBoundOf stride len l - l ∧ rightBoundOf stride len l - l ≤ stride := by
  unfold rightBoundOf
  split <;> omega

theorem rightBoundOf_dvd (c stride len l : Nat) (h1 : c ∣ stride) (h2 : c ∣ len) (h3 : c ∣ l) :
    c ∣ rightBoundOf stride len l - l := by
  unfold rightBoundOf
  split
  · exact Nat.dvd_sub' h2 h3
  · simpa using h1

theorem slice_length (values : List Value) (stride l : Nat) :
    ((values.take (rightBoundOf stride values.length l)).drop l).length =
      rightBoundOf stride values.length l - l := by
  have := rightBoundOf_le stride values.length l
  simp only [List.length_drop, List.length_take]
  omega

theorem preparedTexts_append (a b : List Event) :
    preparedTexts (a ++ b) = preparedTexts a ++ preparedTexts b := by
  simp [preparedTexts]

theorem boundArgs_append (a b : List Event) :
    boundArgs (a ++ b) = boundArgs a ++ boundArgs b := by
  simp [boundArgs]

theorem preparedTexts_cons (e : Event) (evs : List Event) :
    preparedTexts (e :: evs) = preparedTexts [e] ++ preparedTexts evs :=
  preparedTexts_append [e] evs

theorem boundArgs_cons (e : Event) (evs : List Event) :
    boundArgs (e :: evs) = boundArgs [e] ++ boundArgs evs :=
  boundArgs_append [e] evs

theorem preparedTexts_dbEvents (evs : List Event) :
    preparedTexts (dbEvents evs) = preparedTexts evs := by
  induction evs with
  | nil => rfl
  | cons e rest ih =>
    rw [dbEvents_cons, preparedTexts_cons e rest]
    cases e <;> simp [Event.isLog, ih, preparedTexts, Event.prepared] <;> exact ih

theorem boundArgs_dbEvents (evs : List Event) :
    boundArgs (dbEvents evs) = boundArgs evs := by
  induction evs with
  | nil => rfl
  | cons e rest ih =>
    rw [dbEvents_cons, boundArgs_cons e rest]
    cases e <;> simp [Event.isLog, ih, boundArgs, Event.bound] <;> exact ih

theorem processRowsLoop_events (f : Option (List Value → Option ExtError))
    (final : Option ExtError) (rows : List (List Value)) (n : Nat) :
    ∀ e ∈ (processRowsLoop f final rows n).1,
      e.prepared = none ∧ e.bound = none ∧ e.direct = none ∧ e.isStmtClose = false := by
  induction rows generalizing n with
  | nil => simp [processRowsLoop, Event.prepared, Event.bound, Event.direct, Event.isStmtClose]
  | cons row rest ih =>
    unfold processRowsLoop
    cases f with
    | none => simp
    | some g =>
      cases hg : g row with
      | some err => simp [hg, Event.prepared, Event.bound, Event.direct, Event.isStmtClose]
      | none =>
        simp only [hg, List.mem_cons]
        intro e he
        rcases he with rfl | he
        · simp [Event.prepared, Event.bound, Event.direct, Event.isStmtClose]
        · exact ih (n + 1) e he

theorem preparedTexts_rows (f : Option (List Value → Option ExtError))
    (final : Option ExtError) (rows : List (List Value)) (n : Nat) :
    preparedTexts (processRowsLoop f final rows n).1 = [] := by
  unfold preparedTexts
  rw [List.filterMap_eq_nil_iff]
  exact fun e he => (processRowsLoop_events f final rows n e he).1

theorem boundArgs_rows (f : Option (List Value → Option ExtError))
    (final : Option ExtError) (rows : List (List Value)) (n : Nat) :
    boundArgs (processRowsLoop f final rows n).1 = [] := by
  unfold boundArgs
  rw [List.filterMap_eq_nil_iff]
  exact fun e he => (processRowsLoop_events f final rows n e he).2.1

theorem preparedTexts_stmtClose (ds : List Stmt) :
    preparedTexts (ds.map Event.stmtClose) = [] := by
  induction ds with
  | nil => rfl
  | cons d rest ih => rw [List.map_cons, preparedTexts_cons, ih]; rfl

theorem boundArgs_stmtClose (ds : List Stmt) :
    boundArgs (ds.map Event.stmtClose) = [] := by
  induction ds with
  | nil => rfl
  | cons d rest ih => rw [List.map_cons, boundArgs_cons, ih]; rfl

@[simp] theorem preparedTexts_nil : preparedTexts [] = [] := rfl

@[simp] theorem boundArgs_nil : boundArgs [] = [] := rfl

@[simp] theorem preparedTexts_prepare (t : GoString) (err : Option ExtError) (evs : List Event) :
    preparedTexts (.prepare t err :: evs) = t :: preparedTexts evs := rfl

@[simp] theorem preparedTexts_stmtExec (stmt : Stmt) (args : List Value) (err : Option ExtError)
    (evs : List Event) : preparedTexts (.stmtExec stmt args err :: evs) = preparedTexts evs := rfl

@[simp] theorem preparedTexts_stmtQuery (stmt : Stmt) (args : List Value) (err : Option ExtError)
    (evs : List Event) : preparedTexts (.stmtQuery stmt args err :: evs) = preparedTexts evs := rfl

@[simp] theorem preparedTexts_rowsClose (evs : List Event) :
    preparedTexts (.rowsClose :: evs) = preparedTexts evs := rfl

@[simp] theorem preparedTexts_rows_append (f : Option (List Value → Option ExtError))
    (final : Option ExtError) (rows : List (List Value)) (n : Nat) (evs : List Event) :
    preparedTexts ((processRowsLoop f final rows n).1 ++ evs) = preparedTexts evs := by
  rw [preparedTexts_append, preparedTexts_rows, List.nil_append]

@[simp] theorem boundArgs_prepare (t : GoString) (err : Option ExtError) (evs : List Event) :
    boundArgs (.prepare t err :: evs) = boundArgs evs := rfl

@[simp] theorem boundArgs_stmtExec (stmt : Stmt) (args : List Value) (err : Option ExtError)
    (evs : List Event) : boundArgs (.stmtExec stmt args err :: evs) = args :: boundArgs evs := rfl

@[simp] theorem boundArgs_stmtQuery (stmt : Stmt) (args : List Value) (err : Option ExtError)
    (evs : List Event) : boundArgs (.stmtQuery stmt args err :: evs) = args :: boundArgs evs := rfl

@[simp] theorem boundArgs_rowsClose (evs : List Event) :
    boundArgs (.rowsClose :: evs) = boundArgs evs := rfl

@[simp] theorem boundArgs_rows_append (f : Option (List Value → Option ExtError))
    (final : Option ExtError) (rows : List (List Value)) (n : Nat) (evs : List Event) :
    boundArgs ((processRowsLoop f final rows n).1 ++ evs) = boundArgs evs := by
  rw [boundArgs_append, boundArgs_rows, List.nil_append]

/-- Every statement of a run has a number of parameters that is a positive
multiple of `c` and at most the stride, when `c` divides the stride, the
number of values and the left bound. -/
theorem Run_parameters {q : Nat → GoString} {values : List Value} {stride : Nat}
    {returning : Bool} {l : Nat} {evs : List Event} {d : List Stmt} {o : Outcome (Option Error)}
    (h : Run q values stride returning l evs d o) (c : Nat) (hs : 0 < stride)
    (h1 : c ∣ stride) (h2 : c ∣ values.length) (h3 : c ∣ l) :
    (∀ t ∈ preparedTexts evs, ∃ n, t = q n ∧ c ≤ n ∧ n ≤ stride ∧ c ∣ n) ∧
    (∀ args ∈ boundArgs evs, c ≤ args.length ∧ args.length ≤ stride ∧ c ∣ args.length) := by
  have key : ∀ l, l < values.length → c ∣ l →
      c ≤ rightBoundOf stride values.length l - l ∧
      rightBoundOf stride values.length l - l ≤ stride ∧
      c ∣ rightBoundOf stride values.length l - l := by
    intro l hl hd
    have hb := rightBoundOf_sub stride values.length l hs hl
    have hdv := rightBoundOf_dvd c stride values.length l h1 h2 hd
    exact ⟨Nat.le_of_dvd hb.1 hdv, hb.2, hdv⟩
  have key2 : ∀ l, l < values.length → c ∣ l →
      c ≤ ((values.take (rightBoundOf stride values.length l)).drop l).length ∧
      ((values.take (rightBoundOf stride values.length l)).drop l).length ≤ stride ∧
      c ∣ ((values.take (rightBoundOf stride values.length l)).drop l).length := by
    intro l hl hd
    rw [slice_length values stride l]
    exact key l hl hd
  induction h with
  | done l h => simp
  | prepareFailed l e h => simpa using ⟨_, rfl, key l h h3⟩
  | execFailed l id e h hm => exact ⟨by simpa using ⟨_, rfl, key l h h3⟩, by simpa using key2 l h h3⟩
  | execOk l id evs d o h hm rest ih =>
    have ih := ih (Dvd.dvd.add h3 h1)
    constructor
    · intro t ht
      simp at ht
      rcases ht with rfl | ht
      · exact ⟨_, rfl, key l h h3⟩
      · exact ih.1 t ht
    · intro a ha
      simp at ha
      rcases ha with rfl | ha
      · exact key2 l h h3
      · exact ih.2 a ha
  | queryFailed l id e h hm => exact ⟨by simpa using ⟨_, rfl, key l h h3⟩, by simpa using key2 l h h3⟩
  | rowsFailed l id f rows n e h hm hr =>
    exact ⟨by simpa using ⟨_, rfl, key l h h3⟩, by simpa using key2 l h h3⟩
  | rowsPanic l id f rows msg h hm hr =>
    exact ⟨by simpa using ⟨_, rfl, key l h h3⟩, by simpa using key2 l h h3⟩
  | rowsOk l id f rows n evs d o h hm hr rest ih =>
    have ih := ih (Dvd.dvd.add h3 h1)
    constructor
    · intro t ht
      simp at ht
      rcases ht with rfl | ht
      · exact ⟨_, rfl, key l h h3⟩
      · exact ih.1 t ht
    · intro a ha
      simp at ha
      rcases ha with rfl | ha
      · exact key2 l h h3
      · exact ih.2 a ha

theorem chunkCount_le (stride len k : Nat) (hs : 0 < stride) (h : len ≤ k * stride) :
    chunkCount stride len ≤ k := by
  unfold chunkCount
  have h1 : len + stride - 1 < (k + 1) * stride := by
    rw [Nat.add_mul]
    omega
  have := (Nat.div_lt_iff_lt_mul hs).mpr h1
  omega

theorem chunkCount_gt (stride len k : Nat) (hs : 0 < stride) (h : k * stride < len) :
    k < chunkCount stride len := by
  unfold chunkCount
  have h1 : (k + 1) * stride ≤ len + stride - 1 := by
    rw [Nat.add_mul]
    omega
  exact (Nat.le_div_iff_mul_le hs).mpr h1

/-- The statement texts of a run from chunk `k` on are the first texts of the
chunks `k, k+1, ...` of a list of this length, all of them when the run
returns nil. -/
theorem Run_texts {q : Nat → GoString} {values : List Value} {stride : Nat}
    {returning : Bool} {l : Nat} {evs : List Event} {d : List Stmt} {o : Outcome (Option Error)}
    (h : Run q values stride returning l evs d o) (hs : 0 < stride) :
    ∀ k, l = k * stride →
      (preparedTexts evs <+: (List.range' k (chunkCount stride values.length - k)).map
          (fun i => q (chunkSize stride values.length i))) ∧
      (o = .ret none → preparedTexts evs = (List.range' k (chunkCount stride values.length - k)).map
          (fun i => q (chunkSize stride values.length i))) := by
  have first : ∀ k, k * stride < values.length →
      (List.range' k (chunkCount stride values.length - k)).map
          (fun i => q (chunkSize stride values.length i)) =
        q (rightBoundOf stride values.length (k * stride) - k * stride) ::
          (List.range' (k + 1) (chunkCount stride values.length - (k + 1))).map
            (fun i => q (chunkSize stride values.length i)) := by
    intro k hk
    have := chunkCount_gt stride values.length k hs hk
    have e : chunkCount stride values.length - k =
        (chunkCount stride values.length - (k + 1)) + 1 := by omega
    rw [e, List.range'_succ, List.map_cons]
    rfl
  induction h with
  | done l h =>
    intro k hk
    subst hk
    have := chunkCount_le stride values.length k hs (by omega)
    have e : chunkCount stride values.length - k = 0 := by omega
    simp [e]
  | prepareFailed l e h =>
    intro k hk
    subst hk
    rw [first k h]
    simp
  | execFailed l id e h hm =>
    intro k hk
    subst hk
    rw [first k h]
    simp [chunkError]
  | execOk l id evs d o h hm rest ih =>
    intro k hk
    subst hk
    rw [first k h]
    have ih := ih (k + 1) (by rw [Nat.add_mul]; omega)
    simpa using ih
  | queryFailed l id e h hm =>
    intro k hk
    subst hk
    rw [first k h]
    simp
  | rowsFailed l id f rows n e h hm hr =>
    intro k hk
    subst hk
    rw [first k h]
    simp [chunkError]
  | rowsPanic l id f rows msg h hm hr =>
    intro k hk
    subst hk
    rw [first k h]
    simp
  | rowsOk l id f rows n evs d o h hm hr rest ih =>
    intro k hk
    subst hk
    rw [first k h]
    have ih := ih (k + 1) (by rw [Nat.add_mul]; omega)
    simpa using ih

/-- After validation, the texts and slices of `bulkInsert` are those of its loop. -/
theorem bulkInsert_run_lists {σ : Type} (E : Env σ) (db : DB) (ctx : Context) (table : GoString)
    (columns : List GoString) (returningColumns : Option (List GoString)) (values : List Value)
    (conflictAction : GoString) (scanFunc : Option (List Value → Option ExtError))
    (w : World σ) (hc : columns ≠ []) (hm : values.length % columns.length = 0)
    (hk : columns.length ≤ 1000) :
    ∃ evs d,
      Run (chunkText table columns returningColumns conflictAction) values
        (strideOf columns.length) returningColumns.isSome 0 evs d
        (db.bulkInsert E ctx table columns returningColumns values conflictAction scanFunc w).val ∧
      preparedTexts (db.bulkInsert E ctx table columns returningColumns values conflictAction
        scanFunc w).events = preparedTexts evs ∧
      boundArgs (db.bulkInsert E ctx table columns returningColumns values conflictAction
        scanFunc w).events = boundArgs evs := by
  obtain ⟨evs, d, hrun, hev⟩ := bulkInsert_run E db ctx table columns returningColumns values
    conflictAction scanFunc w hc hm hk
  refine ⟨evs, d, hrun, ?_, ?_⟩
  · rw [← preparedTexts_dbEvents, hev, preparedTexts_append, preparedTexts_stmtClose,
      List.append_nil]
  · rw [← boundArgs_dbEvents, hev, boundArgs_append, boundArgs_stmtClose, List.append_nil]

theorem slice_append_drop (values : List Value) (stride l : Nat) (hl : l < values.length) :
    (values.take (rightBoundOf stride values.length l)).drop l ++ values.drop (l + stride) =
      values.drop l := by
  have hle := rightBoundOf_le stride values.length l
  have hd : values.drop (l + stride) = values.drop (rightBoundOf stride values.length l) := by
    unfold rightBoundOf
    split
    · rw [List.drop_eq_nil_of_le (by omega), List.drop_eq_nil_of_le (Nat.le_refl _)]
    · rfl
  have hge : l ≤ rightBoundOf stride values.length l := by
    unfold rightBoundOf
    split <;> omega
  rw [hd]
  conv_rhs => rw [← List.take_append_drop (rightBoundOf stride values.length l) values]
  rw [List.drop_append_of_le_length (by simp; omega)]

theorem sum_div_of_dvd (c : Nat) (L : List (List Value)) (h : ∀ a ∈ L, c ∣ a.length) :
    (L.map (fun a => a.length / c)).sum = L.flatten.length / c := by
  induction L with
  | nil => simp
  | cons a rest ih =>
    have h1 : c ∣ a.length := h a (List.mem_cons_self _ _)
    have h2 := ih (fun b hb => h b (List.mem_cons_of_mem _ hb))
    simp only [List.map_cons, List.sum_cons, List.flatten_cons, List.length_append]
    rw [Nat.add_div_of_dvd_right h1, h2]

/-- A run without returning columns in which no event carries an error
returns nil, and the slices it bound make up the values from `l` on. -/
theorem Run_no_failure {q : Nat → GoString} {values : List Value} {stride : Nat}
    {returning : Bool} {l : Nat} {evs : List Event} {d : List Stmt} {o : Outcome (Option Error)}
    (h : Run q values stride returning l evs d o) (hr : returning = false)
    (hok : ∀ e ∈ evs, e.err = none) :
    o = .ret none ∧ (boundArgs evs).flatten = values.drop l := by
  induction h with
  | done l h => exact ⟨rfl, by simp [List.drop_eq_nil_of_le (Nat.le_of_not_lt h)]⟩
  | prepareFailed l e h => simpa [Event.err] using hok _ (List.mem_cons_self _ _)
  | execFailed l id e h hm =>
    simpa [Event.err] using hok _ (List.mem_cons_of_mem _ (List.mem_cons_self _ _))
  | execOk l id evs d o h hm rest ih =>
    have ih := ih (fun e he => hok e (List.mem_cons_of_mem _ (List.mem_cons_of_mem _ he)))
    refine ⟨ih.1, ?_⟩
    simp only [boundArgs_prepare, boundArgs_stmtExec, List.flatten_cons, ih.2]
    exact slice_append_drop values stride l h
  | queryFailed l id e h hm => simp [hr] at hm
  | rowsFailed l id f rows n e h hm hr2 => simp [hr] at hm
  | rowsPanic l id f rows msg h hm hr2 => simp [hr] at hm
  | rowsOk l id f rows n evs d o h hm hr2 rest ih => simp [hr] at hm

theorem BulkInsert_events {σ : Type} (E : Env σ) (db : DB) (ctx : Context) (table : GoString)
    (columns : List GoString) (values : List Value) (conflictAction : GoString) (w : World σ) :
    (db.BulkInsert E ctx table columns values conflictAction w).events =
      (db.bulkInsert E ctx table columns none values conflictAction none w).events := by
  unfold DB.BulkInsert
  simp only
  split <;> rfl

theorem BulkInsert_world {σ : Type} (E : Env σ) (db : DB) (ctx : Context) (table : GoString)
    (columns : List GoString) (values : List Value) (conflictAction : GoString) (w : World σ) :
    (db.BulkInsert E ctx table columns values conflictAction w).world =
      (db.bulkInsert E ctx table columns none values conflictAction none w).world := by
  unfold DB.BulkInsert
  simp only
  split <;> rfl

theorem BulkInsert_val {σ : Type} (E : Env σ) (db : DB) (ctx : Context) (table : GoString)
    (columns : List GoString) (values : List Value) (conflictAction : GoString) (w : World σ) :
    (∀ err, (db.bulkInsert E ctx table columns none values conflictAction none w).val = .ret err →
      (db.BulkInsert E ctx table columns values conflictAction w).val =
        .ret (wraperr.Wrap err (go "DB.BulkInsert(ctx, " ++ strconvQuote table ++ go ", " ++
          fmtStrings columns ++ go ", [" ++ itoa values.length ++ go " values], " ++
          strconvQuote conflictAction ++ go ")"))) := by
  intro err h
  unfold DB.BulkInsert
  simp only [h]

/-- A run sends no statement text for direct execution. -/
theorem Run_direct {q : Nat → GoString} {values : List Value} {stride : Nat}
    {returning : Bool} {l : Nat} {evs : List Event} {d : List Stmt} {o : Outcome (Option Error)}
    (h : Run q values stride returning l evs d o) : ∀ e ∈ evs, e.direct = none := by
  induction h with
  | done l h => simp
  | prepareFailed l e h => simp [Event.direct]
  | execFailed l id e h hm => simp [Event.direct]
  | execOk l id evs d o h hm rest ih => simpa [Event.direct] using ih
  | queryFailed l id e h hm => simp [Event.direct]
  | rowsFailed l id f rows n e h hm hr =>
    simp only [List.mem_cons, List.mem_append, List.not_mem_nil, or_false]
    rintro e (rfl | rfl | he | rfl)
    · rfl
    · rfl
    · exact (processRowsLoop_events _ _ _ _ e he).2.2.1
    · rfl
  | rowsPanic l id f rows msg h hm hr =>
    simp only [List.mem_cons, List.mem_append, List.not_mem_nil, or_false]
    rintro e (rfl | rfl | he | rfl)
    · rfl
    · rfl
    · exact (processRowsLoop_events _ _ _ _ e he).2.2.1
    · rfl
  | rowsOk l id f rows n evs d o h hm hr rest ih =>
    simp only [List.mem_cons, List.mem_append, List.not_mem_nil, or_false]
    rintro e (rfl | rfl | (he | rfl) | he)
    · rfl
    · rfl
    · exact (processRowsLoop_events _ _ _ _ e he).2.2.1
    · rfl
    · exact ih e he

/-- The events of `bulkInsert` send no statement text for direct execution. -/
theorem bulkInsert_direct {σ : Type} (E : Env σ) (db : DB) (ctx : Context) (table : GoString)
    (columns : List GoString) (returningColumns : Option (List GoString)) (values : List Value)
    (conflictAction : GoString) (scanFunc : Option (List Value → Option ExtError))
    (w : World σ) :
    directTexts (db.bulkInsert E ctx table columns returningColumns values conflictAction
      scanFunc w).events = [] := by
  unfold directTexts
  rw [List.filterMap_eq_nil_iff]
  intro e he
  by_cases hv : columns ≠ [] ∧ values.length % columns.length = 0 ∧ columns.length ≤ 1000
  · obtain ⟨evs, d, hrun, hev⟩ := bulkInsert_run E db ctx table columns returningColumns values
      conflictAction scanFunc w hv.1 hv.2.1 hv.2.2
    cases hlog : e.isLog with
    | true => cases e <;> first | rfl | simp [Event.isLog] at hlog
    | false =>
      have hmem : e ∈ dbEvents (db.bulkInsert E ctx table columns returningColumns values
          conflictAction scanFunc w).events := by
        unfold dbEvents
        exact List.mem_filter.mpr ⟨he, by simp [hlog]⟩
      rw [hev, List.mem_append] at hmem
      rcases hmem with hmem | hmem
      · exact Run_direct hrun e hmem
      · obtain ⟨st, _, rfl⟩ := List.mem_map.mp hmem
        rfl
  · exfalso
    revert he
    unfold DB.bulkInsert
    by_cases h0 : columns.length = 0
    · simp [h0]
    · by_cases h1 : values.length % columns.length = 0
      · have h2 : 1000 < columns.length := by
          by_contra hh
          exact hv ⟨by intro hn; simp [hn] at h0, h1, by omega⟩
        have hz := (strideOf_eq_zero columns.length (by omega)).mpr h2
        unfold strideOf at hz
        simp [h0, h1, hz]
      · simp [h0, h1]

/-- The statement texts `bulkInsert` prepares are the first texts of the
chunks of a list of this length, all of them when it returns nil; this holds
for every input. -/
theorem bulkInsert_texts {σ : Type} (E : Env σ) (db : DB) (ctx : Context) (table : GoString)
    (columns : List GoString) (values : List Value) (conflictAction : GoString) (w : World σ) :
    (preparedTexts (db.bulkInsert E ctx table columns none values conflictAction none w).events
      <+: bulkInsertTexts table columns conflictAction values.length) ∧
    ((db.bulkInsert E ctx table columns none values conflictAction none w).val = .ret none →
      preparedTexts (db.bulkInsert E ctx table columns none values conflictAction none w).events
        = bulkInsertTexts table columns conflictAction values.length) := by
  by_cases hv : columns ≠ [] ∧ values.length % columns.length = 0 ∧ columns.length ≤ 1000
  · obtain ⟨evs, d, hrun, ht, _⟩ := bulkInsert_run_lists E db ctx table columns none values
      conflictAction none w hv.1 hv.2.1 hv.2.2
    have hs := strideOf_pos _ (List.length_pos.mpr hv.1) hv.2.2
    have hx := Run_texts hrun hs 0 (by simp)
    rw [ht]
    exact hx
  · have : (db.bulkInsert E ctx table columns none values conflictAction none w).events = [] ∧
        (db.bulkInsert E ctx table columns none values conflictAction none w).val ≠ .ret none := by
      unfold DB.bulkInsert
      by_cases h0 : columns.length = 0
      · simp [h0]
      · by_cases h1 : values.length % columns.length = 0
        · have h2 : 1000 < columns.length := by
            by_contra hh
            exact hv ⟨by intro hn; simp [hn] at h0, h1, by omega⟩
          have hz := (strideOf_eq_zero columns.length (by omega)).mpr h2
          unfold strideOf at hz
          simp [h0, h1, hz]
        · simp [h0, h1]
    rw [this.1]
    exact ⟨List.nil_prefix, fun h => absurd h this.2⟩

theorem BulkInsert_val_nil {σ : Type} (E : Env σ) (db : DB) (ctx : Context) (table : GoString)
    (columns : List GoString) (values : List Value) (conflictAction : GoString) (w : World σ)
    (h : (db.BulkInsert E ctx table columns values conflictAction w).val = .ret none) :
    (db.bulkInsert E ctx table columns none values conflictAction none w).val = .ret none := by
  unfold DB.BulkInsert at h
  simp only at h
  split at h
  · rename_i err herr
    rw [herr]
    cases err with
    | none => rfl
    | some e => simp [wraperr.Wrap] at h
  · rename_i o hne
    simp only at h
    exact absurd h (by rw [h] at hne; exact fun _ => hne none rfl)

/-- An event of `processRows` that carries an error is the last one, no
earlier one carries an error, and its error is the one returned. -/
theorem processRowsLoop_failure (f : Option (List Value → Option ExtError))
    (final : Option ExtError) (rows : List (List Value)) (n : Nat) :
    ∀ ev ∈ (processRowsLoop f final rows n).1, ∀ e, ev.err = some e →
      ∃ pre m, (processRowsLoop f final rows n).1 = pre ++ [ev] ∧
        (∀ p ∈ pre, p.err = none) ∧
        (processRowsLoop f final rows n).2 = .ret (m, some e) := by
  induction rows generalizing n with
  | nil =>
    intro ev hev e he
    simp only [processRowsLoop, List.mem_singleton] at hev
    subst hev
    simp only [Event.err] at he
    exact ⟨[], n, by simp [processRowsLoop], by simp, by simp [processRowsLoop, he]⟩
  | cons row rest ih =>
    intro ev hev e he
    unfold processRowsLoop at hev ⊢
    cases f with
    | none => simp at hev
    | some g =>
      cases hg : g row with
      | some err =>
        simp only [hg, List.mem_singleton] at hev ⊢
        subst hev
        simp only [Event.err, Option.some.injEq] at he
        subst he
        exact ⟨[], n + 1, rfl, by simp, rfl⟩
      | none =>
        simp only [hg, List.mem_cons] at hev ⊢
        rcases hev with rfl | hev
        · simp [Event.err] at he
        · obtain ⟨pre, m, h1, h2, h3⟩ := ih (n + 1) ev hev e he
          refine ⟨.scan row none :: pre, m, by rw [h1]; rfl, ?_, h3⟩
          intro p hp
          rcases List.mem_cons.mp hp with rfl | hp
          · rfl
          · exact h2 p hp

theorem failureReturn_of_row (ev : Event) (l r : Nat) (e : ExtError)
    (h1 : ev.prepared = none) (h2 : ev.bound = none) :
    failureReturn ev l r e = chunkError l r e := by
  cases ev <;> simp_all [Event.prepared, Event.bound, failureReturn]

/-- The shape of a run in which the event `ev` failed with `e`: no earlier
event failed, nothing but the close of the rows follows `ev`, the run returns
`failureReturn`, and the texts prepared and the slices bound are those of the
chunks up to the failing one. -/
theorem Run_failure {q : Nat → GoString} {values : List Value} {stride : Nat}
    {returning : Bool} {l : Nat} {evs : List Event} {d : List Stmt} {o : Outcome (Option Error)}
    (h : Run q values stride returning l evs d o) :
    ∀ ev ∈ evs, ∀ e, ev.err = some e → ∀ k, l = k * stride →
      ∃ n pre post,
        evs = pre ++ ev :: post ∧ (∀ p ∈ pre, p.err = none) ∧
        (∀ p ∈ post, p = Event.rowsClose) ∧
        o = .ret (some (failureReturn ev ((k + n) * stride)
          (rightBoundOf stride values.length ((k + n) * stride)) e)) ∧
        preparedTexts evs =
          (List.range' k (n + 1)).map (fun i => q (chunkSize stride values.length i)) ∧
        boundArgs evs =
          (List.range' k (n + (if ev.prepared.isSome then 0 else 1))).map
            (chunkSlice stride values) ∧
        (∀ args, ev.bound = some args → args = chunkSlice stride values (k + n)) := by
  induction h with
  | done l h => simp
  | prepareFailed l e0 h =>
    intro ev hev e he k hk
    subst hk
    simp only [List.mem_singleton] at hev
    subst hev
    simp only [Event.err, Option.some.injEq] at he
    subst he
    refine ⟨0, [], [], rfl, by simp, by simp, rfl, rfl, rfl, ?_⟩
    intro args ha
    simp [Event.bound] at ha
  | execFailed l id e0 h hm =>
    intro ev hev e he k hk
    subst hk
    simp only [List.mem_cons, List.not_mem_nil, or_false] at hev
    rcases hev with rfl | rfl
    · simp [Event.err] at he
    · simp only [Event.err, Option.some.injEq] at he
      subst he
      refine ⟨0, [_], [], rfl, by simp [Event.err], by simp, rfl, rfl, rfl, ?_⟩
      intro args ha
      simp only [Event.bound, Option.some.injEq] at ha
      subst ha
      rfl
  | execOk l id evs d o h hm rest ih =>
    intro ev hev e he k hk
    subst hk
    simp only [List.mem_cons] at hev
    rcases hev with rfl | rfl | hev
    · simp [Event.err] at he
    · simp [Event.err] at he
    · obtain ⟨n, pre, post, h1, hp, h2, h3, h4, h5, h6⟩ := ih ev hev e he (k + 1)
        (by rw [Nat.add_mul]; omega)
      have e1 : k + 1 + n = k + (n + 1) := by omega
      rw [e1] at h3 h6
      refine ⟨n + 1, _ :: _ :: pre, post, by rw [h1]; rfl, ?_, h2, h3, ?_, ?_, h6⟩
      · intro p hpm
        simp only [List.mem_cons] at hpm
        rcases hpm with rfl | rfl | hpm
        · rfl
        · rfl
        · exact hp p hpm
      · rw [preparedTexts_prepare, preparedTexts_stmtExec, h4, List.range'_succ k (n + 1)]
        rfl
      · rw [boundArgs_prepare, boundArgs_stmtExec, h5]
        have e2 : n + 1 + (if ev.prepared.isSome then 0 else 1) =
            (n + (if ev.prepared.isSome then 0 else 1)) + 1 := by omega
        rw [e2, List.range'_succ k]
        rfl
  | queryFailed l id e0 h hm =>
    intro ev hev e he k hk
    subst hk
    simp only [List.mem_cons, List.not_mem_nil, or_false] at hev
    rcases hev with rfl | rfl
    · simp [Event.err] at he
    · simp only [Event.err, Option.some.injEq] at he
      subst he
      refine ⟨0, [_], [], rfl, by simp [Event.err], by simp, rfl, rfl, rfl, ?_⟩
      intro args ha
      simp only [Event.bound, Option.some.injEq] at ha
      subst ha
      rfl
  | rowsFailed l id f rows n0 e0 h hm hr =>
    intro ev hev e he k hk
    subst hk
    simp only [List.mem_cons, List.mem_append, List.not_mem_nil, or_false] at hev
    rcases hev with rfl | rfl | hev | rfl
    · simp [Event.err] at he
    · simp [Event.err] at he
    · obtain ⟨pre, m, h1, hp, h2⟩ := processRowsLoop_failure _ _ _ _ ev hev e he
      have hrow := processRowsLoop_events _ _ _ _ ev hev
      rw [hr] at h2
      simp only [Outcome.ret.injEq, Prod.mk.injEq, Option.some.injEq] at h2
      obtain ⟨_, rfl⟩ := h2
      refine ⟨0, Event.prepare (q (rightBoundOf stride values.length (k * stride) - k * stride)) none
        :: Event.stmtQuery ⟨id, q (rightBoundOf stride values.length (k * stride) - k * stride)⟩
          ((values.take (rightBoundOf stride values.length (k * stride))).drop (k * stride)) none
        :: pre, [.rowsClose], ?_, ?_, by simp, ?_, ?_, ?_, ?_⟩
      · rw [h1]
        simp
      · intro p hpm
        simp only [List.mem_cons] at hpm
        rcases hpm with rfl | rfl | hpm
        · rfl
        · rfl
        · exact hp p hpm
      · rw [failureReturn_of_row ev _ _ _ hrow.1 hrow.2.1]
        rfl
      · simp
        rfl
      · simp [hrow.1]
        rfl
      · intro args ha
        rw [hrow.2.1] at ha
        cases ha
    · simp [Event.err] at he
  | rowsPanic l id f rows msg h hm hr =>
    intro ev hev e he k hk
    simp only [List.mem_cons, List.mem_append, List.not_mem_nil, or_false] at hev
    rcases hev with rfl | rfl | hev | rfl
    · simp [Event.err] at he
    · simp [Event.err] at he
    · obtain ⟨pre, m, h1, _, h2⟩ := processRowsLoop_failure _ _ _ _ ev hev e he
      rw [hr] at h2
      cases h2
    · simp [Event.err] at he
  | rowsOk l id f rows n0 evs d o h hm hr rest ih =>
    intro ev hev e he k hk
    subst hk
    have hrows : ∀ p ∈ (processRowsLoop f rows.err rows.rows 0).1, p.err = none := by
      intro p hpm
      cases hpe : p.err with
      | none => rfl
      | some e' =>
        obtain ⟨_, _, _, _, h2⟩ := processRowsLoop_failure _ _ _ _ p hpm e' hpe
        rw [hr] at h2
        simp at h2
    simp only [List.mem_cons, List.mem_append, List.not_mem_nil, or_false] at hev
    rcases hev with rfl | rfl | (hev | rfl) | hev
    · simp [Event.err] at he
    · simp [Event.err] at he
    · rw [hrows ev hev] at he
      cases he
    · simp [Event.err] at he
    · obtain ⟨n, pre, post, h1, hp, h2, h3, h4, h5, h6⟩ := ih ev hev e he (k + 1)
        (by rw [Nat.add_mul]; omega)
      have e1 : k + 1 + n = k + (n + 1) := by omega
      rw [e1] at h3 h6
      refine ⟨n + 1,
        Event.prepare (q (rightBoundOf stride values.length (k * stride) - k * stride)) none
        :: Event.stmtQuery ⟨id, q (rightBoundOf stride values.length (k * stride) - k * stride)⟩
          ((values.take (rightBoundOf stride values.length (k * stride))).drop (k * stride)) none
        :: ((processRowsLoop f rows.err rows.rows 0).1 ++ [.rowsClose] ++ pre),
        post, by rw [h1]; simp, ?_, h2, h3, ?_, ?_, h6⟩
      · intro p hpm
        simp only [List.mem_cons, List.mem_append, List.not_mem_nil, or_false] at hpm
        rcases hpm with rfl | rfl | (hpm | rfl) | hpm
        · rfl
        · rfl
        · exact hrows p hpm
        · rfl
        · exact hp p hpm
      · rw [preparedTexts_prepare, preparedTexts_stmtQuery, List.append_assoc,
          preparedTexts_rows_append, List.singleton_append, preparedTexts_rowsClose, h4,
          List.range'_succ k (n + 1)]
        rfl
      · rw [boundArgs_prepare, boundArgs_stmtQuery, List.append_assoc,
          boundArgs_rows_append, List.singleton_append, boundArgs_rowsClose, h5]
        have e2 : n + 1 + (if ev.prepared.isSome then 0 else 1) =
            (n + (if ev.prepared.isSome then 0 else 1)) + 1 := by omega
        rw [e2, List.range'_succ k]
        rfl

theorem chunkSlices_flatten (values : List Value) (stride : Nat) (n : Nat) :
    ((List.range' 0 n).map (chunkSlice stride values)).flatten = values.take (n * stride) := by
  induction n with
  | zero => simp
  | succ n ih =>
    rw [List.range'_concat, List.map_append, List.flatten_append, ih]
    simp only [Nat.zero_add, Nat.one_mul, List.map_cons, List.map_nil, List.flatten_cons,
      List.flatten_nil, List.append_nil, chunkSlice]
    have e : (n + 1) * stride = n * stride + stride := by rw [Nat.add_mul]; omega
    rw [e]
    unfold rightBoundOf
    split
    · rw [List.take_of_length_le (Nat.le_refl _), List.take_append_drop,
        List.take_of_length_le (by omega)]
    · have := List.take_append_drop (n * stride) (values.take (n * stride + stride))
      rw [List.take_take, Nat.min_eq_left (by omega)] at this
      exact this

/-- The event that failed in a call of `bulkInsert` on a valid input, set
against the whole call. -/
theorem bulkInsert_failure {σ : Type} (E : Env σ) (db : DB) (ctx : Context) (table : GoString)
    (columns : List GoString) (returningColumns : Option (List GoString)) (values : List Value)
    (conflictAction : GoString) (scanFunc : Option (List Value → Option ExtError))
    (w : World σ) (hc : columns ≠ []) (hm : values.length % columns.length = 0)
    (hk : columns.length ≤ 1000) (ev : Event) (e : ExtError)
    (hev : ev ∈ (db.bulkInsert E ctx table columns returningColumns values conflictAction
      scanFunc w).events) (he : ev.err = some e) :
    ∃ n pre post,
      dbEvents (db.bulkInsert E ctx table columns returningColumns values conflictAction
        scanFunc w).events = pre ++ ev :: post ∧
      (∀ p ∈ pre, p.err = none) ∧
      (∀ p ∈ post, p = Event.rowsClose ∨ p.isStmtClose = true) ∧
      (db.bulkInsert E ctx table columns returningColumns values conflictAction scanFunc w).val =
        .ret (some (failureReturn ev (n * strideOf columns.length)
          (rightBoundOf (strideOf columns.length) values.length (n * strideOf columns.length)) e)) ∧
      preparedTexts (db.bulkInsert E ctx table columns returningColumns values conflictAction
        scanFunc w).events = (List.range' 0 (n + 1)).map (fun i =>
          chunkText table columns returningColumns conflictAction
            (chunkSize (strideOf columns.length) values.length i)) ∧
      boundArgs (db.bulkInsert E ctx table columns returningColumns values conflictAction
        scanFunc w).events = (List.range' 0 (n + (if ev.prepared.isSome then 0 else 1))).map
          (chunkSlice (strideOf columns.length) values) ∧
      (∀ args, ev.bound = some args → args = chunkSlice (strideOf columns.length) values n) := by
  obtain ⟨evs, d, hrun, hdb⟩ := bulkInsert_run E db ctx table columns returningColumns values
    conflictAction scanFunc w hc hm hk
  have hlog : ev.isLog = false := by
    cases ev <;> first | rfl | simp [Event.err] at he
  have hmem : ev ∈ dbEvents (db.bulkInsert E ctx table columns returningColumns values
      conflictAction scanFunc w).events := by
    unfold dbEvents
    exact List.mem_filter.mpr ⟨hev, by simp [hlog]⟩
  rw [hdb, List.mem_append] at hmem
  have hin : ev ∈ evs := by
    rcases hmem with hmem | hmem
    · exact hmem
    · obtain ⟨st, _, rfl⟩ := List.mem_map.mp hmem
      simp [Event.err] at he
  obtain ⟨n, pre, post, h1, hp, h2, h3, h4, h5, h6⟩ := Run_failure hrun ev hin e he 0 (by simp)
  simp only [Nat.zero_add] at h3 h6
  refine ⟨n, pre, post ++ d.reverse.map Event.stmtClose, ?_, hp, ?_, h3, ?_, ?_, h6⟩
  · rw [hdb, h1]
    simp
  · intro p hpm
    rcases List.mem_append.mp hpm with hpm | hpm
    · exact Or.inl (h2 p hpm)
    · obtain ⟨st, _, rfl⟩ := List.mem_map.mp hpm
      exact Or.inr rfl
  · rw [← preparedTexts_dbEvents, hdb, preparedTexts_append, preparedTexts_stmtClose,
      List.append_nil, h4]
  · rw [← boundArgs_dbEvents, hdb, boundArgs_append, boundArgs_stmtClose, List.append_nil, h5]

theorem logQuery_env {σ : Type} (E : Env σ) (ctx : Context) (query : GoString)
    (args : List Value) (instanceID : GoString) (w : World σ) :
    (logQuery E ctx query args instanceID w).world.env = w.env := by
  unfold logQuery
  split <;> simp [generateLoggingID]

theorem ExecBody_env {σ : Type} (E : Env σ) (db : DB) (ctx : Context) (query : GoString)
    (args : List Value) (w w2 : World σ) (h : w.env = w2.env) :
    (db.ExecBody E ctx query args w).val = (db.ExecBody E ctx query args w2).val ∧
    (db.ExecBody E ctx query args w).events = (db.ExecBody E ctx query args w2).events ∧
    (db.ExecBody E ctx query args w).world.env = (db.ExecBody E ctx query args w2).world.env := by
  unfold DB.ExecBody DB.execResult
  simp only [h]
  split
  · exact ⟨rfl, rfl, rfl⟩
  · split <;> exact ⟨rfl, rfl, rfl⟩

theorem ExecBody_dbEvents {σ : Type} (E : Env σ) (db : DB) (ctx : Context) (query : GoString)
    (args : List Value) (w : World σ) :
    dbEvents (db.ExecBody E ctx query args w).events = (db.ExecBody E ctx query args w).events := by
  unfold DB.ExecBody DB.execResult
  split
  rename_i s res heq
  cases res with
  | error e => simp [dbEvents_cons, dbEvents_nil, Event.isLog]
  | ok r =>
    cases hr : r.RowsAffected with
    | error e => simp [hr, dbEvents_cons, dbEvents_nil, Event.isLog]
    | ok n => simp [hr, dbEvents_cons, dbEvents_nil, Event.isLog]

theorem logQueryDone_val {σ : Type} (E : Env σ) (f : Option QueryLog) (err : Option Error)
    (w : World σ) :
    (logQueryDone E f (some err) w).val =
        some (match f with
          | none => err
          | some f => wraperr.Wrap err (go "DB running query " ++ f.uid)) := by
  unfold logQueryDone
  cases f with
  | none => rfl
  | some f =>
    simp only
    cases err with
    | none => rfl
    | some e => rfl

theorem logQueryDone_world {σ : Type} (E : Env σ) (f : Option QueryLog)
    (errp : Option (Option Error)) (w : World σ) :
    (logQueryDone E f errp w).world = w := by
  unfold logQueryDone
  cases f with
  | none => rfl
  | some f =>
    simp only
    cases errp with
    | none => rfl
    | some err =>
      cases err with
      | none => rfl
      | some e => rfl

theorem logQueryDone_dbEvents {σ : Type} (E : Env σ) (f : Option QueryLog)
    (errp : Option (Option Error)) (w : World σ) :
    dbEvents (logQueryDone E f errp w).events = [] := by
  unfold logQueryDone
  cases f with
  | none => rfl
  | some f =>
    simp only
    cases errp with
    | none => rfl
    | some err =>
      cases err with
      | none => rfl
      | some e => rfl

theorem logQuery_val {σ : Type} (E : Env σ) (ctx : Context) (query : GoString)
    (args : List Value) (instanceID : GoString) (w : World σ) :
    (w.QueryLoggingDisabled = true → (logQuery E ctx query args instanceID w).val = none) ∧
    (w.QueryLoggingDisabled = false →
      ∃ f, (logQuery E ctx query args instanceID w).val = some f ∧
        f.uid = (generateLoggingID instanceID w).2) := by
  unfold logQuery
  constructor
  · intro h
    simp [h]
  · intro h
    simp [h]

theorem Run_val_ne_outOfFuel {q : Nat → GoString} {values : List Value} {stride : Nat}
    {returning : Bool} {l : Nat} {evs : List Event} {d : List Stmt} {o : Outcome (Option Error)}
    (h : Run q values stride returning l evs d o) : o ≠ .outOfFuel := by
  induction h with
  | done l h => simp
  | prepareFailed l e h => simp
  | execFailed l id e h hm => simp
  | execOk l id evs d o h hm rest ih => exact ih
  | queryFailed l id e h hm => simp
  | rowsFailed l id f rows n e h hm hr => simp
  | rowsPanic l id f rows msg h hm hr => simp
  | rowsOk l id f rows n evs d o h hm hr rest ih => exact ih

/-- The fuel `bulkInsert` gives its loop is enough: the call returns or
panics, for every input and every environment. -/
theorem bulkInsert_fuel {σ : Type} (E : Env σ) (db : DB) (ctx : Context) (table : GoString)
    (columns : List GoString) (returningColumns : Option (List GoString)) (values : List Value)
    (conflictAction : GoString) (scanFunc : Option (List Value → Option ExtError))
    (w : World σ) :
    (db.bulkInsert E ctx table columns returningColumns values conflictAction scanFunc w).val ≠
      .outOfFuel := by
  by_cases hv : columns ≠ [] ∧ values.length % columns.length = 0 ∧ columns.length ≤ 1000
  · obtain ⟨evs, d, hrun, _⟩ := bulkInsert_run E db ctx table columns returningColumns values
      conflictAction scanFunc w hv.1 hv.2.1 hv.2.2
    exact Run_val_ne_outOfFuel hrun
  · unfold DB.bulkInsert
    by_cases h0 : columns.length = 0
    · simp [h0]
    · by_cases h1 : values.length % columns.length = 0
      · have h2 : 1000 < columns.length := by
          by_contra hh
          exact hv ⟨by intro hn; simp [hn] at h0, h1, by omega⟩
        have hz := (strideOf_eq_zero columns.length (by omega)).mpr h2
        unfold strideOf at hz
        simp [h0, h1, hz]
      · simp [h0, h1]

theorem stringsContains_cons (b : UInt8) (s sub : GoString) :
    stringsContains (b :: s) sub = (sub.isPrefixOf (b :: s) || stringsContains s sub) := by
  simp [stringsContains, List.tails]

theorem stringsContains_append_left (a s sub : GoString)
    (h : stringsContains s sub = true) : stringsContains (a ++ s) sub = true := by
  induction a with
  | nil => exact h
  | cons b rest ih =>
    rw [List.cons_append, stringsContains_cons, ih]
    simp

theorem collapse_foldl (rs : List Nat) :
    ∀ (acc : List Nat) (b : Bool),
      b = (match acc.getLast? with
        | none => false
        | some last => IsSpace last) →
      rs.foldl collapseStep acc = acc ++ collapseRuns b (replaceNewlines rs) := by
  induction rs with
  | nil => intro acc b _; simp [collapseRuns, replaceNewlines]
  | cons c rest ih =>
    intro acc b hb
    simp only [List.foldl_cons, replaceNewlines, List.map_cons, collapseRuns]
    cases hl : acc.getLast? with
    | none =>
      rw [hl] at hb
      subst hb
      have hstep : collapseStep acc c = acc ++ [if c = 0x0A then 0x20 else c] := by
        unfold collapseStep
        simp [hl]
      rw [hstep]
      simp only [Bool.false_and, Bool.false_eq_true, if_false]
      rw [ih (acc ++ [if c = 0x0A then 0x20 else c]) (IsSpace (if c = 0x0A then 0x20 else c))
        (by simp)]
      simp [replaceNewlines]
    | some last =>
      rw [hl] at hb
      simp only at hb
      subst hb
      by_cases hs : IsSpace last = true ∧ IsSpace (if c = 0x0A then 0x20 else c) = true
      · have hstep : collapseStep acc c = acc := by
          unfold collapseStep
          simp [hl, hs.1, hs.2]
        rw [hstep]
        simp only [hs.1, hs.2, Bool.and_self, if_true]
        rw [ih acc true (by rw [hl]; exact hs.1.symm)]
        simp [replaceNewlines]
      · have h4 : (IsSpace last && IsSpace (if c = 0x0A then 0x20 else c)) = false := by
          cases h2 : IsSpace last <;> cases h3 : IsSpace (if c = 0x0A then 0x20 else c) <;>
            simp_all
        have hstep : collapseStep acc c = acc ++ [if c = 0x0A then 0x20 else c] := by
          unfold collapseStep
          cases h2 : IsSpace last <;> cases h3 : IsSpace (if c = 0x0A then 0x20 else c) <;>
            simp_all
        rw [hstep]
        simp only [h4, Bool.false_eq_true, if_false]
        rw [ih (acc ++ [if c = 0x0A then 0x20 else c])
          (IsSpace (if c = 0x0A then 0x20 else c)) (by simp)]
        simp [replaceNewlines]

theorem collapseSpaces_foldl (query : GoString) :
    collapseSpaces query = (runes query).foldl collapseStep [] := rfl

theorem collapseSpaces_eq (query : GoString) :
    collapseSpaces query = collapseRuns false (replaceNewlines (runes query)) := by
  rw [collapseSpaces_foldl, collapse_foldl (runes query) [] false rfl]
  rfl

theorem collapseRuns_filter (rs : List Nat) :
    ∀ b, (collapseRuns b rs).filter (fun c => !IsSpace c) = rs.filter (fun c => !IsSpace c) := by
  induction rs with
  | nil => intro b; rfl
  | cons c rest ih =>
    intro b
    unfold collapseRuns
    by_cases h : (b && IsSpace c) = true
    · have hc : IsSpace c = true := by
        cases b <;> simp_all
      rw [if_pos h, ih]
      simp [List.filter_cons, hc]
    · rw [if_neg h]
      simp only [List.filter_cons, ih]

theorem replaceNewlines_filter (rs : List Nat) :
    (replaceNewlines rs).filter (fun c => !IsSpace c) = rs.filter (fun c => !IsSpace c) := by
  induction rs with
  | nil => rfl
  | cons c rest ih =>
    unfold replaceNewlines at ih ⊢
    simp only [List.map_cons, List.filter_cons, ih]
    by_cases h : c = 0x0A
    · subst h
      have h1 : IsSpace 0x20 = true := by decide
      have h2 : IsSpace 0x0A = true := by decide
      simp [h1, h2]
    · simp [h]

theorem collapseRuns_chain (rs : List Nat) :
    ∀ b, (collapseRuns b rs).Chain' (fun x y => ¬ (IsSpace x = true ∧ IsSpace y = true)) ∧
      (b = true → ∀ x ∈ (collapseRuns b rs).head?, IsSpace x = false) := by
  induction rs with
  | nil => intro b; simp [collapseRuns]
  | cons c rest ih =>
    intro b
    unfold collapseRuns
    by_cases h : (b && IsSpace c) = true
    · rw [if_pos h]
      exact ⟨(ih true).1, fun _ => (ih true).2 rfl⟩
    · rw [if_neg h]
      constructor
      · rw [List.chain'_cons']
        refine ⟨?_, (ih (IsSpace c)).1⟩
        intro y hy hxy
        have := (ih (IsSpace c)).2 hxy.1 y hy
        rw [this] at hxy
        exact absurd hxy.2 (by simp)
      · intro hb x hx
        simp only [List.head?_cons, Option.mem_def, Option.some.injEq] at hx
        subst hx
        cases hc : IsSpace c with
        | false => rfl
        | true => simp [hb, hc] at h

theorem collapseRuns_subset (rs : List Nat) : ∀ b, ∀ x ∈ collapseRuns b rs, x ∈ rs := by
  induction rs with
  | nil => intro b x hx; simp [collapseRuns] at hx
  | cons c rest ih =>
    intro b x hx
    unfold collapseRuns at hx
    split at hx
    · exact List.mem_cons_of_mem _ (ih _ x hx)
    · rcases List.mem_cons.mp hx with rfl | hx
      · exact List.mem_cons_self _ _
      · exact List.mem_cons_of_mem _ (ih _ x hx)

theorem replaceNewlines_no_newline (rs : List Nat) : 0x0A ∉ replaceNewlines rs := by
  unfold replaceNewlines
  intro h
  obtain ⟨c, _, hc⟩ := List.mem_map.mp h
  by_cases h1 : c = 0x0A
  · simp [h1] at hc
  · simp only [h1, if_false] at hc

theorem displayQuery_length (query : GoString) : (displayQuery query).length ≤ 303 := by
  unfold displayQuery
  simp only
  split
  · rw [List.length_append, List.length_take]
    have : (go "...").length = 3 := by decide
    omega
  · omega

theorem argStringsLoop_eq (args : List Value) :
    ∀ (fuel i : Nat) (acc : List GoString), min args.length 20 - i < fuel →
      argStringsLoop args fuel i acc = acc ++ ((args.take 20).drop i).map previewArg := by
  intro fuel
  induction fuel with
  | zero => intro i acc h; omega
  | succ fuel ih =>
    intro i acc h
    unfold argStringsLoop
    by_cases hi : i < args.length ∧ i < 20
    · rw [if_pos hi]
      have hget : args[i]? = some args[i] := List.getElem?_eq_getElem hi.1
      rw [hget]
      simp only
      rw [ih (i + 1) _ (by omega)]
      have hlt : i < (args.take 20).length := by
        rw [List.length_take]
        omega
      rw [List.drop_eq_getElem_cons hlt]
      simp [previewArg, List.getElem_take]
    · rw [if_neg hi]
      have : (args.take 20).drop i = [] := by
        apply List.drop_eq_nil_of_le
        rw [List.length_take]
        omega
      rw [this]
      simp

theorem digit_toNat (d : Nat) (h : d < 10) : (UInt8.ofNat (48 + d)).toNat = 48 + d := by
  interval_cases d <;> decide

theorem decimalAux_parse : ∀ (fuel n : Nat), n < fuel → parseDecimal (decimalAux fuel n) = n := by
  intro fuel
  induction fuel with
  | zero => intro n h; omega
  | succ fuel ih =>
    intro n h
    unfold decimalAux
    by_cases hn : n < 10
    · rw [if_pos hn]
      simp [parseDecimal, digit_toNat n hn]
    · rw [if_neg hn]
      have hlt : n / 10 < fuel := by omega
      have := ih (n / 10) hlt
      unfold parseDecimal at this ⊢
      rw [List.foldl_append, this]
      simp [digit_toNat (n % 10) (Nat.mod_lt _ (by decide))]
      omega

theorem decimalAux_digits : ∀ (fuel n : Nat), ∀ b ∈ decimalAux fuel n,
    48 ≤ b.toNat ∧ b.toNat ≤ 57 := by
  intro fuel
  induction fuel with
  | zero => intro n b hb; simp [decimalAux] at hb
  | succ fuel ih =>
    intro n b hb
    unfold decimalAux at hb
    by_cases hn : n < 10
    · rw [if_pos hn] at hb
      simp only [List.mem_singleton] at hb
      subst hb
      rw [digit_toNat n hn]
      omega
    · rw [if_neg hn] at hb
      rcases List.mem_append.mp hb with hb | hb
      · exact ih _ b hb
      · simp only [List.mem_singleton] at hb
        subst hb
        rw [digit_toNat (n % 10) (Nat.mod_lt _ (by decide))]
        omega

theorem decimal_injective (n m : Nat) (h : decimal n = decimal m) : n = m := by
  have h1 := decimalAux_parse (n + 1) n (by omega)
  have h2 := decimalAux_parse (m + 1) m (by omega)
  unfold decimal at h
  rw [h] at h1
  omega

theorem decimal_no_dash (n : Nat) : (45 : UInt8) ∉ decimal n := by
  intro h
  have := decimalAux_digits _ _ _ h
  have h45 : (45 : UInt8).toNat = 45 := by decide
  omega

theorem separator_unique (s₁ s₂ d₁ d₂ : GoString) (h : s₁ ++ 45 :: d₁ = s₂ ++ 45 :: d₂)
    (h1 : (45 : UInt8) ∉ d₁) (h2 : (45 : UInt8) ∉ d₂) : d₁ = d₂ := by
  rcases List.append_eq_append_iff.mp h with ⟨a, ha, hb⟩ | ⟨c, hc, hd⟩
  · cases a with
    | nil => simpa using hb
    | cons x a =>
      simp only [List.cons_append, List.cons.injEq] at hb
      exact absurd (by rw [hb.2]; simp) h1
  · cases c with
    | nil => simpa using hd.symm
    | cons x c =>
      simp only [List.cons_append, List.cons.injEq] at hd
      exact absurd (by rw [hd.2]; simp) h2

theorem wrapInt64_of_range (n : Int) (h1 : -2 ^ 63 ≤ n) (h2 : n < 2 ^ 63) : wrapInt64 n = n := by
  unfold wrapInt64
  omega

theorem generateLoggingID_eq {σ : Type} (instanceID : GoString) (w : World σ) :
    generateLoggingID instanceID w =
      ({ w with queryCounter := wrapInt64 (w.queryCounter + 1) },
        shortInstanceID instanceID ++ go "-" ++ itoa (wrapInt64 (w.queryCounter + 1))) := rfl

theorem generateLoggingID_nat {σ : Type} (instanceID : GoString) (w : World σ) (c : Nat)
    (hc : w.queryCounter = (c : Int)) (hmax : (c : Int) + 1 < 2 ^ 63) :
    (generateLoggingID instanceID w).2 = shortInstanceID instanceID ++ 45 :: decimal (c + 1) ∧
      (generateLoggingID instanceID w).1.queryCounter = ((c + 1 : Nat) : Int) := by
  rw [generateLoggingID_eq, hc, wrapInt64_of_range _ (by omega) hmax]
  have : ((c : Int) + 1) = Int.ofNat (c + 1) := by simp
  rw [this]
  exact ⟨by simp [itoa, go]; rfl, rfl⟩

theorem loggingIDs_form {σ : Type} (ids : List GoString) :
    ∀ (w : World σ) (c : Nat), w.queryCounter = (c : Int) →
      (c : Int) + ids.length < 2 ^ 63 →
      ∀ x ∈ loggingIDs ids w, ∃ s n, x = s ++ 45 :: decimal n ∧ c < n := by
  induction ids with
  | nil => intro w c _ _ x hx; simp [loggingIDs] at hx
  | cons id rest ih =>
    intro w c hc hmax x hx
    simp only [List.length_cons, Nat.cast_add, Nat.cast_one] at hmax
    obtain ⟨h1, h2⟩ := generateLoggingID_nat id w c hc (by omega)
    unfold loggingIDs at hx
    rcases List.mem_cons.mp hx with rfl | hx
    · exact ⟨_, _, h1, by omega⟩
    · obtain ⟨s, n, hs, hn⟩ := ih _ (c + 1) h2 (by push_cast; omega) x hx
      exact ⟨s, n, hs, by omega⟩

theorem loggingIDs_nodup {σ : Type} (ids : List GoString) :
    ∀ (w : World σ) (c : Nat), w.queryCounter = (c : Int) →
      (c : Int) + ids.length < 2 ^ 63 → (loggingIDs ids w).Nodup := by
  induction ids with
  | nil => intro w c _ _; simp [loggingIDs]
  | cons id rest ih =>
    intro w c hc hmax
    simp only [List.length_cons, Nat.cast_add, Nat.cast_one] at hmax
    obtain ⟨h1, h2⟩ := generateLoggingID_nat id w c hc (by omega)
    unfold loggingIDs
    rw [List.nodup_cons]
    refine ⟨?_, ih _ (c + 1) h2 (by push_cast; omega)⟩
    intro hmem
    obtain ⟨s, n, hs, hn⟩ := loggingIDs_form rest _ (c + 1) h2 (by push_cast; omega) _ hmem
    rw [h1] at hs
    have := separator_unique _ _ _ _ hs (decimal_no_dash _) (decimal_no_dash _)
    have := decimal_injective _ _ this
    omega

/-! ### The regular expression of redactPassword -/

theorem tryLengths_some (cont : GoString → Option (List Nat)) (s : GoString) :
    ∀ (n : Nat) (ls : List Nat), tryLengths cont s n = some ls →
      ∃ k ls', 1 ≤ k ∧ k ≤ n ∧ cont (s.drop k) = some ls' ∧ ls = k :: ls' := by
  intro n
  induction n with
  | zero => intro ls h; simp [tryLengths] at h
  | succ n ih =>
    intro ls h
    unfold tryLengths at h
    split at h
    · rename_i ls' hc
      exact ⟨n + 1, ls', by omega, le_refl _, hc, by simpa using h.symm⟩
    · obtain ⟨k, ls', h1, h2, h3, h4⟩ := ih ls h
      exact ⟨k, ls', h1, by omega, h3, h4⟩

theorem tryLengths_first (cont : GoString → Option (List Nat)) (s : GoString) (k : Nat)
    (ls : List Nat) (h : cont (s.drop (k + 1)) = some ls) :
    tryLengths cont s (k + 1) = some ((k + 1) :: ls) := by
  simp [tryLengths, h]

theorem take_of_le_takeWhile (q : UInt8 → Bool) :
    ∀ (s : GoString) (k : Nat), k ≤ (s.takeWhile q).length → ∀ b ∈ s.take k, q b = true := by
  intro s
  induction s with
  | nil => intro k _ b hb; simp at hb
  | cons c s ih =>
    intro k hk b hb
    cases k with
    | zero => simp at hb
    | succ k =>
      by_cases hq : q c = true
      · rw [List.takeWhile_cons_of_pos hq] at hk
        simp only [List.take_succ_cons, List.mem_cons] at hb
        rcases hb with rfl | hb
        · exact hq
        · exact ih k (by simpa using hk) b hb
      · rw [List.takeWhile_cons_of_neg hq] at hk
        simp at hk

theorem takeWhile_append_stop (q : UInt8 → Bool) (c : UInt8) (t : GoString) (hc : q c = false) :
    ∀ w : GoString, (∀ b ∈ w, q b = true) → (w ++ c :: t).takeWhile q = w := by
  intro w
  induction w with
  | nil => intro _; simp [List.takeWhile, hc]
  | cons a w ih =>
    intro h
    have ha : q a = true := h a (List.mem_cons_self _ _)
    rw [List.cons_append, List.takeWhile_cons_of_pos ha, ih (fun b hb => h b (List.mem_cons_of_mem _ hb))]

theorem matchLit_some (b : UInt8) (s : GoString) (ls : List Nat)
    (rest : List Item) (h : matchItems (.lit b :: rest) s = some ls) :
    ∃ t ls', s = b :: t ∧ matchItems rest t = some ls' ∧ ls = 1 :: ls' := by
  cases s with
  | nil => simp [matchItems] at h
  | cons c t =>
    simp only [matchItems] at h
    by_cases hc : c = b
    · rw [if_pos hc] at h
      cases hm : matchItems rest t with
      | none => simp [hm] at h
      | some ls' =>
        rw [hm] at h
        exact ⟨t, ls', by rw [hc], hm, by simpa using h.symm⟩
    · rw [if_neg hc] at h
      cases h

theorem matchPlus_some (q : UInt8 → Bool) (s : GoString) (ls : List Nat)
    (rest : List Item) (h : matchItems (.plus q :: rest) s = some ls) :
    ∃ w t ls', s = w ++ t ∧ w ≠ [] ∧ (∀ b ∈ w, q b = true) ∧
      matchItems rest t = some ls' ∧ ls = w.length :: ls' := by
  simp only [matchItems] at h
  obtain ⟨k, ls', h1, h2, h3, h4⟩ := tryLengths_some _ _ _ _ h
  have hlen : k ≤ s.length := le_trans h2 (List.takeWhile_sublist q).length_le
  refine ⟨s.take k, s.drop k, ls', (List.take_append_drop k s).symm, ?_,
    take_of_le_takeWhile q s k h2, h3, ?_⟩
  · intro h0
    have := congrArg List.length h0
    rw [List.length_take, List.length_nil, min_eq_left hlen] at this
    omega
  · rw [h4, List.length_take, min_eq_left hlen]

/-- Soundness of the matcher for the expression of `dsnPasswordRegexp`. -/
theorem dsnMatch_shape (s : GoString) (ls : List Nat)
    (h : matchItems dsnPasswordRegexp s = some ls) :
    ∃ w p t, w ≠ [] ∧ (∀ b ∈ w, isWordByte b = true) ∧ p ≠ [] ∧ (∀ b ∈ p, isNotAt b = true) ∧
      s = w ++ 0x3A :: (p ++ 0x40 :: t) ∧ ls = [w.length, 1, p.length, 1] := by
  unfold dsnPasswordRegexp at h
  obtain ⟨w, t1, l1, hs1, hw, hwq, hm1, hl1⟩ := matchPlus_some _ _ _ _ h
  obtain ⟨t2, l2, hs2, hm2, hl2⟩ := matchLit_some _ _ _ _ hm1
  obtain ⟨p, t3, l3, hs3, hp, hpq, hm3, hl3⟩ := matchPlus_some _ _ _ _ hm2
  obtain ⟨t4, l4, hs4, hm4, hl4⟩ := matchLit_some _ _ _ _ hm3
  simp only [matchItems, Option.some.injEq] at hm4
  refine ⟨w, p, t4, hw, hwq, hp, hpq, ?_, ?_⟩
  · rw [hs1, hs2, hs3, hs4]
  · rw [hl1, hl2, hl3, hl4, ← hm4]

/-- Completeness of the matcher where the expression matches from the start. -/
theorem dsnMatch_at (w p r : GoString) (hw : w ≠ []) (hwq : ∀ b ∈ w, isWordByte b = true)
    (hp : p ≠ []) (hpq : ∀ b ∈ p, isNotAt b = true) :
    matchItems dsnPasswordRegexp (w ++ 0x3A :: (p ++ 0x40 :: r)) =
      some [w.length, 1, p.length, 1] := by
  have h3 : matchItems [.plus isNotAt, .lit 0x40] (p ++ 0x40 :: r) = some [p.length, 1] := by
    show tryLengths (matchItems [.lit 0x40]) (p ++ 0x40 :: r)
      ((p ++ 0x40 :: r).takeWhile isNotAt).length = _
    rw [takeWhile_append_stop isNotAt 0x40 r (by decide) p hpq]
    obtain ⟨k, hk⟩ : ∃ k, p.length = k + 1 :=
      Nat.exists_eq_succ_of_ne_zero (fun h => hp (List.length_eq_zero.mp h))
    rw [hk]
    apply tryLengths_first
    rw [← hk, List.drop_left]
    simp [matchItems]
  show tryLengths (matchItems [.lit 0x3A, .plus isNotAt, .lit 0x40]) (w ++ 0x3A :: (p ++ 0x40 :: r))
    ((w ++ 0x3A :: (p ++ 0x40 :: r)).takeWhile isWordByte).length = _
  rw [takeWhile_append_stop isWordByte 0x3A _ (by decide) w hwq]
  obtain ⟨k, hk⟩ : ∃ k, w.length = k + 1 :=
    Nat.exists_eq_succ_of_ne_zero (fun h => hw (List.length_eq_zero.mp h))
  rw [hk]
  apply tryLengths_first
  rw [← hk, List.drop_left]
  show (if (0x3A : UInt8) = 0x3A then
    (matchItems [.plus isNotAt, .lit 0x40] (p ++ 0x40 :: r)).map (fun ls => 1 :: ls) else none) = _
  rw [h3]
  rfl

theorem first_separator_unique (a : UInt8) :
    ∀ (x₁ x₂ z₁ z₂ : GoString), a ∉ x₁ → a ∉ x₂ → x₁ ++ a :: z₁ = x₂ ++ a :: z₂ →
      x₁ = x₂ ∧ z₁ = z₂ := by
  intro x₁
  induction x₁ with
  | nil =>
    intro x₂ z₁ z₂ _ h2 h
    cases x₂ with
    | nil => simpa using h
    | cons b x₂ =>
      simp only [List.nil_append, List.cons_append, List.cons.injEq] at h
      exact absurd (h.1 ▸ List.mem_cons_self _ _) h2
  | cons c x₁ ih =>
    intro x₂ z₁ z₂ h1 h2 h
    cases x₂ with
    | nil =>
      simp only [List.nil_append, List.cons_append, List.cons.injEq] at h
      exact absurd (h.1 ▸ List.mem_cons_self _ _) h1
    | cons b x₂ =>
      simp only [List.cons_append, List.cons.injEq] at h
      obtain ⟨e1, e2⟩ := ih x₂ z₁ z₂ (fun hm => h1 (List.mem_cons_of_mem _ hm))
        (fun hm => h2 (List.mem_cons_of_mem _ hm)) h.2
      exact ⟨by rw [h.1, e1], e2⟩

theorem isWordByte_not_colon (w : GoString) (hwq : ∀ b ∈ w, isWordByte b = true) :
    (0x3A : UInt8) ∉ w := by
  intro h
  have := hwq _ h
  revert this
  decide

theorem isNotAt_not_at (p : GoString) : (∀ b ∈ p, isNotAt b = true) ↔ (0x40 : UInt8) ∉ p := by
  constructor
  · intro h hm
    have := h _ hm
    revert this
    decide
  · intro h b hb
    simp only [isNotAt, bne_iff_ne, ne_eq]
    intro hb0
    exact h (hb0 ▸ hb)

theorem findFirst_none_of_no_at (s : GoString) (h : (0x40 : UInt8) ∉ s) :
    findFirst dsnPasswordRegexp s = none := by
  have key : ∀ t : GoString, (0x40 : UInt8) ∉ t → matchItems dsnPasswordRegexp t = none := by
    intro t ht
    cases hm : matchItems dsnPasswordRegexp t with
    | none => rfl
    | some ls =>
      obtain ⟨w, p, r, _, _, _, _, hs, _⟩ := dsnMatch_shape t ls hm
      exact absurd (by rw [hs]; simp) ht
  induction s with
  | nil => simp [findFirst, key [] h]
  | cons c s ih =>
    simp [findFirst, key (c :: s) h, ih (fun hm => h (List.mem_cons_of_mem _ hm))]

theorem replaceAllLoop_of_no_at (fuel : Nat) (s : GoString) (h : (0x40 : UInt8) ∉ s) :
    replaceAllLoop fuel s = s := by
  cases fuel with
  | zero => rfl
  | succ n => simp [replaceAllLoop, findFirst_none_of_no_at s h]

/-- The leftmost match in "user:password@rest" starts at the longest run of
word bytes that ends the user. -/
theorem findFirst_user (p r : GoString) (hp : p ≠ []) (hpq : (0x40 : UInt8) ∉ p) :
    ∀ u : GoString, (0x3A : UInt8) ∉ u →
      (∃ b, u.getLast? = some b ∧ isWordByte b = true) →
      ∃ pre w, pre ++ w = u ∧
        findFirst dsnPasswordRegexp (u ++ 0x3A :: (p ++ 0x40 :: r)) =
          some (pre, [w.length, 1, p.length, 1], w ++ 0x3A :: (p ++ 0x40 :: r)) := by
  have hpq' := (isNotAt_not_at p).mpr hpq
  intro u
  induction u with
  | nil => intro _ ⟨b, hb, _⟩; simp at hb
  | cons c u ih =>
    intro hcolon hlast
    by_cases hall : ∀ b ∈ c :: u, isWordByte b = true
    · refine ⟨[], c :: u, rfl, ?_⟩
      have := dsnMatch_at (c :: u) p r (by simp) hall hp hpq'
      rw [List.cons_append] at this ⊢
      simp only [findFirst, this]
    · have hnone : matchItems dsnPasswordRegexp (c :: u ++ 0x3A :: (p ++ 0x40 :: r)) = none := by
        cases hm : matchItems dsnPasswordRegexp (c :: u ++ 0x3A :: (p ++ 0x40 :: r)) with
        | none => rfl
        | some ls =>
          obtain ⟨w, p', t, _, hwq, _, _, hs, _⟩ := dsnMatch_shape _ ls hm
          obtain ⟨e, _⟩ := first_separator_unique 0x3A _ _ _ _ hcolon
            (isWordByte_not_colon w hwq) hs
          exact absurd (e ▸ hwq) hall
      have hu : u ≠ [] := by
        intro h0
        obtain ⟨b, hb, hbq⟩ := hlast
        rw [h0] at hb hall
        simp only [List.getLast?_singleton, Option.some.injEq] at hb
        apply hall
        intro x hx
        simp only [List.mem_singleton] at hx
        rw [hx, hb]
        exact hbq
      have hlast' : ∃ b, u.getLast? = some b ∧ isWordByte b = true := by
        obtain ⟨b, hb, hbq⟩ := hlast
        obtain ⟨d, u', rfl⟩ := List.exists_cons_of_ne_nil hu
        rw [List.getLast?_cons_cons] at hb
        exact ⟨b, hb, hbq⟩
      obtain ⟨pre, w, e, hf⟩ := ih (fun hm => hcolon (List.mem_cons_of_mem _ hm)) hlast'
      refine ⟨c :: pre, w, by rw [List.cons_append, e], ?_⟩
      rw [List.cons_append] at hnone ⊢
      simp only [findFirst, hnone, hf, Option.map_some']

theorem redactPassword_eq (user password rest : GoString)
    (hcolon : (0x3A : UInt8) ∉ user)
    (hlast : ∃ b, user.getLast? = some b ∧ isWordByte b = true)
    (hp : password ≠ []) (hpq : (0x40 : UInt8) ∉ password) (hr : (0x40 : UInt8) ∉ rest) :
    redactPassword (user ++ go ":" ++ password ++ go "@" ++ rest) =
      user ++ go ":REDACTED@" ++ rest := by
  obtain ⟨pre, w, e, hf⟩ := findFirst_user password rest hp hpq user hcolon hlast
  have hs : user ++ go ":" ++ password ++ go "@" ++ rest =
      user ++ 0x3A :: (password ++ 0x40 :: rest) := by
    simp [go]
    rfl
  rw [hs]
  unfold redactPassword
  simp only [replaceAllLoop, hf]
  have hd : (w ++ 0x3A :: (password ++ 0x40 :: rest)).drop
      ([w.length, 1, password.length, 1].sum) = rest := by
    have : [w.length, 1, password.length, 1].sum = (w ++ 0x3A :: (password ++ [0x40])).length := by
      simp
      omega
    rw [this]
    have : w ++ 0x3A :: (password ++ 0x40 :: rest) = (w ++ 0x3A :: (password ++ [0x40])) ++ rest := by
      simp
    rw [this, List.drop_left]
  rw [hd, replaceAllLoop_of_no_at _ _ hr]
  simp only [List.headD_cons, List.take_left, ← e, List.append_assoc]

theorem findFirst_shape (items : List Item) :
    ∀ (s pre m : GoString) (ls : List Nat), findFirst items s = some (pre, ls, m) →
      s = pre ++ m ∧ matchItems items m = some ls := by
  intro s
  induction s with
  | nil =>
    intro pre m ls h
    simp only [findFirst, Option.map_eq_some', Prod.mk.injEq] at h
    obtain ⟨a, ha, rfl, rfl, rfl⟩ := h
    exact ⟨rfl, ha⟩
  | cons c s ih =>
    intro pre m ls h
    unfold findFirst at h
    split at h
    · rename_i ls' hm
      simp only [Option.some.injEq, Prod.mk.injEq] at h
      obtain ⟨rfl, rfl, rfl⟩ := h
      exact ⟨rfl, hm⟩
    · simp only [Option.map_eq_some', Prod.mk.injEq] at h
      obtain ⟨⟨pre', ls', m'⟩, ha, rfl, rfl, rfl⟩ := h
      obtain ⟨e, hm⟩ := ih _ _ _ ha
      exact ⟨by rw [e]; rfl, hm⟩

/-- The fuel `redactPassword` gives the loop is enough: more fuel gives the
same text. -/
theorem replaceAllLoop_fuel :
    ∀ (n : Nat) (s : GoString), s.length < n → ∀ k : Nat, s.length < k →
      replaceAllLoop n s = replaceAllLoop k s := by
  intro n
  induction n with
  | zero => intro s h; omega
  | succ n ih =>
    intro s hn k hk
    obtain ⟨k, rfl⟩ : ∃ j, k = j + 1 := Nat.exists_eq_succ_of_ne_zero (by omega)
    unfold replaceAllLoop
    cases hf : findFirst dsnPasswordRegexp s with
    | none => rfl
    | some r =>
      obtain ⟨pre, ls, m⟩ := r
      obtain ⟨e, hm⟩ := findFirst_shape _ _ _ _ _ hf
      obtain ⟨w, p, t, hw, _, _, _, hs, hls⟩ := dsnMatch_shape m ls hm
      have hlen : (m.drop ls.sum).length < s.length := by
        rw [e, hs, hls]
        simp
        omega
      simp only
      rw [ih _ (by omega) k (by omega)]

/-! ### TryToMigrate and SetupTestDB -/

theorem migrationsSource_of_caller {σ : Type} (E : UtilEnv σ) (filename : GoString)
    (h : E.Caller = some filename) : migrationsSource E = .ret (sourceOf E filename) := by
  simp [migrationsSource, testDataPath, h, sourceOf]

/-- What `TryToMigrate` returns when `migrate.New` fails. -/
theorem TryToMigrate_new_failed {σ : Type} (E : UtilEnv σ) (dbName filename : GoString) (s : σ)
    (h : E.Caller = some filename) (e : ExtError)
    (hnew : (newAnswer E dbName filename s).2 = some e) :
    (TryToMigrate E dbName s).val =
        .ret (false, some (.errorString (go "migrate.New(): " ++ e.text))) ∧
      (TryToMigrate E dbName s).events =
        [.migrateNew (sourceOf E filename) (go "mysql://" ++ DBConnURI dbName) (some e)] := by
  unfold newAnswer at hnew
  unfold TryToMigrate
  rw [migrationsSource_of_caller E filename h]
  simp [hnew]

/-- What `TryToMigrate` returns once `migrate.New` has succeeded. -/
theorem TryToMigrate_new_ok {σ : Type} (E : UtilEnv σ) (dbName filename : GoString) (s : σ)
    (h : E.Caller = some filename) (hnew : (newAnswer E dbName filename s).2 = none) :
    (TryToMigrate E dbName s).val =
        .ret (match (upAnswer E dbName filename s).2 with
              | some (.other _) => true
              | _ => false,
          if (closeAnswer E dbName filename s).2.1 ≠ none ∨
              (closeAnswer E dbName filename s).2.2 ≠ none then
            some (MultiErr
              (match (upAnswer E dbName filename s).2 with
               | some (.other e) => some (.errorString
                  (go "m.Up() " ++ strconvQuote (sourceOf E filename) ++ go ": " ++ e.text))
               | _ => none)
              [(closeAnswer E dbName filename s).2.1, (closeAnswer E dbName filename s).2.2])
          else
            match (upAnswer E dbName filename s).2 with
            | some (.other e) => some (.errorString
                (go "m.Up() " ++ strconvQuote (sourceOf E filename) ++ go ": " ++ e.text))
            | _ => none) ∧
      (TryToMigrate E dbName s).events =
        [.migrateNew (sourceOf E filename) (go "mysql://" ++ DBConnURI dbName) none,
          .up (upAnswer E dbName filename s).2,
          .migrateClose (closeAnswer E dbName filename s).2.1
            (closeAnswer E dbName filename s).2.2] := by
  unfold closeAnswer upAnswer
  unfold newAnswer at hnew ⊢
  unfold TryToMigrate
  rw [migrationsSource_of_caller E filename h]
  simp only [hnew]
  rcases hu : (E.Up (E.migrateNew s (sourceOf E filename)
      (go "mysql://" ++ DBConnURI dbName)).1).2 with _ | ⟨_ | e⟩ <;>
    simp [hu]

/-- The events of `ConnectAndExecute` that are not of `dbFunc` are those of
opening, checking and closing the connection. -/
theorem ConnectAndExecute_countP {σ β : Type} (E : UtilEnv σ) (uri : GoString) (captured : β)
    (dbFunc : β → σ → UtilStep σ (β × Option Error)) (s : σ) (p : UtilEvent → Bool) (k : Nat)
    (h1 : ∀ d u e, p (.sqlOpen d u e) = false) (h2 : ∀ e, p (.ping e) = false)
    (h3 : ∀ e, p (.close e) = false)
    (h : ∀ c s, (dbFunc c s).events.countP p ≤ k) :
    (ConnectAndExecute E uri captured dbFunc s).events.countP p ≤ k := by
  rcases ho : (E.sqlOpen s (go "mysql") uri).2 with _ | e
  · rcases hp : (E.Ping (E.sqlOpen s (go "mysql") uri).1).2 with _ | e
    · unfold ConnectAndExecute
      simp only [ho, hp, List.countP_append, List.countP_cons, List.countP_nil, h1, h2, h3]
      simpa using h captured _
    · unfold ConnectAndExecute
      simp [ho, hp, h1, h2]
  · unfold ConnectAndExecute
    simp [ho, h1]

theorem createQuery_ne_dropQuery (a b : GoString) : createQuery a ≠ dropQuery b := by
  intro h
  have hc : (createQuery a).head? = some 67 := rfl
  have hd : (dropQuery b).head? = some 68 := rfl
  rw [h, hd] at hc
  revert hc
  decide

theorem isDrop_quiet (dbName : GoString) : Quiet (UtilEvent.isDrop dbName) := by
  simp [Quiet, UtilEvent.isDrop]

theorem isMigrateNew_quiet : Quiet UtilEvent.isMigrateNew := by
  simp [Quiet, UtilEvent.isMigrateNew]

theorem isPingContext_quiet : Quiet UtilEvent.isPingContext := by
  simp [Quiet, UtilEvent.isPingContext]

theorem CreateDB_countP {σ : Type} (E : UtilEnv σ) (dbName : GoString) (s : σ)
    (p : UtilEvent → Bool) (hq : Quiet p) (hc : ∀ e, p (.exec (createQuery dbName) e) = false) :
    (CreateDB E dbName s).events.countP p = 0 := by
  unfold CreateDB
  apply Nat.eq_zero_of_le_zero
  apply ConnectAndExecute_countP _ _ _ _ _ p 0 hq.1 hq.2.1 hq.2.2.1
  intro c s
  rcases h : (E.Exec s (createQuery dbName)).2 with _ | e <;> simp [h, hc]

theorem DropDB_countP {σ : Type} (E : UtilEnv σ) (dbName : GoString) (s : σ)
    (p : UtilEvent → Bool) (hq : Quiet p) :
    (DropDB E dbName s).events.countP p ≤ 1 := by
  unfold DropDB
  apply ConnectAndExecute_countP _ _ _ _ _ p 1 hq.1 hq.2.1 hq.2.2.1
  intro c s
  rcases h : (E.Exec s (dropQuery dbName)).2 with _ | e <;> simp only [h] <;>
    exact le_trans (List.countP_le_length _) (by simp)

theorem DropDB_countP_zero {σ : Type} (E : UtilEnv σ) (dbName : GoString) (s : σ)
    (p : UtilEvent → Bool) (hq : Quiet p) (hd : ∀ e, p (.exec (dropQuery dbName) e) = false) :
    (DropDB E dbName s).events.countP p = 0 := by
  unfold DropDB
  apply Nat.eq_zero_of_le_zero
  apply ConnectAndExecute_countP _ _ _ _ _ p 0 hq.1 hq.2.1 hq.2.2.1
  intro c s
  rcases h : (E.Exec s (dropQuery dbName)).2 with _ | e <;> simp [h, hd]

theorem checkIfDBExists_countP {σ : Type} (E : UtilEnv σ) (dbName : GoString) (s : σ)
    (p : UtilEvent → Bool) (hq : Quiet p) :
    (checkIfDBExists E dbName s).events.countP p = 0 := by
  unfold checkIfDBExists
  apply Nat.eq_zero_of_le_zero
  apply ConnectAndExecute_countP _ _ _ _ _ p 0 hq.1 hq.2.1 hq.2.2.1
  intro c s
  obtain ⟨_, _, _, h4, h5, _⟩ := hq
  rcases h : (E.Query s
      (go "SELECT SCHEMA_NAME FROM INFORMATION_SCHEMA.SCHEMATA WHERE SCHEMA_NAME = ?")
      [.str dbName]).2 with e | rows
  · simp [h, h4]
  · simp only [h]
    split <;> simp [h4, h5]

theorem CreateDBIfNotExists_countP {σ : Type} (E : UtilEnv σ) (dbName : GoString) (s : σ)
    (p : UtilEvent → Bool) (hq : Quiet p) (hc : ∀ e, p (.exec (createQuery dbName) e) = false) :
    (CreateDBIfNotExists E dbName s).events.countP p = 0 := by
  unfold CreateDBIfNotExists
  simp only []
  split
  · exact checkIfDBExists_countP E dbName s p hq
  · simp only [List.countP_append, checkIfDBExists_countP E dbName s p hq,
      CreateDB_countP E dbName _ p hq hc]
    simp [hq.2.2.2.2.2.1]

theorem recreateDB_countP {σ : Type} (E : UtilEnv σ) (dbName : GoString) (s : σ)
    (p : UtilEvent → Bool) (hq : Quiet p) (hc : ∀ e, p (.exec (createQuery dbName) e) = false) :
    (recreateDB E dbName s).events.countP p ≤ 1 := by
  unfold recreateDB
  simp only []
  split
  · exact DropDB_countP E dbName s p hq
  · simp only [List.countP_append, CreateDB_countP E dbName _ p hq hc]
    exact DropDB_countP E dbName s p hq

theorem recreateDB_countP_zero {σ : Type} (E : UtilEnv σ) (dbName : GoString) (s : σ)
    (p : UtilEvent → Bool) (hq : Quiet p) (hc : ∀ e, p (.exec (createQuery dbName) e) = false)
    (hd : ∀ e, p (.exec (dropQuery dbName) e) = false) :
    (recreateDB E dbName s).events.countP p = 0 := by
  unfold recreateDB
  simp only []
  split
  · exact DropDB_countP_zero E dbName s p hq hd
  · simp only [List.countP_append, CreateDB_countP E dbName _ p hq hc,
      DropDB_countP_zero E dbName s p hq hd]

/-- The events of one migration attempt: none when `testDataPath` panics,
otherwise the call of `migrate.New` and, when it succeeded, `Up` and `Close`. -/
theorem TryToMigrate_events {σ : Type} (E : UtilEnv σ) (dbName : GoString) (s : σ) :
    (TryToMigrate E dbName s).events = [] ∨
      (∃ src uri e, (TryToMigrate E dbName s).events = [.migrateNew src uri e]) ∨
      ∃ src uri u a b, (TryToMigrate E dbName s).events =
        [.migrateNew src uri none, .up u, .migrateClose a b] := by
  rcases hcaller : E.Caller with _ | filename
  · left
    simp [TryToMigrate, migrationsSource, testDataPath, hcaller]
  · right
    rcases hnew : (newAnswer E dbName filename s).2 with _ | e
    · right
      exact ⟨_, _, _, _, _, (TryToMigrate_new_ok E dbName filename s hcaller hnew).2⟩
    · left
      exact ⟨_, _, _, (TryToMigrate_new_failed E dbName filename s hcaller e hnew).2⟩

theorem TryToMigrate_countP {σ : Type} (E : UtilEnv σ) (dbName : GoString) (s : σ)
    (p : UtilEvent → Bool) (hq : Quiet p) :
    (TryToMigrate E dbName s).events.countP p ≤ 1 := by
  obtain ⟨_, _, _, _, _, _, h7, h8⟩ := hq
  rcases TryToMigrate_events E dbName s with h | ⟨_, _, _, h⟩ | ⟨_, _, _, _, _, h⟩
  · simp [h]
  · rw [h]
    exact le_trans (List.countP_le_length _) (by simp)
  · rw [h]
    simp only [List.countP_cons, h7, h8, List.countP_nil, Bool.false_eq_true, if_false]
    split <;> simp

theorem TryToMigrate_countP_zero {σ : Type} (E : UtilEnv σ) (dbName : GoString) (s : σ)
    (p : UtilEvent → Bool) (hq : Quiet p) (hm : ∀ a b e, p (.migrateNew a b e) = false) :
    (TryToMigrate E dbName s).events.countP p = 0 := by
  obtain ⟨_, _, _, _, _, _, h7, h8⟩ := hq
  rcases TryToMigrate_events E dbName s with h | ⟨_, _, _, h⟩ | ⟨_, _, _, _, _, h⟩ <;>
    simp [h, hm, h7, h8]

/-- The events of the migration block of `SetupTestDB`: those of the first
attempt, and only when it returned isMigrationError = true with an error, the
log line, the events of `recreateDB` and, when that succeeded, those of the
second attempt. -/
theorem migrateOrRecreate_events {σ : Type} (E : UtilEnv σ) (dbName : GoString) (s : σ) :
    ((migrateOrRecreate E dbName s).events = (TryToMigrate E dbName s).events ∧
        ¬ ∃ err, (TryToMigrate E dbName s).val = .ret (true, some err)) ∨
      ∃ err, (TryToMigrate E dbName s).val = .ret (true, some err) ∧
        (((migrateOrRecreate E dbName s).events =
            (TryToMigrate E dbName s).events ++ [recreatingLog dbName err] ++
              (recreateDB E dbName (TryToMigrate E dbName s).state).events ∧
          (recreateDB E dbName (TryToMigrate E dbName s).state).val ≠ none) ∨
        ((migrateOrRecreate E dbName s).events =
            (TryToMigrate E dbName s).events ++ [recreatingLog dbName err] ++
              (recreateDB E dbName (TryToMigrate E dbName s).state).events ++
              (TryToMigrate E dbName
                (recreateDB E dbName (TryToMigrate E dbName s).state).state).events ∧
          (recreateDB E dbName (TryToMigrate E dbName s).state).val = none)) := by
  unfold migrateOrRecreate
  simp only []
  split
  · rename_i h
    left
    exact ⟨rfl, by simp [h]⟩
  · rename_i h
    left
    exact ⟨rfl, by simp [h]⟩
  · rename_i h
    left
    exact ⟨rfl, by simp [h]⟩
  · rename_i b err h
    cases b with
    | false =>
      left
      exact ⟨by simp, by simp [h]⟩
    | true =>
      right
      refine ⟨err, h, ?_⟩
      simp only [if_true]
      split
      · rename_i e he
        left
        exact ⟨rfl, by simp [he]⟩
      · rename_i he
        right
        refine ⟨?_, he⟩
        split <;> rfl

theorem migrateOrRecreate_first_failed {σ : Type} (E : UtilEnv σ) (dbName : GoString) (s : σ)
    (err : Error) (h : (TryToMigrate E dbName s).val = .ret (false, some err)) :
    (migrateOrRecreate E dbName s).val = .ret (some (unfixableError err)) ∧
      (migrateOrRecreate E dbName s).events = (TryToMigrate E dbName s).events := by
  unfold migrateOrRecreate
  simp [h]

theorem migrateOrRecreate_retry_failed {σ : Type} (E : UtilEnv σ) (dbName : GoString) (s : σ)
    (err err2 : Error) (b : Bool) (h : (TryToMigrate E dbName s).val = .ret (true, some err))
    (hr : (recreateDB E dbName (TryToMigrate E dbName s).state).val = none)
    (h2 : (TryToMigrate E dbName
      (recreateDB E dbName (TryToMigrate E dbName s).state).state).val = .ret (b, some err2)) :
    (migrateOrRecreate E dbName s).val = .ret (some (unfixableError err2)) ∧
      (migrateOrRecreate E dbName s).events =
        (TryToMigrate E dbName s).events ++ [recreatingLog dbName err] ++
          (recreateDB E dbName (TryToMigrate E dbName s).state).events ++
          (TryToMigrate E dbName
            (recreateDB E dbName (TryToMigrate E dbName s).state).state).events := by
  unfold migrateOrRecreate
  simp [h, hr, h2]

theorem migrateOrRecreate_countP {σ : Type} (E : UtilEnv σ) (dbName : GoString) (s : σ)
    (p : UtilEvent → Bool) (hq : Quiet p) (km kd : Nat)
    (hm : ∀ t, (TryToMigrate E dbName t).events.countP p ≤ km)
    (hr : ∀ t, (recreateDB E dbName t).events.countP p ≤ kd) :
    (migrateOrRecreate E dbName s).events.countP p ≤ 2 * km + kd := by
  have hlog : ∀ err, p (recreatingLog dbName err) = false := fun err => hq.2.2.2.2.2.1 _
  have h1 := hm s
  have h2 := hr (TryToMigrate E dbName s).state
  have h3 := hm (recreateDB E dbName (TryToMigrate E dbName s).state).state
  rcases migrateOrRecreate_events E dbName s with ⟨h, _⟩ | ⟨err, _, ⟨h, _⟩ | ⟨h, _⟩⟩
  · rw [h]
    omega
  · rw [h]
    simp only [List.countP_append, List.countP_cons, List.countP_nil, hlog,
      Bool.false_eq_true, if_false]
    omega
  · rw [h]
    simp only [List.countP_append, List.countP_cons, List.countP_nil, hlog,
      Bool.false_eq_true, if_false]
    omega

theorem Open_countP {σ : Type} (E : UtilEnv σ) (driverName dsn instanceID : GoString) (s : σ)
    (p : UtilEvent → Bool) (hq : Quiet p) (hp : ∀ e, p (.pingContext e) = false) :
    (Open E driverName dsn instanceID s).events.countP p = 0 := by
  rcases ho : (E.sqlOpen s driverName dsn).2 with _ | e
  · rcases hc : (E.PingContext (E.sqlOpen s driverName dsn).1).2 with _ | e <;>
      simp [Open, ho, hc, hq.1, hp]
  · simp [Open, ho, hq.1]

theorem isCreate_quiet (dbName : GoString) : Quiet (UtilEvent.isCreate dbName) := by
  simp [Quiet, UtilEvent.isCreate]

theorem CreateDB_countP_le {σ : Type} (E : UtilEnv σ) (dbName : GoString) (s : σ)
    (p : UtilEvent → Bool) (hq : Quiet p) :
    (CreateDB E dbName s).events.countP p ≤ 1 := by
  unfold CreateDB
  apply ConnectAndExecute_countP _ _ _ _ _ p 1 hq.1 hq.2.1 hq.2.2.1
  intro c s
  rcases h : (E.Exec s (createQuery dbName)).2 with _ | e <;> simp only [h] <;>
    exact le_trans (List.countP_le_length _) (by simp)

/-- The events of `SetupTestDB`: those of `CreateDBIfNotExists`, then, when
that returned no error, those of the migration block, then, only when the
block went through, those of `Open`. -/
theorem SetupTestDB_shape {σ : Type} (E : UtilEnv σ) (dbName : GoString) (s : σ) :
    ((CreateDBIfNotExists E dbName s).val ≠ none ∧
        (SetupTestDB E dbName s).events = (CreateDBIfNotExists E dbName s).events) ∨
      ((CreateDBIfNotExists E dbName s).val = none ∧
        ∃ tail, (SetupTestDB E dbName s).events =
            (CreateDBIfNotExists E dbName s).events ++
              (migrateOrRecreate E dbName (CreateDBIfNotExists E dbName s).state).events ++ tail ∧
          (tail = [] ∨
            ((migrateOrRecreate E dbName (CreateDBIfNotExists E dbName s).state).val = .ret none ∧
              tail = (Open E (go "mysql") (DBConnURI dbName) (go "test")
                (migrateOrRecreate E dbName (CreateDBIfNotExists E dbName s).state).state).events))) := by
  unfold SetupTestDB
  simp only []
  split
  · rename_i err h
    left
    exact ⟨by simp [h], rfl⟩
  · rename_i h
    right
    refine ⟨h, ?_⟩
    split
    · exact ⟨[], by simp, Or.inl rfl⟩
    · exact ⟨[], by simp, Or.inl rfl⟩
    · exact ⟨[], by simp, Or.inl rfl⟩
    · rename_i hb
      refine ⟨_, ?_, Or.inr ⟨hb, rfl⟩⟩
      split <;> rfl

/-- When the migration block of `SetupTestDB` returns an error, `SetupTestDB`
returns it, wrapped, with no handle, and `Open` is not called. -/
theorem SetupTestDB_block_failed {σ : Type} (E : UtilEnv σ) (dbName : GoString) (s : σ)
    (e : Error) (hc : (CreateDBIfNotExists E dbName s).val = none)
    (hb : (migrateOrRecreate E dbName (CreateDBIfNotExists E dbName s).state).val =
      .ret (some e)) :
    (SetupTestDB E dbName s).val =
        .ret (none, wraperr.Wrap (some e) (go "SetupTestDB(" ++ strconvQuote dbName ++ go ")")) ∧
      (SetupTestDB E dbName s).events =
        (CreateDBIfNotExists E dbName s).events ++
          (migrateOrRecreate E dbName (CreateDBIfNotExists E dbName s).state).events := by
  unfold SetupTestDB
  simp [hc, hb]

theorem SetupTestDB_countP {σ : Type} (E : UtilEnv σ) (dbName : GoString) (s : σ)
    (p : UtilEvent → Bool) (hq : Quiet p) (hc : ∀ e, p (.exec (createQuery dbName) e) = false)
    (hp : ∀ e, p (.pingContext e) = false) (km kd : Nat)
    (hm : ∀ t, (TryToMigrate E dbName t).events.countP p ≤ km)
    (hr : ∀ t, (recreateDB E dbName t).events.countP p ≤ kd) :
    (SetupTestDB E dbName s).events.countP p ≤ 2 * km + kd := by
  have h1 := CreateDBIfNotExists_countP E dbName s p hq hc
  have h2 := migrateOrRecreate_countP E dbName (CreateDBIfNotExists E dbName s).state p hq km kd
    hm hr
  rcases SetupTestDB_shape E dbName s with ⟨_, h⟩ | ⟨_, tail, h, ht | ⟨_, ht⟩⟩
  · rw [h, h1]
    omega
  · rw [h, ht]
    simp only [List.countP_append, List.countP_nil, h1]
    omega
  · rw [h, ht]
    simp only [List.countP_append, h1, Open_countP E _ _ _ _ p hq hp]
    omega

theorem recreateDB_create_le {σ : Type} (E : UtilEnv σ) (dbName : GoString) (s : σ) :
    (recreateDB E dbName s).events.countP (UtilEvent.isCreate dbName) ≤ 1 := by
  have hdc : ∀ e, UtilEvent.isCreate dbName (.exec (dropQuery dbName) e) = false := by
    intro e
    simp only [UtilEvent.isCreate, decide_eq_false_iff_not]
    exact fun h => createQuery_ne_dropQuery _ _ h.symm
  unfold recreateDB
  simp only []
  split
  · exact le_of_eq_of_le (DropDB_countP_zero E dbName _ _ (isCreate_quiet dbName) hdc)
      (Nat.zero_le 1)
  · simp only [List.countP_append, DropDB_countP_zero E dbName _ _ (isCreate_quiet dbName) hdc]
    simpa using CreateDB_countP_le E dbName _ _ (isCreate_quiet dbName)

/-- A run in which the first migration attempt fails in `Up` and the retry
succeeds: one drop, two attempts, a handle. -/
theorem SetupTestDB_run_recreated :
    (SetupTestDB (scriptedEnv (fun n => if n = 0 then some dirtyDatabase else none) none)
        (go "db") 0).events.countP (UtilEvent.isDrop (go "db")) = 1 ∧
      (SetupTestDB (scriptedEnv (fun n => if n = 0 then some dirtyDatabase else none) none)
        (go "db") 0).events.countP UtilEvent.isMigrateNew = 2 ∧
      (SetupTestDB (scriptedEnv (fun n => if n = 0 then some dirtyDatabase else none) none)
        (go "db") 0).val = .ret (some ⟨go "test"⟩, none) := by
  decide

/-- A run in which both migration attempts fail in `Up`: one drop, two
attempts, an error and no handle. -/
theorem SetupTestDB_run_unfixable :
    (SetupTestDB (scriptedEnv (fun _ => some dirtyDatabase) none)
        (go "db") 0).events.countP (UtilEvent.isDrop (go "db")) = 1 ∧
      (SetupTestDB (scriptedEnv (fun _ => some dirtyDatabase) none)
        (go "db") 0).events.countP UtilEvent.isMigrateNew = 2 ∧
      (SetupTestDB (scriptedEnv (fun _ => some dirtyDatabase) none)
        (go "db") 0).events.countP UtilEvent.isPingContext = 0 ∧
      ∃ e, (SetupTestDB (scriptedEnv (fun _ => some dirtyDatabase) none)
        (go "db") 0).val = .ret (none, some e) :=
  ⟨by decide, by decide, by decide, _, rfl⟩

/-! ### The slices bound by the loop of bulkInsert -/

theorem Run_slices {q : Nat → GoString} {values : List Value} {stride : Nat}
    {returning : Bool} {l : Nat} {evs : List Event} {d : List Stmt} {o : Outcome (Option Error)}
    (h : Run q values stride returning l evs d o) (hs : 0 < stride) :
    ∀ k, l = k * stride →
      (boundArgs evs <+: (List.range' k (chunkCount stride values.length - k)).map
          (chunkSlice stride values)) ∧
      (o = .ret none → boundArgs evs = (List.range' k (chunkCount stride values.length - k)).map
          (chunkSlice stride values)) := by
  have first : ∀ k, k * stride < values.length →
      (List.range' k (chunkCount stride values.length - k)).map (chunkSlice stride values) =
        (values.take (rightBoundOf stride values.length (k * stride))).drop (k * stride) ::
          (List.range' (k + 1) (chunkCount stride values.length - (k + 1))).map
            (chunkSlice stride values) := by
    intro k hk
    have := chunkCount_gt stride values.length k hs hk
    have e : chunkCount stride values.length - k =
        (chunkCount stride values.length - (k + 1)) + 1 := by omega
    rw [e, List.range'_succ, List.map_cons]
    rfl
  induction h with
  | done l h =>
    intro k hk
    subst hk
    have := chunkCount_le stride values.length k hs (by omega)
    have e : chunkCount stride values.length - k = 0 := by omega
    simp [e, boundArgs]
  | prepareFailed l e h =>
    intro k hk
    subst hk
    simp [boundArgs, Event.bound]
  | execFailed l id e h hm =>
    intro k hk
    subst hk
    rw [first k h]
    simp [boundArgs, Event.bound, chunkError]
  | execOk l id evs d o h hm rest ih =>
    intro k hk
    subst hk
    rw [first k h]
    have ih := ih (k + 1) (by rw [Nat.add_mul]; omega)
    simpa [boundArgs, Event.bound] using ih
  | queryFailed l id e h hm =>
    intro k hk
    subst hk
    rw [first k h]
    simp [boundArgs, Event.bound]
  | rowsFailed l id f rows n e h hm hr =>
    intro k hk
    subst hk
    rw [first k h]
    simp [chunkError]
  | rowsPanic l id f rows msg h hm hr =>
    intro k hk
    subst hk
    rw [first k h]
    simp
  | rowsOk l id f rows n evs d o h hm hr rest ih =>
    intro k hk
    subst hk
    rw [first k h]
    have ih := ih (k + 1) (by rw [Nat.add_mul]; omega)
    simpa using ih

/-! ### The statement text -/

theorem join_replicate_question (n : Nat) :
    stringsJoin (List.replicate (n + 1) (go "?")) (go ",") =
      stringsRepeat (go "?,") n ++ go "?" := by
  induction n with
  | zero => rfl
  | succ n ih =>
    rw [List.replicate_succ, List.replicate_succ, stringsJoin, ← List.replicate_succ, ih,
      stringsRepeat]
    simp [go]

theorem placeholderGroup_eq (c : Nat) (hc : 0 < c) :
    go "(" ++ stringsRepeat (go "?,") (c - 1) ++ go "?)" = placeholderGroup c := by
  obtain ⟨n, rfl⟩ : ∃ n, c = n + 1 := Nat.exists_eq_succ_of_ne_zero (by omega)
  unfold placeholderGroup
  rw [join_replicate_question, Nat.add_sub_cancel]
  simp [go]

theorem buildInsertQuery_eq (table : GoString) (columns returningColumns : List GoString)
    (nvalues : Nat) (conflictAction : GoString) (hc : columns ≠ []) :
    buildInsertQuery table columns returningColumns nvalues conflictAction =
      insertQueryText table columns returningColumns nvalues conflictAction := by
  have hpos : 0 < columns.length := List.length_pos.mpr hc
  unfold buildInsertQuery insertQueryText
  simp only [placeholderGroup_eq columns.length hpos]
  have hr : returningColumns.length > 0 ↔ returningColumns ≠ [] := List.length_pos
  by_cases h1 : conflictAction ≠ [] <;> by_cases h2 : returningColumns ≠ [] <;>
    simp [h1, h2, hr, List.append_assoc]

theorem count_stringsRepeat (b : UInt8) (s : GoString) (n : Nat) :
    (stringsRepeat s n).count b = n * s.count b := by
  induction n with
  | zero => simp [stringsRepeat]
  | succ n ih =>
    rw [stringsRepeat, List.count_append, ih, Nat.add_mul, Nat.one_mul, Nat.add_comm]

theorem count_stringsJoin_zero (b : UInt8) (sep : GoString) (hsep : sep.count b = 0) :
    ∀ xs : List GoString, (∀ x ∈ xs, x.count b = 0) → (stringsJoin xs sep).count b = 0 := by
  intro xs
  induction xs with
  | nil => intro _; simp [stringsJoin]
  | cons a rest ih =>
    intro h
    cases rest with
    | nil => simpa [stringsJoin] using h a (List.mem_cons_self _ _)
    | cons c rest =>
      rw [stringsJoin, List.count_append, List.count_append, hsep,
        h a (List.mem_cons_self _ _), ih (fun x hx => h x (List.mem_cons_of_mem _ hx))]

theorem count_stringsJoin_replicate (b : UInt8) (sep g : GoString) (hsep : sep.count b = 0)
    (k : Nat) : (stringsJoin (List.replicate k g) sep).count b = k * g.count b := by
  induction k with
  | zero => simp [stringsJoin]
  | succ k ih =>
    cases k with
    | zero => simp [stringsJoin]
    | succ k =>
      rw [List.replicate_succ, List.replicate_succ, stringsJoin, ← List.replicate_succ,
        List.count_append, List.count_append, hsep, ih]
      rw [Nat.add_mul (k + 1) 1, Nat.one_mul]
      omega

theorem placeholders_group (c : Nat) (hc : 0 < c) : placeholders (placeholderGroup c) = c := by
  obtain ⟨n, rfl⟩ : ∃ n, c = n + 1 := Nat.exists_eq_succ_of_ne_zero (by omega)
  unfold placeholders placeholderGroup
  rw [join_replicate_question, List.count_append, List.count_append, List.count_append,
    count_stringsRepeat]
  have h1 : (go "(").count 0x3F = 0 := by decide
  have h2 : (go "?,").count 0x3F = 1 := by decide
  have h3 : (go "?").count 0x3F = 1 := by decide
  have h4 : (go ")").count 0x3F = 0 := by decide
  rw [h1, h2, h3, h4]
  omega

/-- The number of placeholders of a statement text whose names and clauses
hold no '?'. -/
theorem placeholders_insertQueryText (table : GoString) (columns returningColumns : List GoString)
    (nvalues : Nat) (conflictAction : GoString) (hc : columns ≠ [])
    (ht : (0x3F : UInt8) ∉ table) (hcol : ∀ c ∈ columns, (0x3F : UInt8) ∉ c)
    (hret : ∀ c ∈ returningColumns, (0x3F : UInt8) ∉ c)
    (hconf : (0x3F : UInt8) ∉ conflictAction) :
    placeholders (insertQueryText table columns returningColumns nvalues conflictAction) =
      nvalues / columns.length * columns.length := by
  have hpos : 0 < columns.length := List.length_pos.mpr hc
  have hsep : (go ", ").count 0x3F = 0 := by decide
  have h1 : (go "INSERT INTO ").count 0x3F = 0 := by decide
  have h2 : (go " (").count 0x3F = 0 := by decide
  have h3 : (go ") VALUES ").count 0x3F = 0 := by decide
  have h4 : (go " ").count 0x3F = 0 := by decide
  have h5 : (go " RETURNING ").count 0x3F = 0 := by decide
  have hg := placeholders_group columns.length hpos
  unfold placeholders at hg ⊢
  unfold insertQueryText
  have hcols := count_stringsJoin_zero 0x3F (go ", ") hsep columns
    (fun c hc => List.count_eq_zero.mpr (hcol c hc))
  have hrets := count_stringsJoin_zero 0x3F (go ", ") hsep returningColumns
    (fun c hc => List.count_eq_zero.mpr (hret c hc))
  have htab := List.count_eq_zero.mpr ht
  have hcf := List.count_eq_zero.mpr hconf
  simp only [List.count_append, h1, h2, h3, hcols, htab,
    count_stringsJoin_replicate 0x3F (go ", ") _ hsep, hg]
  split <;> split <;> simp [List.count_append, h4, h5, hcf, hrets]

/-- Without valid input `bulkInsert` causes no event. -/
theorem bulkInsert_invalid {σ : Type} (E : Env σ) (db : DB) (ctx : Context) (table : GoString)
    (columns : List GoString) (returningColumns : Option (List GoString)) (values : List Value)
    (conflictAction : GoString) (scanFunc : Option (List Value → Option ExtError))
    (w : World σ)
    (h : ¬ (columns ≠ [] ∧ values.length % columns.length = 0 ∧ columns.length ≤ 1000)) :
    (db.bulkInsert E ctx table columns returningColumns values conflictAction scanFunc w).events
      = [] ∧
    (db.bulkInsert E ctx table columns returningColumns values conflictAction scanFunc w).world
      = w := by
  by_cases hc : columns.length = 0
  · simp [DB.bulkInsert, hc]
  · by_cases hm : values.length % columns.length = 0
    · have hk : 1000 < columns.length := by
        by_contra hk
        exact h ⟨fun h0 => hc (by rw [h0]; rfl), hm, by omega⟩
      rw [bulkInsert_stride_zero E db ctx table columns returningColumns values conflictAction
        scanFunc w hm hk]
      exact ⟨rfl, rfl⟩
    · simp [DB.bulkInsert, hc, hm]

/-- Every statement text `bulkInsert` prepares is the text for a number of
values that is a positive multiple of the number of columns. -/
theorem bulkInsert_prepared_form {σ : Type} (E : Env σ) (db : DB) (ctx : Context)
    (table : GoString) (columns : List GoString) (returningColumns : Option (List GoString))
    (values : List Value) (conflictAction : GoString)
    (scanFunc : Option (List Value → Option ExtError)) (w : World σ) :
    ∀ t ∈ preparedTexts (db.bulkInsert E ctx table columns returningColumns values
        conflictAction scanFunc w).events,
      columns ≠ [] ∧ ∃ n, columns.length ∣ n ∧ 0 < n ∧
        t = buildInsertQuery table columns (returningColumns.getD []) n conflictAction := by
  intro t ht
  by_cases h : columns ≠ [] ∧ values.length % columns.length = 0 ∧ columns.length ≤ 1000
  · obtain ⟨hc, hm, hk⟩ := h
    have hpos : 0 < columns.length := List.length_pos.mpr hc
    have hs := strideOf_pos columns.length hpos hk
    obtain ⟨evs, d, hrun, hp, _⟩ := bulkInsert_run_lists E db ctx table columns returningColumns
      values conflictAction scanFunc w hc hm hk
    rw [hp] at ht
    obtain ⟨n, hn, h1, _, h3⟩ := (Run_parameters hrun columns.length hs
      (Dvd.intro_left _ rfl) (Nat.dvd_of_mod_eq_zero hm) (Nat.dvd_zero _)).1 t ht
    exact ⟨hc, n, h3, by omega, hn⟩
  · rw [(bulkInsert_invalid E db ctx table columns returningColumns values conflictAction
      scanFunc w h).1] at ht
    simp [preparedTexts] at ht

/-! ### The statements run and the values bound to them -/

theorem stmtRuns_rows (f : Option (List Value → Option ExtError))
    (final : Option ExtError) (rows : List (List Value)) (n : Nat) :
    stmtRuns (processRowsLoop f final rows n).1 = [] := by
  unfold stmtRuns
  rw [List.filterMap_eq_nil_iff]
  intro e he
  have := (processRowsLoop_events f final rows n e he).2.1
  cases e <;> simp_all [Event.bound, Event.run]

theorem stmtRuns_dbEvents (evs : List Event) : stmtRuns (dbEvents evs) = stmtRuns evs := by
  induction evs with
  | nil => rfl
  | cons e rest ih =>
    rw [dbEvents_cons]
    cases e <;> simp [Event.isLog, stmtRuns, Event.run] <;> exact ih

theorem stmtRuns_stmtClose (ds : List Stmt) : stmtRuns (ds.map Event.stmtClose) = [] := by
  unfold stmtRuns
  rw [List.filterMap_eq_nil_iff]
  intro e he
  obtain ⟨d, _, rfl⟩ := List.mem_map.mp he
  rfl

/-- Every statement the loop runs carries the text prepared for its chunk,
and the values bound to it are as many as the text was built for. -/
theorem Run_stmtRuns {q : Nat → GoString} {values : List Value} {stride : Nat}
    {returning : Bool} {l : Nat} {evs : List Event} {d : List Stmt} {o : Outcome (Option Error)}
    (h : Run q values stride returning l evs d o) (c : Nat)
    (h1 : c ∣ stride) (h2 : c ∣ values.length) (h3 : c ∣ l) :
    ∀ p ∈ stmtRuns evs, ∃ n, p.1.query = q n ∧ p.2.length = n ∧ c ∣ n ∧
      q n ∈ preparedTexts evs := by
  have key : ∀ l, l < values.length → c ∣ l →
      ((values.take (rightBoundOf stride values.length l)).drop l).length =
        rightBoundOf stride values.length l - l ∧
      c ∣ rightBoundOf stride values.length l - l := by
    intro l hl hd
    exact ⟨slice_length values stride l, rightBoundOf_dvd c stride values.length l h1 h2 hd⟩
  induction h with
  | done l h => simp [stmtRuns]
  | prepareFailed l e h => simp [stmtRuns, Event.run]
  | execFailed l id e h hm =>
    intro p hp
    simp [stmtRuns, Event.run] at hp
    subst hp
    exact ⟨_, rfl, (key l h h3).1, (key l h h3).2, by simp⟩
  | execOk l id evs d o h hm rest ih =>
    have ih := ih (Dvd.dvd.add h3 h1)
    intro p hp
    simp only [stmtRuns, List.filterMap_cons, Event.run, List.mem_cons] at hp
    rcases hp with rfl | hp
    · exact ⟨_, rfl, (key l h h3).1, (key l h h3).2, by simp⟩
    · obtain ⟨n, a, b, c', hq⟩ := ih p hp
      exact ⟨n, a, b, c', by simp [hq]⟩
  | queryFailed l id e h hm =>
    intro p hp
    simp [stmtRuns, Event.run] at hp
    subst hp
    exact ⟨_, rfl, (key l h h3).1, (key l h h3).2, by simp⟩
  | rowsFailed l id f rows n e h hm hr =>
    intro p hp
    have hrows := stmtRuns_rows f rows.err rows.rows 0
    simp only [stmtRuns, List.filterMap_cons, List.filterMap_append, Event.run,
      List.mem_cons] at hp hrows
    simp only [hrows, List.filterMap_nil, List.append_nil, List.not_mem_nil, or_false] at hp
    subst hp
    exact ⟨_, rfl, (key l h h3).1, (key l h h3).2, by simp⟩
  | rowsPanic l id f rows msg h hm hr =>
    intro p hp
    have hrows := stmtRuns_rows f rows.err rows.rows 0
    simp only [stmtRuns, List.filterMap_cons, List.filterMap_append, Event.run,
      List.mem_cons] at hp hrows
    simp only [hrows, List.filterMap_nil, List.append_nil, List.not_mem_nil, or_false] at hp
    subst hp
    exact ⟨_, rfl, (key l h h3).1, (key l h h3).2, by simp⟩
  | rowsOk l id f rows n evs d o h hm hr rest ih =>
    have ih := ih (Dvd.dvd.add h3 h1)
    intro p hp
    have hrows := stmtRuns_rows f rows.err rows.rows 0
    simp only [stmtRuns, List.filterMap_cons, List.filterMap_append, Event.run,
      List.mem_cons] at hp hrows
    simp only [hrows, List.filterMap_nil, List.append_nil, List.nil_append] at hp
    rcases hp with rfl | hp
    · exact ⟨_, rfl, (key l h h3).1, (key l h h3).2, by simp⟩
    · obtain ⟨n', a, b, c', hq⟩ := ih p hp
      exact ⟨n', a, b, c', by simp [hq]⟩

theorem bulkInsert_stmtRuns {σ : Type} (E : Env σ) (db : DB) (ctx : Context)
    (table : GoString) (columns : List GoString) (returningColumns : Option (List GoString))
    (values : List Value) (conflictAction : GoString)
    (scanFunc : Option (List Value → Option ExtError)) (w : World σ) :
    ∀ p ∈ stmtRuns (db.bulkInsert E ctx table columns returningColumns values
        conflictAction scanFunc w).events,
      columns ≠ [] ∧ ∃ n, columns.length ∣ n ∧ p.2.length = n ∧
        p.1.query = buildInsertQuery table columns (returningColumns.getD []) n conflictAction ∧
        p.1.query ∈ preparedTexts (db.bulkInsert E ctx table columns returningColumns values
          conflictAction scanFunc w).events := by
  intro p hp
  by_cases h : columns ≠ [] ∧ values.length % columns.length = 0 ∧ columns.length ≤ 1000
  · obtain ⟨hc, hm, hk⟩ := h
    obtain ⟨evs, d, hrun, hev⟩ := bulkInsert_run E db ctx table columns returningColumns
      values conflictAction scanFunc w hc hm hk
    have hsr : stmtRuns (db.bulkInsert E ctx table columns returningColumns values
        conflictAction scanFunc w).events = stmtRuns evs := by
      rw [← stmtRuns_dbEvents, hev]
      unfold stmtRuns
      rw [List.filterMap_append]
      have := stmtRuns_stmtClose d.reverse
      unfold stmtRuns at this
      rw [this, List.append_nil]
    have hpt : preparedTexts (db.bulkInsert E ctx table columns returningColumns values
        conflictAction scanFunc w).events = preparedTexts evs := by
      rw [← preparedTexts_dbEvents, hev, preparedTexts_append, preparedTexts_stmtClose,
        List.append_nil]
    rw [hsr] at hp
    obtain ⟨n, a, b, c, hq⟩ := Run_stmtRuns hrun columns.length
      (Dvd.intro_left _ rfl) (Nat.dvd_of_mod_eq_zero hm) (Nat.dvd_zero _) p hp
    exact ⟨hc, n, c, b, a, by rw [hpt, a]; exact hq⟩
  · rw [(bulkInsert_invalid E db ctx table columns returningColumns values conflictAction
      scanFunc w h).1] at hp
    simp [stmtRuns] at hp

/-! ### The statements prepared and released -/

theorem logQuery_stmts {σ : Type} (E : Env σ) (ctx : Context) (query : GoString)
    (args : List Value) (instanceID : GoString) (w : World σ) :
    (logQuery E ctx query args instanceID w).world.stmts = w.stmts := by
  unfold logQuery
  split <;> simp [generateLoggingID]

theorem Prepare_stmts {σ : Type} (E : Env σ) (db : DB) (ctx : Context) (query : GoString)
    (w : World σ) :
    (∀ e, (db.Prepare E ctx query w).val = .error e →
      (db.Prepare E ctx query w).world.stmts = w.stmts) ∧
    (∀ stmt, (db.Prepare E ctx query w).val = .ok stmt →
      stmt.id = w.stmts ∧ (db.Prepare E ctx query w).world.stmts = w.stmts + 1) := by
  rcases h : (E.PrepareContext w.env ctx query).2 with _ | e
  · unfold DB.Prepare
    simp [h, logQuery_stmts]
  · unfold DB.Prepare
    simp [h, logQuery_stmts]

theorem closeAll_stmts {σ : Type} (E : Env σ) (ds : List Stmt) (w : World σ) :
    (closeAll E ds w).1.stmts = w.stmts := by
  induction ds generalizing w with
  | nil => rfl
  | cons d rest ih => simp [closeAll, ih]

/-- The statements whose `Close` the loop defers are the statements it has
prepared: their identities are the next ones of the world, in order. -/
theorem bulkInsertLoop_ids {σ : Type} (E : Env σ) (db : DB) (ctx : Context) (table : GoString)
    (columns : List GoString) (returningColumns : Option (List GoString)) (values : List Value)
    (conflictAction : GoString) (scanFunc : Option (List Value → Option ExtError))
    (stride : Nat) :
    ∀ (fuel l : Nat) (w : World σ),
      (bulkInsertLoop E db ctx table columns returningColumns values conflictAction
          scanFunc stride fuel l w).deferred.map Stmt.id =
        List.range' w.stmts (bulkInsertLoop E db ctx table columns returningColumns values
          conflictAction scanFunc stride fuel l w).deferred.length ∧
      (bulkInsertLoop E db ctx table columns returningColumns values conflictAction
          scanFunc stride fuel l w).world.stmts =
        w.stmts + (bulkInsertLoop E db ctx table columns returningColumns values
          conflictAction scanFunc stride fuel l w).deferred.length := by
  intro fuel
  induction fuel with
  | zero => intro l w; simp [bulkInsertLoop]
  | succ fuel ih =>
    intro l w
    unfold bulkInsertLoop
    by_cases hl : l < values.length
    · simp only [hl, if_true]
      have hP := Prepare_stmts E db ctx (buildInsertQuery table columns (returningColumns.getD [])
        (rightBoundOf stride values.length l - l) conflictAction) w
      generalize db.Prepare E ctx (buildInsertQuery table columns (returningColumns.getD [])
        (rightBoundOf stride values.length l - l) conflictAction) w = p at hP ⊢
      rcases p with ⟨pw, pev, pval⟩
      cases pval with
      | error e =>
        simp only
        have := hP.1 e rfl
        simp only at this
        simp [this]
      | ok stmt =>
        obtain ⟨hid, hst⟩ := hP.2 stmt rfl
        rcases pw with ⟨penv, pqc, pdis, pst⟩
        simp only at hst
        subst hst
        simp only
        cases returningColumns with
        | none =>
          simp only
          split
          · simp [hid]
          · simp only [List.map_cons, List.length_cons, hid, List.range'_succ]
            refine ⟨?_, ?_⟩
            · rw [(ih _ _).1]
            · rw [(ih _ _).2]
              simp only
              omega
        | some rc =>
          simp only
          split
          · simp [hid]
          · rename_i rows he
            simp only [processRows]
            split
            · simp [hid]
            · simp [hid]
            · simp [hid]
            · simp only [List.map_cons, List.length_cons, hid, List.range'_succ]
              refine ⟨?_, ?_⟩
              · rw [(ih _ _).1]
              · rw [(ih _ _).2]
                simp only
                omega
    · simp [hl]

theorem closedStmts_rows (f : Option (List Value → Option ExtError))
    (final : Option ExtError) (rows : List (List Value)) (n : Nat) :
    closedStmts (processRowsLoop f final rows n).1 = [] ∧
      (processRowsLoop f final rows n).1.countP Event.isPrepared = 0 := by
  constructor
  · unfold closedStmts
    rw [List.filterMap_eq_nil_iff]
    intro e he
    have := (processRowsLoop_events f final rows n e he).2.2.2
    cases e <;> simp_all [Event.isStmtClose, Event.closed]
  · rw [List.countP_eq_zero]
    intro e he
    have := (processRowsLoop_events f final rows n e he).1
    cases e <;> simp_all [Event.prepared, Event.isPrepared]

/-- In a run of the loop, the statements whose `Close` is deferred are the
statements run, one per prepare that succeeded, and none is released yet. -/
theorem Run_deferred {q : Nat → GoString} {values : List Value} {stride : Nat}
    {returning : Bool} {l : Nat} {evs : List Event} {d : List Stmt} {o : Outcome (Option Error)}
    (h : Run q values stride returning l evs d o) :
    (stmtRuns evs).map Prod.fst = d ∧ evs.countP Event.isPrepared = d.length ∧
      closedStmts evs = [] := by
  induction h with
  | done l h => simp [stmtRuns, closedStmts]
  | prepareFailed l e h => simp [stmtRuns, closedStmts, Event.run, Event.closed, Event.isPrepared]
  | execFailed l id e h hm =>
    simp [stmtRuns, closedStmts, Event.run, Event.closed, Event.isPrepared]
  | execOk l id evs d o h hm rest ih =>
    obtain ⟨h1, h2, h3⟩ := ih
    unfold stmtRuns closedStmts at *
    simp [Event.run, Event.closed, Event.isPrepared, h1, h2, h3]
  | queryFailed l id e h hm =>
    simp [stmtRuns, closedStmts, Event.run, Event.closed, Event.isPrepared]
  | rowsFailed l id f rows n e h hm hr =>
    have hr1 := stmtRuns_rows f rows.err rows.rows 0
    obtain ⟨hr2, hr3⟩ := closedStmts_rows f rows.err rows.rows 0
    unfold stmtRuns closedStmts at *
    simp [Event.run, Event.closed, Event.isPrepared, hr1, hr2, hr3]
  | rowsPanic l id f rows msg h hm hr =>
    have hr1 := stmtRuns_rows f rows.err rows.rows 0
    obtain ⟨hr2, hr3⟩ := closedStmts_rows f rows.err rows.rows 0
    unfold stmtRuns closedStmts at *
    simp [Event.run, Event.closed, Event.isPrepared, hr1, hr2, hr3]
  | rowsOk l id f rows n evs d o h hm hr rest ih =>
    obtain ⟨h1, h2, h3⟩ := ih
    have hr1 := stmtRuns_rows f rows.err rows.rows 0
    obtain ⟨hr2, hr3⟩ := closedStmts_rows f rows.err rows.rows 0
    unfold stmtRuns closedStmts at *
    simp [Event.run, Event.closed, Event.isPrepared, h1, h2, h3, hr1, hr2, hr3]

theorem closedStmts_dbEvents (evs : List Event) :
    closedStmts (dbEvents evs) = closedStmts evs ∧
      (dbEvents evs).countP Event.isPrepared = evs.countP Event.isPrepared := by
  induction evs with
  | nil => exact ⟨rfl, rfl⟩
  | cons e rest ih =>
    rw [dbEvents_cons]
    obtain ⟨h1, h2⟩ := ih
    unfold closedStmts at *
    cases e <;> simp [Event.isLog, Event.closed, Event.isPrepared, List.countP_cons, h1, h2]

theorem closedStmts_stmtClose (ds : List Stmt) :
    closedStmts (ds.map Event.stmtClose) = ds ∧
      (ds.map Event.stmtClose).countP Event.isPrepared = 0 := by
  induction ds with
  | nil => exact ⟨rfl, rfl⟩
  | cons d rest ih =>
    obtain ⟨h1, h2⟩ := ih
    unfold closedStmts at *
    simp [Event.closed, Event.isPrepared, h1, h2]

/-- The statements of a call of `bulkInsert`: `k` prepares succeed, the
statements get the next `k` identities of the world, each is run, and the
events end with their releases, last prepared first. -/
theorem bulkInsert_statements {σ : Type} (E : Env σ) (db : DB) (ctx : Context)
    (table : GoString) (columns : List GoString) (returningColumns : Option (List GoString))
    (values : List Value) (conflictAction : GoString)
    (scanFunc : Option (List Value → Option ExtError)) (w : World σ) :
    ∃ (body : List Event) (d : List Stmt),
      (db.bulkInsert E ctx table columns returningColumns values conflictAction scanFunc w).events
        = body ++ d.reverse.map Event.stmtClose ∧
      closedStmts body = [] ∧
      (stmtRuns body).map Prod.fst = d ∧
      body.countP Event.isPrepared = d.length ∧
      d.map Stmt.id = List.range' w.stmts d.length ∧
      (db.bulkInsert E ctx table columns returningColumns values conflictAction scanFunc w).world.stmts
        = w.stmts + d.length := by
  by_cases h : columns ≠ [] ∧ values.length % columns.length = 0 ∧ columns.length ≤ 1000
  · obtain ⟨hc, hm, hk⟩ := h
    have hpos : 0 < columns.length := List.length_pos.mpr hc
    have hs := strideOf_pos columns.length hpos hk
    rw [bulkInsert_eq E db ctx table columns returningColumns values conflictAction scanFunc w
      hc hm hk]
    have hrun := bulkInsertLoop_run E db ctx table columns returningColumns values conflictAction
      scanFunc (strideOf columns.length) hs (values.length + 1) 0 w (by omega)
    have hids := bulkInsertLoop_ids E db ctx table columns returningColumns values conflictAction
      scanFunc (strideOf columns.length) (values.length + 1) 0 w
    generalize bulkInsertLoop E db ctx table columns returningColumns values conflictAction
      scanFunc (strideOf columns.length) (values.length + 1) 0 w = L at hrun hids
    obtain ⟨h1, h2, h3⟩ := Run_deferred hrun
    rw [stmtRuns_dbEvents] at h1
    rw [(closedStmts_dbEvents L.events).2] at h2
    rw [(closedStmts_dbEvents L.events).1] at h3
    exact ⟨L.events, L.deferred, rfl, h3, h1, h2, hids.1, by
      simp only [closeAll_stmts]
      exact hids.2⟩
  · obtain ⟨h1, h2⟩ := bulkInsert_invalid E db ctx table columns returningColumns values
      conflictAction scanFunc w h
    exact ⟨[], [], by rw [h1]; rfl, rfl, rfl, rfl, rfl, by rw [h2]; rfl⟩

/-- With logging enabled, the events of `Prepare` are the compilation of the
statement and then one debug record; with logging disabled, the compilation
alone. -/
theorem Prepare_events {σ : Type} (E : Env σ) (db : DB) (ctx : Context) (query : GoString)
    (w : World σ) :
    (w.QueryLoggingDisabled = false →
      ∃ text, (db.Prepare E ctx query w).events =
        [.prepare query (E.PrepareContext w.env ctx query).2, .log .debug (.text text)]) ∧
    (w.QueryLoggingDisabled = true →
      (db.Prepare E ctx query w).events =
        [.prepare query (E.PrepareContext w.env ctx query).2]) := by
  constructor
  · intro h
    rcases hp : (E.PrepareContext w.env ctx query).2 with _ | e
    · unfold DB.Prepare logQuery
      simp [hp, h]
    · unfold DB.Prepare logQuery
      simp [hp, h]
  · intro h
    rcases hp : (E.PrepareContext w.env ctx query).2 with _ | e
    · unfold DB.Prepare logQuery
      simp [hp, h]
    · unfold DB.Prepare logQuery
      simp [hp, h]

/-! ### ResetDB -/

/-- Every call of `Exec` sends its statement to the database, once. -/
theorem Exec_directTexts {σ : Type} (E : Env σ) (db : DB) (ctx : Context) (query : GoString)
    (args : List Value) (w : World σ) :
    directTexts (db.Exec E ctx query args w).events = [query] := by
  have h1 : directTexts (logQuery E ctx query args db.instanceID w).events = [] := by
    unfold logQuery
    split <;> simp [directTexts, Event.direct]
  have h2 : ∀ w', directTexts (db.ExecBody E ctx query args w').events = [query] := by
    intro w'
    unfold DB.ExecBody DB.execResult
    simp only
    split <;> [skip; split] <;> simp [directTexts, Event.direct]
  have h3 : ∀ f errp w', directTexts (logQueryDone E f errp w').events = [] := by
    intro f errp w'
    unfold logQueryDone
    cases f with
    | none => rfl
    | some f =>
      simp only
      cases errp with
      | none => rfl
      | some err =>
        cases err with
        | none => rfl
        | some e => simp only; split <;> rfl
  unfold DB.Exec
  simp only [directTexts, List.filterMap_append] at h1 h2 h3 ⊢
  rw [h1, h2, h3]
  rfl

/-- The statements `ResetDB` issues, by what fails. -/
theorem ResetDB_statements {σ : Type} (E : Env σ) (ctx : Context) (db : DB) (w : World σ) :
    (directTexts (ResetDB E ctx db w).events).head? = some disableChecks ∧
    ((db.Exec E ctx disableChecks [] w).val.2 ≠ none →
      directTexts (ResetDB E ctx db w).events = [disableChecks] ∧
      (ResetDB E ctx db w).val ≠ none) ∧
    ((db.Exec E ctx disableChecks [] w).val.2 = none →
      (db.Exec E ctx truncateTable [] (db.Exec E ctx disableChecks [] w).world).val.2 = none →
      directTexts (ResetDB E ctx db w).events = [disableChecks, truncateTable, enableChecks]) ∧
    ((ResetDB E ctx db w).val = none →
      directTexts (ResetDB E ctx db w).events = [disableChecks, truncateTable, enableChecks] ∧
      (db.Exec E ctx disableChecks [] w).val.2 = none ∧
      (db.Exec E ctx truncateTable [] (db.Exec E ctx disableChecks [] w).world).val.2 = none ∧
      (db.Exec E ctx enableChecks []
        (db.Exec E ctx truncateTable [] (db.Exec E ctx disableChecks [] w).world).world).val.2
          = none) := by
  have hd := Exec_directTexts E db ctx
  have happ : ∀ a b : List Event, directTexts (a ++ b) = directTexts a ++ directTexts b := by
    intro a b
    simp [directTexts, List.filterMap_append]
  unfold ResetDB
  simp only
  cases h1 : (db.Exec E ctx disableChecks [] w).val.2 with
  | some e1 => simp [hd]
  | none =>
    simp only
    cases h2 : (db.Exec E ctx truncateTable [] (db.Exec E ctx disableChecks [] w).world).val.2 with
    | some e2 => simp [hd, happ]
    | none =>
      simp only
      cases h3 : (db.Exec E ctx enableChecks []
        (db.Exec E ctx truncateTable [] (db.Exec E ctx disableChecks [] w).world).world).val.2 with
      | some e3 => simp [hd, happ]
      | none => simp [hd, happ]

/-! ### decodeBody -/

theorem closeBlock_eq (currentBlock : List GoString) (cookies : List Value) :
    closeBlock currentBlock cookies = cookies ++ (cookieOf currentBlock).toList := by
  unfold closeBlock cookieOf minCookieLength maxCookieLength
  cases currentBlock with
  | nil =>
    have h : (stringsTrimSpace (stringsJoin [] (go "\n"))).length = 0 := by decide
    simp [h]
  | cons a rest =>
    simp only [List.length_cons, gt_iff_lt, Nat.zero_lt_succ, if_true, ge_iff_le]
    split <;> simp

theorem decodeLines_spec :
    ∀ (lines currentBlock : List GoString) (cookies : List Value),
      (∀ l ∈ currentBlock, ¬ isSeparatorLine l = true) →
      closeBlock (decodeLines lines currentBlock cookies).1
          (decodeLines lines currentBlock cookies).2 =
        cookies ++ ((currentBlock ++ lines).splitOnP isSeparatorLine).filterMap cookieOf := by
  intro lines
  induction lines with
  | nil =>
    intro cb cs h
    rw [List.append_nil, List.splitOnP_eq_single isSeparatorLine cb h]
    simp only [decodeLines, closeBlock_eq, List.filterMap_cons, List.filterMap_nil]
    cases cookieOf cb <;> rfl
  | cons line rest ih =>
    intro cb cs h
    unfold decodeLines
    by_cases hsep : stringsTrimSpace line = go "%"
    · have hs : isSeparatorLine line = true := by simp [isSeparatorLine, hsep]
      simp only [hsep, if_true]
      rw [List.splitOnP_first isSeparatorLine _ h line hs rest, List.filterMap_cons]
      cases cb with
      | nil =>
        have h0 : cookieOf [] = none := by decide
        simp only [List.length_nil, gt_iff_lt, Nat.lt_irrefl, if_false, h0]
        simpa using ih [] cs (by simp)
      | cons a cb =>
        simp only [List.length_cons, gt_iff_lt, Nat.zero_lt_succ, if_true]
        have := ih [] (closeBlock (a :: cb) cs) (by simp)
        rw [List.nil_append] at this
        rw [this, closeBlock_eq]
        cases cookieOf (a :: cb) <;> simp
    · have hs : ¬ isSeparatorLine line = true := by simp [isSeparatorLine, hsep]
      simp only [hsep, if_false]
      have := ih (cb ++ [line]) cs (by
        intro l hl
        rcases List.mem_append.mp hl with hl | hl
        · exact h l hl
        · rw [List.mem_singleton.mp hl]
          exact hs)
      rw [this, List.append_assoc]
      rfl

theorem recordsOf_eq (input : GoString) :
    (recordsOf input).map Value.str =
      ((stringsSplit input 0x0A).splitOnP isSeparatorLine).filterMap cookieOf := by
  unfold recordsOf
  generalize (stringsSplit input 0x0A).splitOnP isSeparatorLine = blocks
  induction blocks with
  | nil => rfl
  | cons b rest ih =>
    rw [List.map_cons, List.filter_cons, List.filterMap_cons]
    by_cases h : 3 ≤ (stringsTrimSpace (stringsJoin b (go "\n"))).length ∧
        (stringsTrimSpace (stringsJoin b (go "\n"))).length ≤ 10000
    · have hc : cookieOf b = some (.str (stringsTrimSpace (stringsJoin b (go "\n")))) := by
        unfold cookieOf
        rw [if_pos h]
      rw [hc]
      simp only [h, and_self, decide_True, if_true, List.map_cons]
      rw [ih]
    · have hc : cookieOf b = none := by
        unfold cookieOf
        rw [if_neg h]
      rw [hc]
      simp only [h, decide_False, Bool.false_eq_true, if_false]
      rw [ih]

/-! ### The pool -/

theorem setupLoop_ready {σ : Type} (U : UtilEnv σ) (dbBaseName : GoString) :
    ∀ (todo i : Nat) (s : σ) (dbs out : List Handle),
      (setupLoop U dbBaseName todo i s dbs).val = .ready out → out = dbs ++ List.range' i todo := by
  intro todo
  induction todo with
  | zero =>
    intro i s dbs out h
    simp only [setupLoop, PoolSetup.ready.injEq] at h
    simp [h]
  | succ todo ih =>
    intro i s dbs out h
    unfold setupLoop at h
    simp only at h
    split at h
    · cases h
    · cases h
    · cases h
    · rw [ih _ _ _ _ h, List.range'_succ, List.append_assoc]
      rfl

/-- When the set-up succeeds, the pool is `Pool.init`. -/
theorem setUpPool_ready {σ : Type} (U : UtilEnv σ) (dbBaseName : GoString) (numDBs : Nat)
    (w : World σ) (p : Pool σ) (h : (setUpPool U dbBaseName numDBs w).2 = some p) :
    p = Pool.init numDBs { w with env := p.world.env } := by
  unfold setUpPool at h
  simp only at h
  split at h
  · rename_i dbs hd
    have := setupLoop_ready U dbBaseName numDBs 0 w.env [] dbs hd
    simp only [Option.some.injEq] at h
    subst h
    simp [Pool.init, this, List.range_eq_range']
  · cases h

theorem PoolInv_init {σ : Type} (n : Nat) (w : World σ) : PoolInv n (Pool.init n w) := by
  simp [PoolInv, Pool.init]

theorem PoolInv_facts {σ : Type} (n : Nat) (p : Pool σ) (h : PoolInv n p) :
    p.dbs.length + p.held.length = n ∧ p.dbs.Nodup ∧ (p.held.map Prod.snd).Nodup ∧
      (∀ db ∈ p.dbs, ∀ c, (c, db) ∉ p.held) ∧
      (∀ c₁ c₂ db, (c₁, db) ∈ p.held → (c₂, db) ∈ p.held → c₁ = c₂) ∧
      (∀ db, db < n ↔ (db ∈ p.dbs ∨ ∃ c, (c, db) ∈ p.held)) := by
  obtain ⟨hperm, _⟩ := h
  have hlen := hperm.length_eq
  simp only [List.length_append, List.length_map, List.length_range] at hlen
  have hnd : (p.dbs ++ p.held.map Prod.snd).Nodup := hperm.nodup_iff.mpr (List.nodup_range n)
  rw [List.nodup_append] at hnd
  obtain ⟨h1, h2, h3⟩ := hnd
  refine ⟨hlen, h1, h2, ?_, ?_, ?_⟩
  · intro db hdb c hc
    exact h3 hdb (List.mem_map.mpr ⟨(c, db), hc, rfl⟩)
  · intro c₁ c₂ db hc1 hc2
    have hinj := List.inj_on_of_nodup_map h2 hc1 hc2 rfl
    exact congrArg Prod.fst hinj
  · intro db
    rw [← List.mem_range, ← hperm.mem_iff, List.mem_append, List.mem_map]
    constructor
    · rintro (h | ⟨⟨c, d⟩, hm, rfl⟩)
      · exact Or.inl h
      · exact Or.inr ⟨c, hm⟩
    · rintro (h | ⟨c, hm⟩)
      · exact Or.inl h
      · exact Or.inr ⟨(c, db), hm, rfl⟩

theorem acquire_inv {σ : Type} (n : Nat) (p q : Pool σ) (caller : Nat) (db : Handle)
    (h : PoolInv n p) (ha : acquire p caller = some (q, db)) :
    PoolInv n q ∧ p.dbs = db :: q.dbs ∧ q.held = p.held ++ [(caller, db)] ∧
      q.world = p.world := by
  unfold acquire at ha
  cases hd : p.dbs with
  | nil => simp [hd] at ha
  | cons d rest =>
    simp only [hd, Option.some.injEq, Prod.mk.injEq] at ha
    obtain ⟨rfl, rfl⟩ := ha
    refine ⟨⟨?_, h.2⟩, rfl, rfl, rfl⟩
    have := h.1
    rw [hd] at this
    simp only [List.map_append, List.map_cons, List.map_nil]
    refine List.Perm.trans ?_ this
    rw [← List.append_assoc, List.cons_append]
    exact List.perm_append_singleton d _

/-- The two ways a call of the release function ends when the channel has
room: with a failed reset the test is stopped and the pool keeps its
handles as they are; otherwise the handle is appended to the channel. -/
theorem release_eq {σ : Type} (E : Handle → Env σ) (caller : Nat) (db : Handle) (p : Pool σ) :
    (∀ msg, (ResetTestDB (E db) ⟨go "test"⟩ p.world).val = some msg →
      release E caller db p =
        ({ p with world := (ResetTestDB (E db) ⟨go "test"⟩ p.world).world },
          (ResetTestDB (E db) ⟨go "test"⟩ p.world).events, .fatal msg)) ∧
    ((ResetTestDB (E db) ⟨go "test"⟩ p.world).val = none → p.dbs.length < p.capacity →
      release E caller db p =
        ({ p with world := (ResetTestDB (E db) ⟨go "test"⟩ p.world).world,
                  dbs := p.dbs ++ [db], held := p.held.erase (caller, db) },
          (ResetTestDB (E db) ⟨go "test"⟩ p.world).events, .returned)) := by
  constructor
  · intro msg h
    unfold release
    simp [h]
  · intro h hlt
    unfold release
    simp [h, hlt]

theorem release_inv {σ : Type} (E : Handle → Env σ) (n : Nat) (caller : Nat) (db : Handle)
    (p : Pool σ) (h : PoolInv n p) (hheld : (caller, db) ∈ p.held) :
    (release E caller db p).2.2 ≠ .blocked ∧ PoolInv n (release E caller db p).1 ∧
      p.dbs.length < p.capacity := by
  have hlen := (PoolInv_facts n p h).1
  have hpos : 0 < p.held.length := List.length_pos_of_mem hheld
  have hlt : p.dbs.length < p.capacity := by
    rw [h.2]
    omega
  obtain ⟨h1, h2⟩ := release_eq E caller db p
  cases hr : (ResetTestDB (E db) ⟨go "test"⟩ p.world).val with
  | some msg =>
    rw [h1 msg hr]
    exact ⟨by simp, ⟨h.1, h.2⟩, hlt⟩
  | none =>
    rw [h2 hr hlt]
    refine ⟨by simp, ⟨?_, h.2⟩, hlt⟩
    simp only
    refine List.Perm.trans ?_ h.1
    rw [List.append_assoc]
    apply List.Perm.append_left
    have hp : p.held.Perm ((caller, db) :: p.held.erase (caller, db)) := by
      obtain ⟨l₁, l₂, _, e₁, e₂⟩ := List.exists_erase_eq hheld
      rw [e₂]
      nth_rewrite 1 [e₁]
      exact List.perm_middle
    have := hp.map Prod.snd
    rw [List.map_cons] at this
    exact this.symm

theorem run_inv {σ : Type} (E : Handle → Env σ) (n : Nat) (op : PoolOp) (q r : Pool σ)
    (h : PoolInv n q) (ho : op.orderly q) (hr : op.run E q = some r) : PoolInv n r := by
  cases op with
  | acquire caller =>
    simp only [PoolOp.run, Option.map_eq_some'] at hr
    obtain ⟨⟨q', db⟩, ha, rfl⟩ := hr
    exact (acquire_inv n q q' caller db h ha).1
  | release caller db =>
    obtain ⟨_, hinv, hlt⟩ := release_inv E n caller db q h ho
    obtain ⟨h1, h2⟩ := release_eq E caller db q
    cases hres : (ResetTestDB (E db) ⟨go "test"⟩ q.world).val with
    | some msg =>
      rw [h1 msg hres] at hinv
      simp only [PoolOp.run, h1 msg hres, Option.some.injEq] at hr
      rw [← hr]
      exact hinv
    | none =>
      rw [h2 hres hlt] at hinv
      simp only [PoolOp.run, h2 hres hlt, Option.some.injEq] at hr
      rw [← hr]
      exact hinv

theorem Reachable_inv {σ : Type} (E : Handle → Env σ) (n : Nat) (w : World σ) (p : Pool σ)
    (h : Reachable E (Pool.init n w) p) : PoolInv n p := by
  induction h with
  | start => exact PoolInv_init n w
  | step q r op _ ho hr ih => exact run_inv E n op q r ih ho hr

theorem acquire_eq_none {σ : Type} (p : Pool σ) (caller : Nat) :
    acquire p caller = none ↔ p.dbs = [] := by
  unfold acquire
  cases p.dbs <;> simp

theorem acquire_head {σ : Type} (p : Pool σ) (caller : Nat) (db : Handle) (rest : List Handle)
    (h : p.dbs = db :: rest) :
    acquire p caller =
      some ({ p with dbs := rest, held := p.held ++ [(caller, db)] }, db) := by
  unfold acquire
  simp [h]

/-- As many acquires as the channel holds handles all return, and take the
handles in the order of the channel. -/
theorem runOps_acquires {σ : Type} (E : Handle → Env σ) :
    ∀ (callers : List Nat) (p : Pool σ), callers.length ≤ p.dbs.length →
      ∃ q, runOps E (callers.map PoolOp.acquire) p = some q ∧
        q.dbs = p.dbs.drop callers.length ∧ q.capacity = p.capacity ∧ q.world = p.world := by
  intro callers
  induction callers with
  | nil => intro p _; exact ⟨p, rfl, rfl, rfl, rfl⟩
  | cons c rest ih =>
    intro p hlen
    cases hd : p.dbs with
    | nil => rw [hd] at hlen; simp at hlen
    | cons db dbs =>
      rw [hd] at hlen
      obtain ⟨q, hq, h1, h2, h3⟩ := ih { p with dbs := dbs, held := p.held ++ [(c, db)] }
        (by simpa using hlen)
      refine ⟨q, ?_, by simpa using h1, h2, h3⟩
      simp only [List.map_cons, runOps, PoolOp.run, acquire_head p c db dbs hd, Option.map_some']
      exact hq

/-! ### The slices bound, by position -/

theorem rightBoundOf_eq_min (stride len l : Nat) :
    rightBoundOf stride len l = min (l + stride) len := by
  unfold rightBoundOf
  split <;> omega

theorem take_range_le (m n : Nat) (h : m ≤ n) : (List.range' 0 n).take m = List.range' 0 m := by
  obtain ⟨k, rfl⟩ := Nat.exists_eq_add_of_le h
  rw [Nat.add_comm, ← List.range'_append_1]
  simp

/-- The slices bound in a call of `bulkInsert` on a valid input are the first
chunks of the values, all of them when the call returns nil. -/
theorem bulkInsert_bound {σ : Type} (E : Env σ) (db : DB) (ctx : Context) (table : GoString)
    (columns : List GoString) (returningColumns : Option (List GoString)) (values : List Value)
    (conflictAction : GoString) (scanFunc : Option (List Value → Option ExtError))
    (w : World σ) (hc : columns ≠ []) (hm : values.length % columns.length = 0)
    (hk : columns.length ≤ 1000) :
    (boundArgs (db.bulkInsert E ctx table columns returningColumns values conflictAction
        scanFunc w).events).length ≤ chunkCount (strideOf columns.length) values.length ∧
    boundArgs (db.bulkInsert E ctx table columns returningColumns values conflictAction
        scanFunc w).events =
      (List.range' 0 (boundArgs (db.bulkInsert E ctx table columns returningColumns values
        conflictAction scanFunc w).events).length).map
        (chunkSlice (strideOf columns.length) values) ∧
    ((db.bulkInsert E ctx table columns returningColumns values conflictAction scanFunc w).val =
        .ret none →
      (boundArgs (db.bulkInsert E ctx table columns returningColumns values conflictAction
        scanFunc w).events).length = chunkCount (strideOf columns.length) values.length) := by
  have hpos : 0 < columns.length := List.length_pos.mpr hc
  have hs := strideOf_pos columns.length hpos hk
  obtain ⟨evs, d, hrun, _, hb⟩ := bulkInsert_run_lists E db ctx table columns returningColumns
    values conflictAction scanFunc w hc hm hk
  have hsl := Run_slices hrun hs 0 (by simp)
  simp only [Nat.sub_zero] at hsl
  rw [hb]
  have hle : (boundArgs evs).length ≤ chunkCount (strideOf columns.length) values.length := by
    have := hsl.1.length_le
    simpa using this
  refine ⟨hle, ?_, ?_⟩
  · have h := List.prefix_iff_eq_take.mp hsl.1
    rw [← List.map_take, take_range_le _ _ hle] at h
    exact h
  · intro hv
    have := congrArg List.length (hsl.2 hv)
    simpa using this

/-! ## The claims -/

/-- C1: for every table, conflict clause, column list with at least one
column and value list with `len(values) % len(columns) != 0`, `bulkInsert`
returns the arity error, causes no event at all (so it prepares and executes
no statement) and leaves the world as it was; `BulkInsert` then returns an
error too, with no event either. -/
theorem bulkInsert_arity_mismatch {σ : Type} (E : Env σ) (db : DB) (ctx : Context)
    (table : GoString) (columns : List GoString) (returningColumns : Option (List GoString))
    (values : List Value) (conflictAction : GoString)
    (scanFunc : Option (List Value → Option ExtError)) (w : World σ)
    (hc : columns ≠ []) (hm : values.length % columns.length ≠ 0) :
    (db.bulkInsert E ctx table columns returningColumns values conflictAction scanFunc w).val =
        .ret (some (.errorString (go "modulus of len(values) and len(columns) must be 0: got " ++
          itoa (values.length % columns.length)))) ∧
      (db.bulkInsert E ctx table columns returningColumns values conflictAction scanFunc w).events
        = [] ∧
      (db.bulkInsert E ctx table columns returningColumns values conflictAction scanFunc w).world
        = w ∧
      (∃ e, (db.BulkInsert E ctx table columns values conflictAction w).val = .ret (some e)) ∧
      (db.BulkInsert E ctx table columns values conflictAction w).events = [] ∧
      (db.BulkInsert E ctx table columns values conflictAction w).world = w := by
  have hpos : columns.length ≠ 0 := Nat.ne_of_gt (List.length_pos.mpr hc)
  have hb : ∀ rc sf, db.bulkInsert E ctx table columns rc values conflictAction sf w =
      ⟨w, [], .ret (some (.errorString
        (go "modulus of len(values) and len(columns) must be 0: got " ++
          itoa (values.length % columns.length))))⟩ := by
    intro rc sf
    unfold DB.bulkInsert
    simp [hpos, hm]
  refine ⟨by rw [hb], by rw [hb], by rw [hb], ?_, ?_, ?_⟩
  · unfold DB.BulkInsert
    rw [hb]
    simp [wraperr.Wrap]
  · unfold DB.BulkInsert
    rw [hb]
  · unfold DB.BulkInsert
    rw [hb]

theorem bulkInsert_arity_mismatch_witness :
    (DB.bulkInsert okEnv ⟨go "test"⟩ ⟨0⟩ (go "test_bulk_insert") [go "colA", go "colB"] none
        [.str (go "valueA1"), .str (go "valueB1"), .str (go "valueA2")] [] none
        (World.init 0)).events = [] ∧
      (DB.BulkInsert okEnv ⟨go "test"⟩ ⟨0⟩ (go "test_bulk_insert") [go "colA", go "colB"]
        [.str (go "valueA1"), .str (go "valueB1"), .str (go "valueA2")] []
        (World.init 0)).events = [] :=
  have h := bulkInsert_arity_mismatch okEnv ⟨go "test"⟩ ⟨0⟩ (go "test_bulk_insert")
    [go "colA", go "colB"] none [.str (go "valueA1"), .str (go "valueB1"), .str (go "valueA2")]
    [] none (World.init 0) (by decide) (by decide)
  ⟨h.2.1, h.2.2.2.2.1⟩

/-- C5: when the arity check passes (at least one column, length a multiple
of the column count), `bulkInsert` returns the too-many-columns error if and
only if there are more than 1000 columns, which is exactly when the stride
`floor(1000/len(columns))*len(columns)` is 0; in that case it causes no event
(it prepares no statement) and leaves the world as it was. -/
theorem bulkInsert_too_many_columns {σ : Type} (E : Env σ) (db : DB) (ctx : Context)
    (table : GoString) (columns : List GoString) (returningColumns : Option (List GoString))
    (values : List Value) (conflictAction : GoString)
    (scanFunc : Option (List Value → Option ExtError)) (w : World σ)
    (hc : columns ≠ []) (hm : values.length % columns.length = 0) :
    ((db.bulkInsert E ctx table columns returningColumns values conflictAction scanFunc w).val =
        .ret (some (.errorString (go "too many columns to insert: " ++ itoa columns.length))) ↔
      1000 < columns.length) ∧
    ((maxParameters / columns.length) * columns.length = 0 ↔ 1000 < columns.length) ∧
    (1000 < columns.length →
      (db.bulkInsert E ctx table columns returningColumns values conflictAction scanFunc w).events
        = [] ∧
      (db.bulkInsert E ctx table columns returningColumns values conflictAction scanFunc w).world
        = w) := by
  have hpos : 0 < columns.length := List.length_pos.mpr hc
  have hz := strideOf_eq_zero columns.length hpos
  unfold strideOf at hz
  have hb : 1000 < columns.length →
      db.bulkInsert E ctx table columns returningColumns values conflictAction scanFunc w =
        ⟨w, [], .ret (some (.errorString
          (go "too many columns to insert: " ++ itoa columns.length)))⟩ :=
    bulkInsert_stride_zero E db ctx table columns returningColumns values conflictAction
      scanFunc w hm
  refine ⟨⟨?_, fun hk => by rw [hb hk]⟩, hz, fun hk => by rw [hb hk]; exact ⟨rfl, rfl⟩⟩
  intro hv
  by_contra hk
  obtain ⟨evs, d, hrun, _⟩ := bulkInsert_run E db ctx table columns returningColumns values
    conflictAction scanFunc w hc hm (by omega)
  exact Run_val_ne_errorString hrun _ hv

theorem bulkInsert_too_many_columns_witness :
    (DB.bulkInsert okEnv ⟨go "test"⟩ ⟨0⟩ (go "t") (List.replicate 1001 (go "c")) none
        (List.replicate 2002 Value.null) [] none (World.init 0)).val =
      .ret (some (.errorString (go "too many columns to insert: " ++
        itoa (List.replicate 1001 (go "c")).length))) :=
  (bulkInsert_too_many_columns okEnv ⟨go "test"⟩ ⟨0⟩ (go "t") (List.replicate 1001 (go "c")) none
    (List.replicate 2002 Value.null) [] none (World.init 0)
    (List.ne_nil_of_length_pos (by rw [List.length_replicate]; decide))
    (by rw [List.length_replicate, List.length_replicate])).1.mpr
    (by rw [List.length_replicate]; decide)

/-- C6 as stated fails: with 1001 columns (at least one column) and an empty
value list `bulkInsert` returns the too-many-columns error, not success. -/
theorem bulkInsert_empty_counterexample :
    List.replicate 1001 (go "c") ≠ [] ∧
      (DB.bulkInsert okEnv ⟨go "test"⟩ ⟨0⟩ (go "t") (List.replicate 1001 (go "c")) none
        [] [] none (World.init 0)).val =
        .ret (some (.errorString (go "too many columns to insert: " ++
          itoa (List.replicate 1001 (go "c")).length))) ∧
      (DB.bulkInsert okEnv ⟨go "test"⟩ ⟨0⟩ (go "t") (List.replicate 1001 (go "c")) none
        [] [] none (World.init 0)).val ≠ .ret none := by
  have hb := bulkInsert_stride_zero okEnv ⟨go "test"⟩ ⟨0⟩ (go "t") (List.replicate 1001 (go "c"))
    none [] [] none (World.init 0) (by simp only [List.length_nil, Nat.zero_mod])
    (by rw [List.length_replicate]; decide)
  refine ⟨List.ne_nil_of_length_pos (by rw [List.length_replicate]; decide), ?_, ?_⟩
  · rw [hb]
  · rw [hb]
    exact fun h => Option.noConfusion (Outcome.ret.inj h)

/-- C6, amended: for every table, every column list with at least one and at
most 1000 columns and every conflict clause, `bulkInsert` called with an empty
value list causes no event (it prepares and executes no statement), leaves
the world as it was and returns success. -/
theorem bulkInsert_empty {σ : Type} (E : Env σ) (db : DB) (ctx : Context)
    (table : GoString) (columns : List GoString) (returningColumns : Option (List GoString))
    (conflictAction : GoString) (scanFunc : Option (List Value → Option ExtError)) (w : World σ)
    (hc : columns ≠ []) (hk : columns.length ≤ 1000) :
    (db.bulkInsert E ctx table columns returningColumns [] conflictAction scanFunc w).val =
        .ret none ∧
      (db.bulkInsert E ctx table columns returningColumns [] conflictAction scanFunc w).events
        = [] ∧
      (db.bulkInsert E ctx table columns returningColumns [] conflictAction scanFunc w).world
        = w := by
  rw [bulkInsert_no_values E db ctx table columns returningColumns conflictAction scanFunc w hc hk]
  exact ⟨rfl, rfl, rfl⟩

theorem bulkInsert_empty_witness :
    (DB.bulkInsert okEnv ⟨go "test"⟩ ⟨0⟩ (go "t") [go "colA"] none [] OnConflictDoNothing none
      (World.init 0)).val = .ret none :=
  (bulkInsert_empty okEnv ⟨go "test"⟩ ⟨0⟩ (go "t") [go "colA"] none OnConflictDoNothing none
    (World.init 0) (by decide) (by decide)).1

/-- C3: for every input that passes validation (at least one and at most
1000 columns, a number of values that is a multiple of the column count),
every statement text `bulkInsert` prepares is the insert text for a number `n`
of parameters with `len(columns) <= n <= 1000` and `n` a multiple of
`len(columns)`, and every value slice it binds to a statement has such a
length. -/
theorem bulkInsert_parameters {σ : Type} (E : Env σ) (db : DB) (ctx : Context)
    (table : GoString) (columns : List GoString) (returningColumns : Option (List GoString))
    (values : List Value) (conflictAction : GoString)
    (scanFunc : Option (List Value → Option ExtError)) (w : World σ)
    (hc : columns ≠ []) (hm : values.length % columns.length = 0)
    (hk : columns.length ≤ 1000) :
    (∀ t ∈ preparedTexts
        (db.bulkInsert E ctx table columns returningColumns values conflictAction scanFunc w).events,
      ∃ n, t = buildInsertQuery table columns (returningColumns.getD []) n conflictAction ∧
        columns.length ≤ n ∧ n ≤ 1000 ∧ columns.length ∣ n) ∧
    (∀ args ∈ boundArgs
        (db.bulkInsert E ctx table columns returningColumns values conflictAction scanFunc w).events,
      columns.length ≤ args.length ∧ args.length ≤ 1000 ∧ columns.length ∣ args.length) := by
  obtain ⟨evs, d, hrun, ht, ha⟩ := bulkInsert_run_lists E db ctx table columns returningColumns
    values conflictAction scanFunc w hc hm hk
  have hpos : 0 < columns.length := List.length_pos.mpr hc
  have hp := Run_parameters hrun columns.length (strideOf_pos _ hpos hk) (strideOf_dvd _)
    (Nat.dvd_of_mod_eq_zero hm) (Nat.dvd_zero _)
  have hle := strideOf_le columns.length
  rw [ht, ha]
  constructor
  · intro t htm
    obtain ⟨n, h1, h2, h3, h4⟩ := hp.1 t htm
    exact ⟨n, h1, h2, by omega, h4⟩
  · intro a ham
    obtain ⟨h2, h3, h4⟩ := hp.2 a ham
    exact ⟨h2, by omega, h4⟩

theorem bulkInsert_parameters_witness :
    [go "colA", go "colB"].length ≤
        [Value.str (go "a1"), Value.str (go "b1"), Value.str (go "a2"), Value.null].length ∧
      [Value.str (go "a1"), Value.str (go "b1"), Value.str (go "a2"), Value.null].length ≤ 1000 ∧
      [go "colA", go "colB"].length ∣
        [Value.str (go "a1"), Value.str (go "b1"), Value.str (go "a2"), Value.null].length :=
  (bulkInsert_parameters okEnv ⟨go "test"⟩ ⟨0⟩ (go "t") [go "colA", go "colB"] none
    [.str (go "a1"), .str (go "b1"), .str (go "a2"), .null] [] none (World.init 0)
    (by decide) (by decide) (by decide)).2
    [.str (go "a1"), .str (go "b1"), .str (go "a2"), .null] (by decide)

/-- C4: for `k` rows of `c` columns, `1 <= c <= 1000`, when `bulkInsert`
returns nil (every chunk succeeded) it has prepared exactly
`ceil(k*c/stride)` statements, `stride = floor(1000/c)*c`; for `c = 1` and
`k = 1500` that is 2 statements. -/
theorem bulkInsert_statement_count {σ : Type} (E : Env σ) (db : DB) (ctx : Context)
    (table : GoString) (columns : List GoString) (returningColumns : Option (List GoString))
    (values : List Value) (conflictAction : GoString)
    (scanFunc : Option (List Value → Option ExtError)) (w : World σ) (k : Nat)
    (hc : columns ≠ []) (hk : columns.length ≤ 1000)
    (hv : values.length = k * columns.length)
    (hok : (db.bulkInsert E ctx table columns returningColumns values conflictAction
      scanFunc w).val = .ret none) :
    (preparedTexts (db.bulkInsert E ctx table columns returningColumns values conflictAction
        scanFunc w).events).length =
      (k * columns.length + (1000 / columns.length) * columns.length - 1) /
        ((1000 / columns.length) * columns.length) ∧
    (columns.length = 1 → k = 1500 →
      (preparedTexts (db.bulkInsert E ctx table columns returningColumns values conflictAction
        scanFunc w).events).length = 2) := by
  have hm : values.length % columns.length = 0 := by rw [hv]; exact Nat.mul_mod_left _ _
  obtain ⟨evs, d, hrun, ht, _⟩ := bulkInsert_run_lists E db ctx table columns returningColumns
    values conflictAction scanFunc w hc hm hk
  have hpos : 0 < columns.length := List.length_pos.mpr hc
  have hs := strideOf_pos _ hpos hk
  have hx := (Run_texts hrun hs 0 (by simp)).2 hok
  have hlen : (preparedTexts (db.bulkInsert E ctx table columns returningColumns values
      conflictAction scanFunc w).events).length = chunkCount (strideOf columns.length)
        values.length := by
    rw [ht, hx]
    simp
  rw [hlen, hv]
  refine ⟨rfl, ?_⟩
  intro h1 h2
  rw [h1, h2]
  decide

set_option maxRecDepth 100000 in
theorem bulkInsert_statement_count_witness :
    (preparedTexts (DB.bulkInsert okEnv ⟨go "test"⟩ ⟨0⟩ (go "t") [go "colA"] none
        (List.replicate 1500 Value.null) [] none (World.init 0)).events).length = 2 :=
  (bulkInsert_statement_count okEnv ⟨go "test"⟩ ⟨0⟩ (go "t") [go "colA"] none
    (List.replicate 1500 Value.null) [] none (World.init 0) 1500 (by decide) (by decide)
    (by rw [List.length_replicate]; rfl) (by decide)).2 rfl rfl

/-- C2 as stated fails: 1001 values for 1001 columns are a non-empty value
list whose length is a multiple of `len(columns)`, no statement is prepared
(so none fails), and still `BulkInsert` returns an error, not nil. -/
theorem BulkInsert_rows_counterexample :
    List.replicate 1001 Value.null ≠ [] ∧
      (List.replicate 1001 Value.null).length % (List.replicate 1001 (go "c")).length = 0 ∧
      (DB.BulkInsert okEnv ⟨go "test"⟩ ⟨0⟩ (go "t") (List.replicate 1001 (go "c"))
        (List.replicate 1001 Value.null) [] (World.init 0)).events = [] ∧
      (∃ e, (DB.BulkInsert okEnv ⟨go "test"⟩ ⟨0⟩ (go "t") (List.replicate 1001 (go "c"))
        (List.replicate 1001 Value.null) [] (World.init 0)).val = .ret (some e)) := by
  have hm : (List.replicate 1001 Value.null).length % (List.replicate 1001 (go "c")).length = 0 := by
    rw [List.length_replicate, List.length_replicate]
  have hb := bulkInsert_stride_zero okEnv ⟨go "test"⟩ ⟨0⟩ (go "t") (List.replicate 1001 (go "c"))
    none (List.replicate 1001 Value.null) [] none (World.init 0) hm
    (by rw [List.length_replicate]; decide)
  refine ⟨List.ne_nil_of_length_pos (by rw [List.length_replicate]; decide), hm, ?_, ?_⟩
  · rw [BulkInsert_events, hb]
  · rw [BulkInsert_val _ _ _ _ _ _ _ _ _ (by rw [hb])]
    exact ⟨_, rfl⟩

/-- C2, amended: for every value list whose length is a multiple of
`len(columns)`, with at least one and at most 1000 columns, when no prepare
and no execution of the call fails, `BulkInsert` returns nil, the value slices
of the statements it executed are the values in order, and their row groups
(slice length over `len(columns)`) add up to exactly `len(values)/len(columns)`
rows submitted for insertion. -/
theorem BulkInsert_rows {σ : Type} (E : Env σ) (db : DB) (ctx : Context) (table : GoString)
    (columns : List GoString) (values : List Value) (conflictAction : GoString) (w : World σ)
    (hc : columns ≠ []) (hk : columns.length ≤ 1000)
    (hm : values.length % columns.length = 0)
    (hok : ∀ e ∈ (db.BulkInsert E ctx table columns values conflictAction w).events,
      e.err = none) :
    (db.BulkInsert E ctx table columns values conflictAction w).val = .ret none ∧
    (boundArgs (db.BulkInsert E ctx table columns values conflictAction w).events).flatten
      = values ∧
    ((boundArgs (db.BulkInsert E ctx table columns values conflictAction w).events).map
      (fun args => args.length / columns.length)).sum = values.length / columns.length := by
  rw [BulkInsert_events] at hok ⊢
  obtain ⟨evs, d, hrun, hev⟩ := bulkInsert_run E db ctx table columns none values
    conflictAction none w hc hm hk
  obtain ⟨_, _, hrun2, _, ha⟩ := bulkInsert_run_lists E db ctx table columns none values
    conflictAction none w hc hm hk
  have hpos : 0 < columns.length := List.length_pos.mpr hc
  have hok2 : ∀ e ∈ evs, e.err = none := by
    intro e he
    have : e ∈ dbEvents (db.bulkInsert E ctx table columns none values conflictAction none
        w).events := by
      rw [hev]
      exact List.mem_append_left _ he
    exact hok e (List.mem_of_mem_filter this)
  have hnf := Run_no_failure hrun rfl hok2
  have hargs : boundArgs (db.bulkInsert E ctx table columns none values conflictAction none
      w).events = boundArgs evs := by
    rw [← boundArgs_dbEvents, hev, boundArgs_append, boundArgs_stmtClose, List.append_nil]
  have hp := Run_parameters hrun columns.length (strideOf_pos _ hpos hk) (strideOf_dvd _)
    (Nat.dvd_of_mod_eq_zero hm) (Nat.dvd_zero _)
  refine ⟨?_, ?_, ?_⟩
  · rw [BulkInsert_val _ _ _ _ _ _ _ _ _ hnf.1]
    rfl
  · rw [hargs, hnf.2]
    rfl
  · rw [hargs, sum_div_of_dvd columns.length _ (fun a ha => (hp.2 a ha).2.2), hnf.2]
    rfl

theorem BulkInsert_rows_witness :
    (DB.BulkInsert okEnv ⟨go "test"⟩ ⟨0⟩ (go "test_bulk_insert") [go "colA"]
      [.str (go "valueA1"), .str (go "valueA2"), .str (go "valueA3")] [] (World.init 0)).val
      = .ret none :=
  (BulkInsert_rows okEnv ⟨go "test"⟩ ⟨0⟩ (go "test_bulk_insert") [go "colA"]
    [.str (go "valueA1"), .str (go "valueA2"), .str (go "valueA3")] [] (World.init 0)
    (by decide) (by decide) (by decide) (by decide)).1

set_option maxRecDepth 100000 in
/-- C7 as stated fails: two value lists of the same length 1001 for one
column, on a database that rejects null values.  The call with the null
values fails in its first chunk and prepares one statement, the other call
prepares two: the sequences of statement texts differ. -/
theorem BulkInsert_texts_counterexample :
    (List.replicate 1001 Value.null).length =
        (List.replicate 1001 (Value.str (go "a"))).length ∧
      preparedTexts (DB.BulkInsert notNullEnv ⟨go "test"⟩ ⟨0⟩ (go "t") [go "colA"]
          (List.replicate 1001 Value.null) [] (World.init 0)).events ≠
        preparedTexts (DB.BulkInsert notNullEnv ⟨go "test"⟩ ⟨0⟩ (go "t") [go "colA"]
          (List.replicate 1001 (Value.str (go "a"))) [] (World.init 0)).events := by
  have h1 : (preparedTexts (DB.BulkInsert notNullEnv ⟨go "test"⟩ ⟨0⟩ (go "t") [go "colA"]
      (List.replicate 1001 Value.null) [] (World.init 0)).events).length = 1 := by decide
  have h2 : (preparedTexts (DB.BulkInsert notNullEnv ⟨go "test"⟩ ⟨0⟩ (go "t") [go "colA"]
      (List.replicate 1001 (Value.str (go "a"))) [] (World.init 0)).events).length = 2 := by
    decide
  refine ⟨by rw [List.length_replicate, List.length_replicate], ?_⟩
  intro h
  rw [h, h2] at h1
  exact absurd h1 (by decide)

/-- C7, amended: the statement texts `BulkInsert` prepares are taken, in
order, from a list fixed by the table, the columns, the conflict clause and
the number of values (`bulkInsertTexts`).  So for any two value lists of equal
length, on any databases, the texts prepared agree position by position (one
sequence is a prefix of the other) and are the same sequence when both calls
return nil; no statement text is sent for direct execution, the values are
only bound to prepared statements. -/
theorem BulkInsert_texts_depend_on_length {σ : Type} (E₁ E₂ : Env σ) (db₁ db₂ : DB)
    (ctx₁ ctx₂ : Context) (table : GoString) (columns : List GoString)
    (values₁ values₂ : List Value) (conflictAction : GoString) (w₁ w₂ : World σ)
    (h : values₁.length = values₂.length) :
    (preparedTexts (db₁.BulkInsert E₁ ctx₁ table columns values₁ conflictAction w₁).events
      <+: bulkInsertTexts table columns conflictAction values₁.length) ∧
    (preparedTexts (db₂.BulkInsert E₂ ctx₂ table columns values₂ conflictAction w₂).events
      <+: bulkInsertTexts table columns conflictAction values₁.length) ∧
    (preparedTexts (db₁.BulkInsert E₁ ctx₁ table columns values₁ conflictAction w₁).events
        <+: preparedTexts (db₂.BulkInsert E₂ ctx₂ table columns values₂ conflictAction w₂).events ∨
      preparedTexts (db₂.BulkInsert E₂ ctx₂ table columns values₂ conflictAction w₂).events
        <+: preparedTexts (db₁.BulkInsert E₁ ctx₁ table columns values₁ conflictAction w₁).events) ∧
    ((db₁.BulkInsert E₁ ctx₁ table columns values₁ conflictAction w₁).val = .ret none →
      (db₂.BulkInsert E₂ ctx₂ table columns values₂ conflictAction w₂).val = .ret none →
      preparedTexts (db₁.BulkInsert E₁ ctx₁ table columns values₁ conflictAction w₁).events =
        preparedTexts (db₂.BulkInsert E₂ ctx₂ table columns values₂ conflictAction w₂).events) ∧
    directTexts (db₁.BulkInsert E₁ ctx₁ table columns values₁ conflictAction w₁).events = [] ∧
    directTexts (db₂.BulkInsert E₂ ctx₂ table columns values₂ conflictAction w₂).events = [] := by
  have t1 := bulkInsert_texts E₁ db₁ ctx₁ table columns values₁ conflictAction w₁
  have t2 := bulkInsert_texts E₂ db₂ ctx₂ table columns values₂ conflictAction w₂
  rw [← h] at t2
  simp only [BulkInsert_events]
  refine ⟨t1.1, t2.1, List.prefix_or_prefix_of_prefix t1.1 t2.1, ?_, bulkInsert_direct _ _ _ _ _ _ _ _ _ _,
    bulkInsert_direct _ _ _ _ _ _ _ _ _ _⟩
  intro h1 h2
  rw [t1.2 (BulkInsert_val_nil _ _ _ _ _ _ _ _ h1), t2.2 (BulkInsert_val_nil _ _ _ _ _ _ _ _ h2)]

theorem BulkInsert_texts_depend_on_length_witness :
    preparedTexts (DB.BulkInsert okEnv ⟨go "test"⟩ ⟨0⟩ (go "test_bulk_insert") [go "colA"]
        [.str (go "\x27\x27); TRUNCATE test_bulk_insert CASCADE;))")] OnConflictDoNothing
        (World.init 0)).events =
      preparedTexts (DB.BulkInsert okEnv ⟨go "test"⟩ ⟨0⟩ (go "test_bulk_insert") [go "colA"]
        [.str (go "valueA")] OnConflictDoNothing (World.init 0)).events :=
  (BulkInsert_texts_depend_on_length okEnv okEnv ⟨go "test"⟩ ⟨go "test"⟩ ⟨0⟩ ⟨0⟩
    (go "test_bulk_insert") [go "colA"]
    [.str (go "\x27\x27); TRUNCATE test_bulk_insert CASCADE;))")] [.str (go "valueA")]
    OnConflictDoNothing (World.init 0) (World.init 0) (by decide)).2.2.2.1 (by decide) (by decide)

/-- C8: on a valid input, if the execution of a chunk fails (the event `ev`
binds `args` and ends with the error `e`), then `args` is a chunk
`values[l:r]` with `l = n*stride`; `bulkInsert` returns a non-nil error; the
database events of the call are `pre ++ ev :: post` where no event of `pre`
failed and `post` holds nothing but releases (of the rows, of the statements);
the statements prepared and the slices bound are exactly those of the chunks
`0..n`, once each and in order, the chunks before the failing one covering
`values[0:l]`; and no statement text is sent for direct execution. -/
theorem bulkInsert_chunk_failure {σ : Type} (E : Env σ) (db : DB) (ctx : Context)
    (table : GoString) (columns : List GoString) (returningColumns : Option (List GoString))
    (values : List Value) (conflictAction : GoString)
    (scanFunc : Option (List Value → Option ExtError)) (w : World σ)
    (hc : columns ≠ []) (hm : values.length % columns.length = 0)
    (hk : columns.length ≤ 1000) (ev : Event) (args : List Value) (e : ExtError)
    (hev : ev ∈ (db.bulkInsert E ctx table columns returningColumns values conflictAction
      scanFunc w).events) (hb : ev.bound = some args) (he : ev.err = some e) :
    ∃ n pre post,
      args = (values.take (rightBoundOf (strideOf columns.length) values.length
        (n * strideOf columns.length))).drop (n * strideOf columns.length) ∧
      (∃ err, (db.bulkInsert E ctx table columns returningColumns values conflictAction
        scanFunc w).val = .ret (some err)) ∧
      dbEvents (db.bulkInsert E ctx table columns returningColumns values conflictAction
        scanFunc w).events = pre ++ ev :: post ∧
      (∀ p ∈ pre, p.err = none) ∧
      (∀ p ∈ post, p = Event.rowsClose ∨ p.isStmtClose = true) ∧
      preparedTexts (db.bulkInsert E ctx table columns returningColumns values conflictAction
        scanFunc w).events = (List.range' 0 (n + 1)).map (fun i =>
          buildInsertQuery table columns (returningColumns.getD [])
            (chunkSize (strideOf columns.length) values.length i) conflictAction) ∧
      boundArgs (db.bulkInsert E ctx table columns returningColumns values conflictAction
        scanFunc w).events =
          (List.range' 0 n).map (chunkSlice (strideOf columns.length) values) ++ [args] ∧
      ((List.range' 0 n).map (chunkSlice (strideOf columns.length) values)).flatten =
        values.take (n * strideOf columns.length) ∧
      directTexts (db.bulkInsert E ctx table columns returningColumns values conflictAction
        scanFunc w).events = [] := by
  obtain ⟨n, pre, post, h1, hp, h2, h3, h4, h5, h6⟩ := bulkInsert_failure E db ctx table columns
    returningColumns values conflictAction scanFunc w hc hm hk ev e hev he
  have hprep : ev.prepared = none := by
    cases ev <;> first | rfl | simp [Event.bound] at hb
  have ha := h6 args hb
  refine ⟨n, pre, post, ha, ⟨_, h3⟩, h1, hp, h2, h4, ?_, chunkSlices_flatten _ _ _,
    bulkInsert_direct _ _ _ _ _ _ _ _ _ _⟩
  rw [h5, hprep]
  simp only [Option.isSome_none, Bool.false_eq_true, if_false]
  rw [List.range'_concat, List.map_append, ha]
  simp

theorem bulkInsert_chunk_failure_witness :
    ∃ err, (DB.bulkInsert notNullEnv ⟨go "test"⟩ ⟨0⟩ (go "t") [go "colA"] none
      [.str (go "a"), .null] [] none (World.init 0)).val = .ret (some err) :=
  have h := bulkInsert_chunk_failure notNullEnv ⟨go "test"⟩ ⟨0⟩ (go "t") [go "colA"] none
    [.str (go "a"), .null] [] none (World.init 0) (by decide) (by decide) (by decide)
    (.stmtExec ⟨0, buildInsertQuery (go "t") [go "colA"] [] 2 []⟩ [.str (go "a"), .null]
      (some (.other (go "Column colA cannot be null"))))
    [.str (go "a"), .null] (.other (go "Column colA cannot be null"))
    (by decide) rfl rfl
  h.elim fun _ h => h.elim fun _ h => h.elim fun _ h => h.2.1

/-- C9 as stated fails: when the prepare of the first chunk fails,
`bulkInsert` returns the driver error as it is, and its text does not name
the range `values[0:1]` of the chunk. -/
theorem bulkInsert_failure_range_counterexample :
    Event.prepare (buildInsertQuery (go "t") [go "invalid_col"] [] 1 [])
        (some (.other (go "Unknown column invalid_col in field list"))) ∈
      (DB.bulkInsert unknownColumnEnv ⟨go "test"⟩ ⟨0⟩ (go "t") [go "invalid_col"] none
        [.str (go "valueA")] [] none (World.init 0)).events ∧
    (DB.bulkInsert unknownColumnEnv ⟨go "test"⟩ ⟨0⟩ (go "t") [go "invalid_col"] none
        [.str (go "valueA")] [] none (World.init 0)).val =
      .ret (some (.ext (.other (go "Unknown column invalid_col in field list")))) ∧
    stringsContains
      (Error.ext (.other (go "Unknown column invalid_col in field list"))).text
      (go "values[") = false := by
  decide

/-- C9, amended: on a valid input, when a chunk fails while its statement is
executed (`ExecContext`) or while its returned rows are read (the callback or
`rows.Err`), the failing event is the last event of the call but for releases,
the chunk is the last one bound, with index `n` when `n + 1` slices were bound,
and `bulkInsert` returns the chunk error of exactly that chunk: its text is
"running bulk insert query, values[l:r]): " followed by the text of the cause,
with `l = n*stride` and `r` the smaller of `l + stride` and `len(values)`, so
that `values[l:r]` is the slice bound last, and it wraps the cause.  When the
prepare of a chunk fails, the error of the prepare is returned as it is. -/
theorem bulkInsert_failure_range {σ : Type} (E : Env σ) (db : DB) (ctx : Context)
    (table : GoString) (columns : List GoString) (returningColumns : Option (List GoString))
    (values : List Value) (conflictAction : GoString)
    (scanFunc : Option (List Value → Option ExtError)) (w : World σ)
    (hc : columns ≠ []) (hm : values.length % columns.length = 0)
    (hk : columns.length ≤ 1000) :
    (∀ ev e, ev ∈ (db.bulkInsert E ctx table columns returningColumns values conflictAction
          scanFunc w).events →
      ((∃ stmt args, ev = .stmtExec stmt args (some e)) ∨ (∃ row, ev = .scan row (some e)) ∨
        ev = .rowsErr (some e)) →
      ∃ n pre post,
        dbEvents (db.bulkInsert E ctx table columns returningColumns values conflictAction
          scanFunc w).events = pre ++ ev :: post ∧
        (∀ p ∈ pre, p.err = none) ∧
        (∀ p ∈ post, p = Event.rowsClose ∨ p.isStmtClose = true) ∧
        (boundArgs (db.bulkInsert E ctx table columns returningColumns values conflictAction
          scanFunc w).events).length = n + 1 ∧
        (boundArgs (db.bulkInsert E ctx table columns returningColumns values conflictAction
          scanFunc w).events).getLast? =
          some ((values.take (min (n * strideOf columns.length + strideOf columns.length)
            values.length)).drop (n * strideOf columns.length)) ∧
        (∀ args, ev.bound = some args →
          args = (values.take (min (n * strideOf columns.length + strideOf columns.length)
            values.length)).drop (n * strideOf columns.length)) ∧
        n * strideOf columns.length <
          min (n * strideOf columns.length + strideOf columns.length) values.length ∧
        (db.bulkInsert E ctx table columns returningColumns values conflictAction
          scanFunc w).val =
          .ret (some (chunkError (n * strideOf columns.length)
            (min (n * strideOf columns.length + strideOf columns.length) values.length) e))) ∧
    (∀ t e, Event.prepare t (some e) ∈
        (db.bulkInsert E ctx table columns returningColumns values conflictAction
          scanFunc w).events →
      (db.bulkInsert E ctx table columns returningColumns values conflictAction
          scanFunc w).val = .ret (some (.ext e))) ∧
    (∀ l r e, (chunkError l r e).text =
        go "running bulk insert query, values[" ++ itoa l ++ go ":" ++ itoa r ++ go "]): " ++
          e.text ∧
      (chunkError l r e).Is e = true) := by
  have hpos : 0 < columns.length := List.length_pos.mpr hc
  have hs := strideOf_pos columns.length hpos hk
  refine ⟨?_, ?_, ?_⟩
  · intro ev e hev hkind
    have he : ev.err = some e := by
      rcases hkind with ⟨stmt, args, rfl⟩ | ⟨row, rfl⟩ | rfl <;> rfl
    have hprep : ev.prepared = none := by
      rcases hkind with ⟨stmt, args, rfl⟩ | ⟨row, rfl⟩ | rfl <;> rfl
    have hret : ∀ l r, failureReturn ev l r e = chunkError l r e := by
      intro l r
      rcases hkind with ⟨stmt, args, rfl⟩ | ⟨row, rfl⟩ | rfl <;> rfl
    obtain ⟨n, pre, post, h1, hp, h2, h3, _, h5, h6⟩ := bulkInsert_failure E db ctx table columns
      returningColumns values conflictAction scanFunc w hc hm hk ev e hev he
    rw [hprep] at h5
    simp only [Option.isSome_none, Bool.false_eq_true, if_false] at h5
    have hlen : (boundArgs (db.bulkInsert E ctx table columns returningColumns values
        conflictAction scanFunc w).events).length = n + 1 := by
      rw [h5]
      simp
    have hle := (bulkInsert_bound E db ctx table columns returningColumns values conflictAction
      scanFunc w hc hm hk).1
    have hlt : n * strideOf columns.length < values.length := by
      by_contra hge
      have := chunkCount_le (strideOf columns.length) values.length n hs (by omega)
      omega
    have hmin := rightBoundOf_eq_min (strideOf columns.length) values.length
      (n * strideOf columns.length)
    refine ⟨n, pre, post, h1, hp, h2, hlen, ?_, ?_, by omega, ?_⟩
    · rw [h5, List.range'_concat, List.map_append]
      simp [chunkSlice, hmin]
    · intro args ha
      rw [h6 args ha, chunkSlice, hmin]
    · rw [h3, hret, hmin]
  · intro t e hev
    obtain ⟨n, pre, post, _, _, _, h3, _, _, _⟩ := bulkInsert_failure E db ctx table columns
      returningColumns values conflictAction scanFunc w hc hm hk _ e hev rfl
    exact h3
  · intro l r e
    exact ⟨rfl, by simp [chunkError, Error.Is]⟩

set_option maxRecDepth 100000 in
theorem bulkInsert_failure_range_witness :
    (DB.bulkInsert notNullEnv ⟨go "test"⟩ ⟨0⟩ (go "t") [go "colA"] none
        (List.replicate 1000 (Value.str (go "a")) ++ [Value.null]) [] none (World.init 0)).val =
      .ret (some (chunkError 1000 1001 (.other (go "Column colA cannot be null")))) := by
  have hl : (List.replicate 1000 (Value.str (go "a")) ++ [Value.null]).length = 1001 := by
    rw [List.length_append, List.length_replicate]
    rfl
  obtain ⟨n, pre, post, _, _, _, hb, _, _, _, hv⟩ :=
    (bulkInsert_failure_range notNullEnv ⟨go "test"⟩ ⟨0⟩ (go "t") [go "colA"] none
      (List.replicate 1000 (Value.str (go "a")) ++ [Value.null]) [] none (World.init 0)
      (by decide) (by rw [hl]; rfl) (by decide)).1
      (.stmtExec ⟨1, buildInsertQuery (go "t") [go "colA"] [] 1 []⟩ [.null]
        (some (.other (go "Column colA cannot be null"))))
      (.other (go "Column colA cannot be null")) (by decide) (Or.inl ⟨_, _, rfl⟩)
  have h2 : (boundArgs (DB.bulkInsert notNullEnv ⟨go "test"⟩ ⟨0⟩ (go "t") [go "colA"] none
      (List.replicate 1000 (Value.str (go "a")) ++ [Value.null]) [] none
      (World.init 0)).events).length = 2 := by decide
  have hn : n = 1 := by omega
  subst hn
  rw [hv, hl]
  rfl

set_option maxRecDepth 100000 in
/-- C10 as stated fails: with logging enabled and an execution that fails
with `context.Canceled`, `Exec` returns that error wrapped as
"DB running query local-1: context canceled", which is neither the error value
of the underlying execution nor what `Exec` returns with logging disabled. -/
theorem Exec_result_counterexample :
    (DB.ExecBody canceledEnv ⟨go ""⟩ ⟨0⟩ (go "DROP TABLE t;") [] (World.init 0)).val.2 =
        some (.ext .canceled) ∧
      (DB.Exec canceledEnv ⟨go ""⟩ ⟨0⟩ (go "DROP TABLE t;") [] (World.init 0)).val.2 =
        some (.wrapError (go "DB running query local-1: context canceled") (.ext .canceled)) ∧
      (DB.Exec canceledEnv ⟨go ""⟩ ⟨0⟩ (go "DROP TABLE t;") [] (World.init 0)).val.2 ≠
        (DB.ExecBody canceledEnv ⟨go ""⟩ ⟨0⟩ (go "DROP TABLE t;") [] (World.init 0)).val.2 ∧
      (DB.Exec canceledEnv ⟨go ""⟩ ⟨0⟩ (go "DROP TABLE t;") []
          { World.init 0 with QueryLoggingDisabled := true }).val.2 ≠
        (DB.Exec canceledEnv ⟨go ""⟩ ⟨0⟩ (go "DROP TABLE t;") [] (World.init 0)).val.2 := by
  decide

/-- C10, amended: for every query and arguments, `Exec` returns the row count
of the underlying execution and a nil error exactly when the underlying
execution left a nil error, it makes the same calls to the database and
leaves the database in the same state.  With query logging disabled the error
is the one of the underlying execution, unchanged; with logging enabled a
non-nil error is wrapped as "DB running query <id>: <text>", so that the
underlying error (a cancellation in particular) stays in its chain for
`errors.Is`. -/
theorem Exec_result {σ : Type} (E : Env σ) (db : DB) (ctx : Context) (query : GoString)
    (args : List Value) (w : World σ) :
    (db.Exec E ctx query args w).val.1 = (db.ExecBody E ctx query args w).val.1 ∧
    ((db.Exec E ctx query args w).val.2 = none ↔ (db.ExecBody E ctx query args w).val.2 = none) ∧
    (w.QueryLoggingDisabled = true →
      (db.Exec E ctx query args w).val.2 = (db.ExecBody E ctx query args w).val.2) ∧
    (w.QueryLoggingDisabled = false →
      (db.Exec E ctx query args w).val.2 =
        wraperr.Wrap (db.ExecBody E ctx query args w).val.2
          (go "DB running query " ++ (generateLoggingID db.instanceID w).2)) ∧
    (∀ target, errorsIs (db.Exec E ctx query args w).val.2 target =
      errorsIs (db.ExecBody E ctx query args w).val.2 target) ∧
    dbEvents (db.Exec E ctx query args w).events = (db.ExecBody E ctx query args w).events ∧
    (db.Exec E ctx query args w).world.env = (db.ExecBody E ctx query args w).world.env := by
  have henv := logQuery_env E ctx query args db.instanceID w
  obtain ⟨hb1, hb2, hb3⟩ := ExecBody_env E db ctx query args
    (logQuery E ctx query args db.instanceID w).world w henv
  have hl := logQuery_val E ctx query args db.instanceID w
  have hval : (db.Exec E ctx query args w).val.2 =
      (match (logQuery E ctx query args db.instanceID w).val with
        | none => (db.ExecBody E ctx query args w).val.2
        | some f => wraperr.Wrap (db.ExecBody E ctx query args w).val.2
            (go "DB running query " ++ f.uid)) := by
    unfold DB.Exec
    simp only [logQueryDone_val, Option.getD_some, hb1]
  have hwrap : ∀ (err : Option Error) (c : GoString),
      (wraperr.Wrap err c = none ↔ err = none) ∧
      ∀ target, errorsIs (wraperr.Wrap err c) target = errorsIs err target := by
    intro err c
    cases err with
    | none => exact ⟨Iff.rfl, fun _ => rfl⟩
    | some e => exact ⟨by simp [wraperr.Wrap], fun _ => rfl⟩
  refine ⟨?_, ?_, ?_, ?_, ?_, ?_, ?_⟩
  · unfold DB.Exec
    simp only [hb1]
  · rw [hval]
    split
    · exact Iff.rfl
    · exact (hwrap _ _).1
  · intro h
    rw [hval, hl.1 h]
  · intro h
    obtain ⟨f, hf, hu⟩ := hl.2 h
    rw [hval, hf, ← hu]
  · intro target
    rw [hval]
    split
    · rfl
    · exact (hwrap _ _).2 target
  · unfold DB.Exec
    simp only [dbEvents_append, logQuery_dbEvents, logQueryDone_dbEvents, List.nil_append,
      List.append_nil, hb2, ExecBody_dbEvents]
  · unfold DB.Exec
    simp only [logQueryDone_world, hb3]

set_option maxRecDepth 100000 in
/-- C11 as stated fails: a call whose context has passed its deadline and
whose execution fails with `context.DeadlineExceeded` has its completion
record emitted at error level, not at debug level. -/
theorem logQuery_level_counterexample :
    deadlineEnv.CtxErr 1 ⟨0⟩ = some .deadlineExceeded ∧
      (DB.ExecBody deadlineEnv ⟨go ""⟩ ⟨0⟩ (go "SELECT 1") [] (World.init 0)).val.2 =
        some (.ext .deadlineExceeded) ∧
      (DB.Exec deadlineEnv ⟨go ""⟩ ⟨0⟩ (go "SELECT 1") [] (World.init 0)).events.getLast? =
        some (.log .error (.entry
          { ID := go "local-1", Query := go "SELECT 1", Args := [], DurationSeconds := 1,
            Error := go "DB running query local-1: context deadline exceeded" })) := by
  decide

/-- C11, amended: the completion record of a logged call that reports its
error is emitted at debug level when the call succeeded.  When it failed, the
record carries the text of the error (wrapped as "DB running query <id>: ...")
and is emitted at debug level exactly when the context of the call is
cancelled (`ctx.Err()` is `context.Canceled`) or that text contains
"pq: canceling statement due to user request", which it does whenever the text
of the underlying error contains it; otherwise it is emitted at error level.
So the record of a failed call whose deadline has passed (`ctx.Err()` is
`context.DeadlineExceeded`) is at error level unless the text contains that
message, and at debug level if it does.  For a call that reports no error
(`errp == nil`) the record is the debug text "<id> done". -/
theorem logQuery_level {σ : Type} (E : Env σ) (f : QueryLog) (w : World σ) :
    (logQueryDone E (some f) (some none) w).events =
      [.log .debug (.entry
        { ID := f.uid, Query := f.query, Args := f.argString,
          DurationSeconds := (E.Now w.env : Int) - (f.start : Int), Error := [] })] ∧
    (∀ e : Error,
      (logQueryDone E (some f) (some (some e)) w).events =
        [.log
          (if E.CtxErr w.env f.ctx = some .canceled ∨
              stringsContains (go "DB running query " ++ f.uid ++ go ": " ++ e.text)
                cancelingStatement = true
            then .debug else .error)
          (.entry
            { ID := f.uid, Query := f.query, Args := f.argString,
              DurationSeconds := (E.Now w.env : Int) - (f.start : Int),
              Error := go "DB running query " ++ f.uid ++ go ": " ++ e.text })]) ∧
    (∀ e : Error, stringsContains e.text cancelingStatement = true →
      stringsContains (go "DB running query " ++ f.uid ++ go ": " ++ e.text)
        cancelingStatement = true) ∧
    (∀ e : Error, E.CtxErr w.env f.ctx = some .deadlineExceeded →
      (logQueryDone E (some f) (some (some e)) w).events =
        [.log
          (if stringsContains (go "DB running query " ++ f.uid ++ go ": " ++ e.text)
                cancelingStatement = true
            then .debug else .error)
          (.entry
            { ID := f.uid, Query := f.query, Args := f.argString,
              DurationSeconds := (E.Now w.env : Int) - (f.start : Int),
              Error := go "DB running query " ++ f.uid ++ go ": " ++ e.text })]) ∧
    (logQueryDone E (some f) none w).events = [.log .debug (.text (f.uid ++ go " done"))] := by
  have hall : ∀ e : Error,
      (logQueryDone E (some f) (some (some e)) w).events =
        [.log
          (if E.CtxErr w.env f.ctx = some .canceled ∨
              stringsContains (go "DB running query " ++ f.uid ++ go ": " ++ e.text)
                cancelingStatement = true
            then .debug else .error)
          (.entry
            { ID := f.uid, Query := f.query, Args := f.argString,
              DurationSeconds := (E.Now w.env : Int) - (f.start : Int),
              Error := go "DB running query " ++ f.uid ++ go ": " ++ e.text })] := by
    intro e
    unfold logQueryDone
    simp only [wraperr.Wrap, Error.text, cancelingStatement]
    cases hc : E.CtxErr w.env f.ctx with
    | none => simp [List.append_assoc]
    | some ce =>
      cases ce <;> simp [Error.Is, List.append_assoc]
  refine ⟨rfl, hall, ?_, ?_, rfl⟩
  · intro e h
    rw [List.append_assoc, List.append_assoc]
    exact stringsContains_append_left _ _ _ (stringsContains_append_left _ _ _
      (stringsContains_append_left _ _ _ h))
  · intro e hd
    rw [hall e, hd]
    simp

set_option maxRecDepth 100000 in
theorem logQuery_level_witness :
    (logQueryDone deadlineEnv (some ⟨⟨0⟩, go "test-1", go "SELECT 1", go "", 0⟩)
        (some (some (.ext (.other (go "pq: canceling statement due to user request")))))
        (World.init 5)).events =
      [.log .debug (.entry
        { ID := go "test-1", Query := go "SELECT 1", Args := go "", DurationSeconds := 5,
          Error := go "DB running query test-1: pq: canceling statement due to user request" })] ∧
    (logQueryDone deadlineEnv (some ⟨⟨0⟩, go "test-1", go "SELECT 1", go "", 0⟩)
        (some (some (.ext .deadlineExceeded))) (World.init 5)).events =
      [.log .error (.entry
        { ID := go "test-1", Query := go "SELECT 1", Args := go "", DurationSeconds := 5,
          Error := go "DB running query test-1: context deadline exceeded" })] := by
  have h1 := (logQuery_level deadlineEnv ⟨⟨0⟩, go "test-1", go "SELECT 1", go "", 0⟩
    (World.init 5)).2.2.2.1 (.ext (.other (go "pq: canceling statement due to user request"))) rfl
  have h2 := (logQuery_level deadlineEnv ⟨⟨0⟩, go "test-1", go "SELECT 1", go "", 0⟩
    (World.init 5)).2.2.2.1 (.ext .deadlineExceeded) rfl
  refine ⟨?_, ?_⟩
  · rw [h1]
    decide
  · rw [h2]
    decide

set_option maxRecDepth 100000 in
/-- C12 as stated fails: a query of 151 characters (151 times "é", two bytes
each, no whitespace) is at most 300 characters long and is still logged cut
to its first 300 bytes, 150 characters, followed by "...". -/
theorem displayQuery_truncation_counterexample :
    (runes (stringsRepeat (go "é") 151)).length = 151 ∧
      stringOfRunes (collapseSpaces (stringsRepeat (go "é") 151)) = stringsRepeat (go "é") 151 ∧
      displayQuery (stringsRepeat (go "é") 151) = stringsRepeat (go "é") 150 ++ go "..." ∧
      displayQuery (stringsRepeat (go "é") 151) ≠ stringsRepeat (go "é") 151 := by
  decide

/-- C12, amended: for every query, the logged query text is the
whitespace-collapsed query unchanged when that is at most 300 bytes long, and
otherwise its first 300 bytes followed by "..."; the logged text is never
longer than 303 bytes.  It is the text of the pre-call record and the `Query`
of the completion record. -/
theorem displayQuery_truncation (query : GoString) :
    ((stringOfRunes (collapseSpaces query)).length ≤ 300 →
      displayQuery query = stringOfRunes (collapseSpaces query)) ∧
    (300 < (stringOfRunes (collapseSpaces query)).length →
      displayQuery query = (stringOfRunes (collapseSpaces query)).take 300 ++ go "...") ∧
    (displayQuery query).length ≤ 303 ∧
    (∀ {σ : Type} (E : Env σ) (ctx : Context) (args : List Value) (instanceID : GoString)
        (w : World σ), w.QueryLoggingDisabled = false →
      ∃ f, (logQuery E ctx query args instanceID w).val = some f ∧
        f.query = displayQuery query ∧
        (logQuery E ctx query args instanceID w).events =
          [.log .debug (.text (f.uid ++ go " " ++ displayQuery query ++ go " args=" ++
            displayArgs args))]) := by
  refine ⟨?_, ?_, displayQuery_length query, ?_⟩
  · intro h
    unfold displayQuery
    simp only
    rw [if_neg (by omega)]
  · intro h
    unfold displayQuery
    simp only
    rw [if_pos h]
  · intro σ E ctx args instanceID w h
    unfold logQuery
    simp only [h, Bool.false_eq_true, if_false]
    exact ⟨_, rfl, rfl, rfl⟩

/-- C13 as stated fails: a run of two tabs is logged as one tab, not as one
space. -/
theorem collapseSpaces_counterexample :
    displayQuery (go "SELECT\t\t1") = go "SELECT\t1" ∧
      displayQuery (go "SELECT\t\t1") ≠ go "SELECT 1" := by
  decide

/-- C13, amended: for every query, the logged query text (before it is cut to
300 bytes) is obtained from the runes of the query by replacing every newline
by a space and then keeping, of every run of consecutive whitespace runes, the
first rune only (a space when the run starts with a space or a newline, the
tab when it starts with a tab).  So every non-whitespace rune is kept in
order, no two whitespace runes are adjacent and no newline is left. -/
theorem collapseSpaces_spec (query : GoString) :
    collapseSpaces query = collapseRuns false (replaceNewlines (runes query)) ∧
    (collapseSpaces query).filter (fun c => !IsSpace c) =
      (runes query).filter (fun c => !IsSpace c) ∧
    (collapseSpaces query).Chain' (fun x y => ¬ (IsSpace x = true ∧ IsSpace y = true)) ∧
    0x0A ∉ collapseSpaces query ∧
    (displayQuery query =
      if (stringOfRunes (collapseSpaces query)).length > 300 then
        (stringOfRunes (collapseSpaces query)).take 300 ++ go "..."
      else stringOfRunes (collapseSpaces query)) := by
  rw [collapseSpaces_eq]
  refine ⟨rfl, ?_, (collapseRuns_chain _ false).1, ?_, ?_⟩
  · rw [collapseRuns_filter, replaceNewlines_filter]
  · intro h
    exact replaceNewlines_no_newline _ (collapseRuns_subset _ _ _ h)
  · unfold displayQuery
    rw [collapseSpaces_eq]

set_option maxRecDepth 100000 in
/-- C14 as stated fails: an argument of 30 characters (30 times "é", two
bytes each) is not longer than 50 characters and is still logged cut to its
first 50 bytes, 25 characters, plus "...". -/
theorem displayArgs_counterexample :
    (runes (Sprint (.str (stringsRepeat (go "é") 30)))).length = 30 ∧
      displayArgs [.str (stringsRepeat (go "é") 30)] =
        stringsRepeat (go "é") 25 ++ go "..." ∧
      displayArgs [.str (stringsRepeat (go "é") 30)] ≠ stringsRepeat (go "é") 30 := by
  decide

/-- C14, amended: for every argument list, the logged argument preview is the
default string form of the first `min(len(args), 20)` arguments in order, each
replaced by its first 50 bytes plus "..." when it is longer than 50 bytes,
followed by one extra "..." entry exactly when there are more than 20
arguments, all joined by ", ". -/
theorem displayArgs_spec (args : List Value) :
    displayArgs args =
      stringsJoin
        ((args.take (min args.length 20)).map
            (fun a => if (Sprint a).length > 50 then (Sprint a).take 50 ++ go "..." else Sprint a)
          ++ (if args.length > 20 then [go "..."] else []))
        (go ", ") := by
  unfold displayArgs
  simp only
  rw [argStringsLoop_eq args (args.length + 1) 0 [] (by omega)]
  have ht : args.take (min args.length 20) = args.take 20 := by
    rw [List.take_eq_take]
    omega
  rw [ht]
  simp only [List.drop_zero, List.nil_append]
  split
  · rfl
  · simp [previewArg]
    rfl

/-- C15 as stated fails: the identifier "ééééé" has 5 characters (10 bytes),
and the correlation ID is made from its last 4 bytes, "éé", not from the
identifier unchanged. -/
theorem generateLoggingID_counterexample :
    (runes (go "ééééé")).length = 5 ∧
      (generateLoggingID (go "ééééé") (World.init (0 : Nat))).2 = go "éé-1" ∧
      (generateLoggingID (go "ééééé") (World.init (0 : Nat))).2 ≠ go "ééééé-1" := by
  decide

/-- C15, amended: for every instance identifier, `generateLoggingID` returns
"<short>-<n>" where `n` is the value of the counter after its increment, in
decimal, and `<short>` is "local" if the identifier is empty, the last 4 bytes
of the identifier if it is longer than 8 bytes, and the identifier unchanged
otherwise (1 to 8 bytes). -/
theorem generateLoggingID_spec {σ : Type} (instanceID : GoString) (w : World σ) :
    (generateLoggingID instanceID w).2 =
      shortInstanceID instanceID ++ go "-" ++ itoa (generateLoggingID instanceID w).1.queryCounter ∧
    (generateLoggingID instanceID w).1.queryCounter = wrapInt64 (w.queryCounter + 1) ∧
    (instanceID = [] → shortInstanceID instanceID = go "local") ∧
    (8 < instanceID.length →
      shortInstanceID instanceID = instanceID.drop (instanceID.length - 4) ∧
      (shortInstanceID instanceID).length = 4 ∧
      shortInstanceID instanceID <:+ instanceID) ∧
    (instanceID ≠ [] → instanceID.length ≤ 8 → shortInstanceID instanceID = instanceID) ∧
    (∀ n : Nat, parseDecimal (itoa (n : Int)) = n ∧
      ∀ b ∈ itoa (n : Int), 48 ≤ b.toNat ∧ b.toNat ≤ 57) := by
  refine ⟨rfl, rfl, ?_, ?_, ?_, ?_⟩
  · intro h
    simp [shortInstanceID, h]
  · intro h
    have hne : instanceID ≠ [] := by
      intro h0
      rw [h0] at h
      simp at h
    have hs : shortInstanceID instanceID = instanceID.drop (instanceID.length - 4) := by
      simp [shortInstanceID, hne, h]
    refine ⟨hs, ?_, ?_⟩
    · rw [hs, List.length_drop]
      omega
    · rw [hs]
      exact List.drop_suffix _ _
  · intro hne hle
    have : ¬ instanceID.length > 8 := by omega
    simp [shortInstanceID, hne, this]
  · intro n
    exact ⟨decimalAux_parse (n + 1) n (by omega), decimalAux_digits (n + 1) n⟩

/-- C16 as stated fails: the counter of a fresh process is 0, and the first
correlation ID generated carries 1, not 0: the counter is incremented before
it is used. -/
theorem queryCounter_counterexample :
    (World.init (0 : Nat)).queryCounter = 0 ∧
      (generateLoggingID (go "test") (World.init (0 : Nat))).2 = go "test-1" ∧
      (generateLoggingID (go "test") (World.init (0 : Nat))).2 ≠ go "test-0" ∧
      (logQuery okEnv ⟨0⟩ (go "SELECT 1") [] (go "test") (World.init 0)).events =
        [.log .debug (.text (go "test-1 SELECT 1 args="))] := by
  decide

/-- C16, amended: the process-local counter starts at 0 and is incremented
before it is used, so the first correlation ID generated in a process carries
the value 1, and every later logged call carries the previous call's value
plus one, as long as the 64-bit counter has not wrapped around.  A logged call
takes its ID from `generateLoggingID`; with logging disabled the counter stays
as it is. -/
theorem queryCounter_sequence {σ : Type} :
    (∀ s : σ, (World.init s).queryCounter = 0) ∧
    (∀ (s : σ) (instanceID : GoString),
      (generateLoggingID instanceID (World.init s)).2 = shortInstanceID instanceID ++ go "-1") ∧
    (∀ (w : World σ) (instanceID : GoString) (c : Nat), w.queryCounter = (c : Int) →
      (c : Int) + 1 < 2 ^ 63 →
      (generateLoggingID instanceID w).2 =
        shortInstanceID instanceID ++ go "-" ++ decimal (c + 1) ∧
      (generateLoggingID instanceID w).1.queryCounter = ((c + 1 : Nat) : Int)) ∧
    (∀ (E : Env σ) (ctx : Context) (query : GoString) (args : List Value)
        (instanceID : GoString) (w : World σ),
      (w.QueryLoggingDisabled = false →
        (∃ f, (logQuery E ctx query args instanceID w).val = some f ∧
          f.uid = (generateLoggingID instanceID w).2) ∧
        (logQuery E ctx query args instanceID w).world.queryCounter =
          (generateLoggingID instanceID w).1.queryCounter) ∧
      (w.QueryLoggingDisabled = true →
        (logQuery E ctx query args instanceID w).world.queryCounter = w.queryCounter)) := by
  refine ⟨fun _ => rfl, ?_, ?_, ?_⟩
  · intro s instanceID
    rw [generateLoggingID_eq]
    simp [World.init, wrapInt64, itoa, decimal, decimalAux, go]
    rfl
  · intro w instanceID c hc hmax
    obtain ⟨h1, h2⟩ := generateLoggingID_nat instanceID w c hc hmax
    exact ⟨by rw [h1, List.append_assoc]; rfl, h2⟩
  · intro E ctx query args instanceID w
    constructor
    · intro h
      unfold logQuery
      simp only [h, Bool.false_eq_true, if_false]
      exact ⟨⟨_, rfl, rfl⟩, trivial⟩
    · intro h
      unfold logQuery
      simp [h]

/-- C17: within one process, the correlation IDs of any sequence of logged
calls, whatever the instance identifiers of the calls (equal or different,
with or without '-' and digits in them), are pairwise different, as long as
the counter, which starts at a value that is not negative, stays below 2^63
(it does not wrap around). -/
theorem loggingIDs_distinct {σ : Type} (ids : List GoString) (w : World σ)
    (h0 : 0 ≤ w.queryCounter) (hmax : w.queryCounter + ids.length < 2 ^ 63) :
    (loggingIDs ids w).Nodup := by
  obtain ⟨c, hc⟩ := Int.eq_ofNat_of_zero_le h0
  exact loggingIDs_nodup ids w c hc (by rw [← hc]; exact hmax)

theorem loggingIDs_distinct_witness :
    (loggingIDs [go "a-1", go "a", go "", go "a-1", go "instance-12-3"]
      (World.init (0 : Nat))).Nodup :=
  loggingIDs_distinct [go "a-1", go "a", go "", go "a-1", go "instance-12-3"]
    (World.init (0 : Nat)) (by decide) (by decide)

/-- C18 as stated fails for some passwords.  With the empty password the
data-source string of the configuration is returned as it is, without
"REDACTED"; with the password "p@ss" the redacted text is
"root:REDACTED@ss@tcp(...", not "root:REDACTED@tcp(...": what follows the
first '@' of the password is taken for the remainder. -/
theorem redactPassword_counterexample :
    (exampleConfig (go "")).DSN =
        go "root" ++ go ":" ++ go "" ++ go "@" ++
          go "tcp(localhost:3306)/fortune_db?parseTime=true&multiStatements=true" ∧
      redactPassword (exampleConfig (go "")).DSN = (exampleConfig (go "")).DSN ∧
      redactPassword (exampleConfig (go "")).DSN ≠
        go "root:REDACTED@tcp(localhost:3306)/fortune_db?parseTime=true&multiStatements=true" ∧
      (exampleConfig (go "p@ss")).DSN =
        go "root" ++ go ":" ++ go "p@ss" ++ go "@" ++
          go "tcp(localhost:3306)/fortune_db?parseTime=true&multiStatements=true" ∧
      redactPassword (exampleConfig (go "p@ss")).DSN =
        go "root:REDACTED@ss@tcp(localhost:3306)/fortune_db?parseTime=true&multiStatements=true" ∧
      redactPassword (exampleConfig (go "p@ss")).DSN ≠
        go "root:REDACTED@tcp(localhost:3306)/fortune_db?parseTime=true&multiStatements=true" := by
  decide

/-- C18, amended: for every user that contains no ':' and ends in a word
byte (an ASCII letter, digit or '_'), every password that is not empty and
contains no '@', and every remainder that contains no '@', `redactPassword`
applied to "user:password@rest" returns "user:REDACTED@rest"; in particular
for the string `DBConfig.DSN` makes of such a user and password and of a
host, port and database name without '@'.  The result is the same for every
such password: nothing of the password remains in it. -/
theorem redactPassword_spec (user password rest : GoString)
    (hcolon : (0x3A : UInt8) ∉ user)
    (hlast : ∃ b, user.getLast? = some b ∧ isWordByte b = true)
    (hp : password ≠ []) (hpq : (0x40 : UInt8) ∉ password) (hr : (0x40 : UInt8) ∉ rest) :
    redactPassword (user ++ go ":" ++ password ++ go "@" ++ rest) =
        user ++ go ":REDACTED@" ++ rest ∧
      (∀ c : DBConfig, c.DBUser = user → c.DBPassword = password →
        rest = go "tcp(" ++ c.DBHost ++ go ":" ++ c.DBPort ++ go ")/" ++ c.DBName ++
          go "?parseTime=true&multiStatements=true" →
        redactPassword c.DSN = user ++ go ":REDACTED@" ++ rest) ∧
      (∀ other : GoString, other ≠ [] → (0x40 : UInt8) ∉ other →
        redactPassword (user ++ go ":" ++ other ++ go "@" ++ rest) =
          redactPassword (user ++ go ":" ++ password ++ go "@" ++ rest)) := by
  have h := redactPassword_eq user password rest hcolon hlast hp hpq hr
  refine ⟨h, ?_, ?_⟩
  · intro c hu hpw hrest
    rw [← h, hrest, ← hu, ← hpw]
    unfold DBConfig.DSN dataSourceName
    simp [go, List.append_assoc]
  · intro other ho hoq
    rw [h, redactPassword_eq user other rest hcolon hlast ho hoq hr]

theorem redactPassword_spec_witness :
    redactPassword (go "root" ++ go ":" ++ go "example" ++ go "@" ++
        go "tcp(localhost:3306)/fortune_db?parseTime=true&multiStatements=true") =
      go "root" ++ go ":REDACTED@" ++
        go "tcp(localhost:3306)/fortune_db?parseTime=true&multiStatements=true" ∧
    redactPassword (exampleConfig (go "example")).DSN =
      go "root" ++ go ":REDACTED@" ++
        go "tcp(localhost:3306)/fortune_db?parseTime=true&multiStatements=true" :=
  have h := redactPassword_spec (go "root") (go "example")
    (go "tcp(localhost:3306)/fortune_db?parseTime=true&multiStatements=true")
    (by decide) ⟨0x74, by decide⟩ (by decide) (by decide) (by decide)
  ⟨h.1, h.2.1 (exampleConfig (go "example")) rfl rfl (by decide)⟩

/-- C20 as stated fails: in an environment where applying the migrations
succeeds (or reports "no change") and closing the migration then reports an
error, `TryToMigrate` returns that error, in a `MultiErr`, with
isMigrationError = false. -/
theorem TryToMigrate_counterexample :
    (upAnswer (scriptedEnv (fun _ => none) (some (.other (go "close failed")))) (go "db")
        (go "/src/internal/database/dbutil.go") 0).2 = none ∧
      (TryToMigrate (scriptedEnv (fun _ => none) (some (.other (go "close failed"))))
        (go "db") 0).val =
        .ret (false, some (.multiNil [none, some (.other (go "close failed"))])) ∧
      (upAnswer (scriptedEnv (fun _ => some .ErrNoChange) (some (.other (go "close failed"))))
        (go "db") (go "/src/internal/database/dbutil.go") 0).2 = some .ErrNoChange ∧
      (TryToMigrate (scriptedEnv (fun _ => some .ErrNoChange) (some (.other (go "close failed"))))
        (go "db") 0).val =
        .ret (false, some (.multiNil [none, some (.other (go "close failed"))])) := by
  decide

/-- C20, amended: where the caller's file name is known (otherwise
`testDataPath` panics), `TryToMigrate` returns no error when applying the
migrations succeeds or reports that there are no pending migrations and
closing the migration reports no error; when closing reports an error, that
error is returned in a `MultiErr`.  It returns isMigrationError = true exactly
when the migration step itself (`m.Up`) fails with an error other than "no
change", and then the error is not nil; a failure to construct the migration
driver returns isMigrationError = false together with an error. -/
theorem TryToMigrate_spec {σ : Type} (E : UtilEnv σ) (dbName filename : GoString) (s : σ)
    (hcaller : E.Caller = some filename) :
    (∀ e, (newAnswer E dbName filename s).2 = some e →
      (TryToMigrate E dbName s).val =
        .ret (false, some (.errorString (go "migrate.New(): " ++ e.text)))) ∧
    ((newAnswer E dbName filename s).2 = none →
      ∃ isMigrationError outerErr,
        (TryToMigrate E dbName s).val = .ret (isMigrationError, outerErr) ∧
        (isMigrationError = true ↔ ∃ e, (upAnswer E dbName filename s).2 = some (.other e)) ∧
        (isMigrationError = true → outerErr ≠ none) ∧
        ((upAnswer E dbName filename s).2 = none ∨
            (upAnswer E dbName filename s).2 = some .ErrNoChange →
          ((closeAnswer E dbName filename s).2 = (none, none) → outerErr = none) ∧
          ((closeAnswer E dbName filename s).2 ≠ (none, none) →
            outerErr = some (.multiNil [(closeAnswer E dbName filename s).2.1,
              (closeAnswer E dbName filename s).2.2])))) := by
  constructor
  · intro e he
    exact (TryToMigrate_new_failed E dbName filename s hcaller e he).1
  · intro hnew
    refine ⟨_, _, (TryToMigrate_new_ok E dbName filename s hcaller hnew).1, ?_, ?_, ?_⟩
    · rcases (upAnswer E dbName filename s).2 with _ | ⟨_ | e⟩ <;> simp
    · rcases (upAnswer E dbName filename s).2 with _ | ⟨_ | e⟩ <;> simp
      split <;> simp [MultiErr]
    · rcases hc : (closeAnswer E dbName filename s).2 with ⟨_ | a, _ | b⟩ <;>
        rcases (upAnswer E dbName filename s).2 with _ | ⟨_ | e⟩ <;> simp [MultiErr]

theorem TryToMigrate_spec_witness :
    ∃ isMigrationError outerErr,
      (TryToMigrate (scriptedEnv (fun _ => some dirtyDatabase) none) (go "db") 0).val =
        .ret (isMigrationError, outerErr) ∧
      (isMigrationError = true ↔ ∃ e,
        (upAnswer (scriptedEnv (fun _ => some dirtyDatabase) none) (go "db")
          (go "/src/internal/database/dbutil.go") 0).2 = some (.other e)) ∧
      (isMigrationError = true → outerErr ≠ none) ∧
      ((upAnswer (scriptedEnv (fun _ => some dirtyDatabase) none) (go "db")
            (go "/src/internal/database/dbutil.go") 0).2 = none ∨
          (upAnswer (scriptedEnv (fun _ => some dirtyDatabase) none) (go "db")
            (go "/src/internal/database/dbutil.go") 0).2 = some .ErrNoChange →
        ((closeAnswer (scriptedEnv (fun _ => some dirtyDatabase) none) (go "db")
            (go "/src/internal/database/dbutil.go") 0).2 = (none, none) → outerErr = none) ∧
        ((closeAnswer (scriptedEnv (fun _ => some dirtyDatabase) none) (go "db")
            (go "/src/internal/database/dbutil.go") 0).2 ≠ (none, none) →
          outerErr = some (.multiNil
            [(closeAnswer (scriptedEnv (fun _ => some dirtyDatabase) none) (go "db")
              (go "/src/internal/database/dbutil.go") 0).2.1,
             (closeAnswer (scriptedEnv (fun _ => some dirtyDatabase) none) (go "db")
              (go "/src/internal/database/dbutil.go") 0).2.2]))) :=
  (TryToMigrate_spec (scriptedEnv (fun _ => some dirtyDatabase) none) (go "db")
    (go "/src/internal/database/dbutil.go") 0 rfl).2 rfl

/-- C19: in every run of `SetupTestDB` the statement that drops the database
is executed at most once and migration is attempted at most twice; a drop
happens only in a run where `CreateDBIfNotExists` returned no error and the
first migration attempt returned isMigrationError = true with an error, after
the events of that attempt, within the one call of `recreateDB` (which creates
at most once), and nothing after that call drops or creates; when the first
attempt fails with isMigrationError = false, or the retry after a successful
`recreateDB` fails, `SetupTestDB` returns an error and no handle, and its
events end with those of the failed attempt: `Open` is not called. -/
theorem SetupTestDB_retry {σ : Type} (E : UtilEnv σ) (dbName : GoString) (s : σ) :
    (SetupTestDB E dbName s).events.countP (UtilEvent.isDrop dbName) ≤ 1 ∧
    (SetupTestDB E dbName s).events.countP UtilEvent.isMigrateNew ≤ 2 ∧
    (0 < (SetupTestDB E dbName s).events.countP (UtilEvent.isDrop dbName) →
      (CreateDBIfNotExists E dbName s).val = none ∧
      ∃ err tail, (firstAttempt E dbName s).val = .ret (true, some err) ∧
        (SetupTestDB E dbName s).events =
          (CreateDBIfNotExists E dbName s).events ++ (firstAttempt E dbName s).events ++
            [recreatingLog dbName err] ++ (recreation E dbName s).events ++ tail ∧
        ((CreateDBIfNotExists E dbName s).events ++ (firstAttempt E dbName s).events).countP
          (UtilEvent.isDrop dbName) = 0 ∧
        (recreation E dbName s).events.countP (UtilEvent.isCreate dbName) ≤ 1 ∧
        tail.countP (UtilEvent.isDrop dbName) = 0 ∧
        tail.countP (UtilEvent.isCreate dbName) = 0) ∧
    ((CreateDBIfNotExists E dbName s).val = none →
      ∀ err, (firstAttempt E dbName s).val = .ret (false, some err) →
        (∃ e, (SetupTestDB E dbName s).val = .ret (none, some e)) ∧
        (SetupTestDB E dbName s).events =
          (CreateDBIfNotExists E dbName s).events ++ (firstAttempt E dbName s).events ∧
        (SetupTestDB E dbName s).events.countP UtilEvent.isPingContext = 0) ∧
    ((CreateDBIfNotExists E dbName s).val = none →
      ∀ err err2 b, (firstAttempt E dbName s).val = .ret (true, some err) →
        (recreation E dbName s).val = none →
        (retry E dbName s).val = .ret (b, some err2) →
        (∃ e, (SetupTestDB E dbName s).val = .ret (none, some e)) ∧
        (SetupTestDB E dbName s).events =
          (CreateDBIfNotExists E dbName s).events ++ (firstAttempt E dbName s).events ++
            [recreatingLog dbName err] ++ (recreation E dbName s).events ++
            (retry E dbName s).events ∧
        (SetupTestDB E dbName s).events.countP UtilEvent.isPingContext = 0) := by
  have hcd : ∀ e, UtilEvent.isDrop dbName (.exec (createQuery dbName) e) = false := by
    intro e
    simp [UtilEvent.isDrop, createQuery_ne_dropQuery]
  have hdrop0 : ∀ t, (TryToMigrate E dbName t).events.countP (UtilEvent.isDrop dbName) = 0 :=
    fun t => TryToMigrate_countP_zero E dbName t _ (isDrop_quiet dbName) (fun _ _ _ => rfl)
  have hcreate0 : ∀ t, (TryToMigrate E dbName t).events.countP (UtilEvent.isCreate dbName) = 0 :=
    fun t => TryToMigrate_countP_zero E dbName t _ (isCreate_quiet dbName) (fun _ _ _ => rfl)
  have hping : ∀ t, (CreateDBIfNotExists E dbName t).events.countP UtilEvent.isPingContext = 0 :=
    fun t => CreateDBIfNotExists_countP E dbName t _ isPingContext_quiet (fun _ => rfl)
  have hpingM : ∀ t, (TryToMigrate E dbName t).events.countP UtilEvent.isPingContext = 0 :=
    fun t => TryToMigrate_countP_zero E dbName t _ isPingContext_quiet (fun _ _ _ => rfl)
  have hpingR : ∀ t, (recreateDB E dbName t).events.countP UtilEvent.isPingContext = 0 :=
    fun t => recreateDB_countP_zero E dbName t _ isPingContext_quiet (fun _ => rfl) (fun _ => rfl)
  simp only [firstAttempt, recreation, retry]
  refine ⟨?_, ?_, ?_, ?_, ?_⟩
  · have := SetupTestDB_countP E dbName s _ (isDrop_quiet dbName) hcd (fun _ => rfl) 0 1
      (fun t => le_of_eq (hdrop0 t))
      (fun t => recreateDB_countP E dbName t _ (isDrop_quiet dbName) hcd)
    omega
  · have := SetupTestDB_countP E dbName s _ isMigrateNew_quiet (fun _ => rfl) (fun _ => rfl) 1 0
      (fun t => TryToMigrate_countP E dbName t _ isMigrateNew_quiet)
      (fun t => le_of_eq (recreateDB_countP_zero E dbName t _ isMigrateNew_quiet
        (fun _ => rfl) (fun _ => rfl)))
    omega
  · intro hpos
    have hc0 := CreateDBIfNotExists_countP E dbName s _ (isDrop_quiet dbName) hcd
    rcases SetupTestDB_shape E dbName s with ⟨_, h⟩ | ⟨hc, tail, h, ht⟩
    · rw [h, hc0] at hpos
      omega
    · have htd : tail.countP (UtilEvent.isDrop dbName) = 0 := by
        rcases ht with ht | ⟨_, ht⟩
        · simp [ht]
        · rw [ht]
          exact Open_countP E _ _ _ _ _ (isDrop_quiet dbName) (fun _ => rfl)
      have htc : tail.countP (UtilEvent.isCreate dbName) = 0 := by
        rcases ht with ht | ⟨_, ht⟩
        · simp [ht]
        · rw [ht]
          exact Open_countP E _ _ _ _ _ (isCreate_quiet dbName) (fun _ => rfl)
      refine ⟨hc, ?_⟩
      rcases migrateOrRecreate_events E dbName (CreateDBIfNotExists E dbName s).state with
        ⟨hb, _⟩ | ⟨err, hm, ⟨hb, _⟩ | ⟨hb, _⟩⟩
      · rw [h, hb] at hpos
        simp only [List.countP_append, hc0, hdrop0, htd] at hpos
        omega
      · refine ⟨err, tail, hm, by rw [h, hb]; simp only [List.append_assoc], ?_,
          recreateDB_create_le E dbName _, htd, htc⟩
        simp only [List.countP_append, hc0, hdrop0]
      · refine ⟨err, (TryToMigrate E dbName (recreateDB E dbName (TryToMigrate E dbName
            (CreateDBIfNotExists E dbName s).state).state).state).events ++ tail, hm,
          by rw [h, hb]; simp only [List.append_assoc], ?_,
          recreateDB_create_le E dbName _, ?_, ?_⟩
        · simp only [List.countP_append, hc0, hdrop0]
        · simp only [List.countP_append, hdrop0, htd]
        · simp only [List.countP_append, hcreate0, htc]
  · intro hc err hm
    obtain ⟨hv, he⟩ := migrateOrRecreate_first_failed E dbName _ err hm
    obtain ⟨hv2, he2⟩ := SetupTestDB_block_failed E dbName s _ hc hv
    refine ⟨⟨_, by rw [hv2]; rfl⟩, by rw [he2, he], ?_⟩
    rw [he2, he]
    simp only [List.countP_append, hping, hpingM]
  · intro hc err err2 b hm hr hm2
    obtain ⟨hv, he⟩ := migrateOrRecreate_retry_failed E dbName _ err err2 b hm hr hm2
    obtain ⟨hv2, he2⟩ := SetupTestDB_block_failed E dbName s _ hc hv
    refine ⟨⟨_, by rw [hv2]; rfl⟩, by rw [he2, he]; simp only [List.append_assoc], ?_⟩
    rw [he2, he]
    simp only [List.countP_append, hping, hpingM, hpingR, List.countP_cons, List.countP_nil,
      recreatingLog, UtilEvent.isPingContext]
    simp

set_option maxRecDepth 100000 in
/-- C26 as stated fails: 1001 null values for one column are a valid input,
and on a database that rejects null values the first chunk fails, so the only
slice bound is `values[0:1000]`; the slice `values[1000:1001]` is never bound
and the concatenation of the slices bound is not `values`. -/
theorem bulkInsert_slices_counterexample :
    [go "colA"] ≠ [] ∧
      (List.replicate 1001 Value.null).length % [go "colA"].length = 0 ∧
      boundArgs (DB.bulkInsert notNullEnv ⟨go "test"⟩ ⟨0⟩ (go "t") [go "colA"] none
          (List.replicate 1001 Value.null) [] none (World.init 0)).events =
        [List.replicate 1000 Value.null] ∧
      (boundArgs (DB.bulkInsert notNullEnv ⟨go "test"⟩ ⟨0⟩ (go "t") [go "colA"] none
          (List.replicate 1001 Value.null) [] none (World.init 0)).events).flatten ≠
        List.replicate 1001 Value.null := by
  have hb : boundArgs (DB.bulkInsert notNullEnv ⟨go "test"⟩ ⟨0⟩ (go "t") [go "colA"] none
      (List.replicate 1001 Value.null) [] none (World.init 0)).events =
      [List.replicate 1000 Value.null] := by decide
  refine ⟨by decide, by rw [List.length_replicate]; rfl, hb, ?_⟩
  rw [hb]
  intro h
  have := congrArg List.length h
  simp at this

/-- C26, amended: for every valid input (at least one and at most 1000
columns, a number of values that is a multiple of the number of columns), the
value slices bound to successive statements are, in issue order,
values[0:stride], values[stride:2*stride], and so on: the slice bound in
position `i` (from 0) is `values[i*stride : r]` with `r` the smaller of
`(i+1)*stride` and `len(values)`, it is within range
(0 <= left < right <= len(values)), and every slice bound but the last one has
length exactly stride; there are never more slices than chunks, and their
concatenation is the start of `values` they cover.  When the call returns nil,
one slice was bound per chunk and the concatenation of the slices in issue
order equals `values`.  When an event of the call fails, no slice is bound
after it, and every statement prepared has had its slice bound, but for a
statement whose prepare failed. -/
theorem bulkInsert_slices {σ : Type} (E : Env σ) (db : DB) (ctx : Context) (table : GoString)
    (columns : List GoString) (returningColumns : Option (List GoString)) (values : List Value)
    (conflictAction : GoString) (scanFunc : Option (List Value → Option ExtError))
    (w : World σ) (hc : columns ≠ []) (hm : values.length % columns.length = 0)
    (hk : columns.length ≤ 1000) :
    (∀ i sl, (boundArgs (db.bulkInsert E ctx table columns returningColumns values
          conflictAction scanFunc w).events)[i]? = some sl →
      i * strideOf columns.length <
        min (i * strideOf columns.length + strideOf columns.length) values.length ∧
      min (i * strideOf columns.length + strideOf columns.length) values.length ≤
        values.length ∧
      sl = (values.take (min (i * strideOf columns.length + strideOf columns.length)
        values.length)).drop (i * strideOf columns.length) ∧
      (i + 1 < (boundArgs (db.bulkInsert E ctx table columns returningColumns values
          conflictAction scanFunc w).events).length → sl.length = strideOf columns.length)) ∧
    (boundArgs (db.bulkInsert E ctx table columns returningColumns values conflictAction
        scanFunc w).events).length ≤ chunkCount (strideOf columns.length) values.length ∧
    (boundArgs (db.bulkInsert E ctx table columns returningColumns values conflictAction
        scanFunc w).events).flatten =
      values.take ((boundArgs (db.bulkInsert E ctx table columns returningColumns values
        conflictAction scanFunc w).events).length * strideOf columns.length) ∧
    ((db.bulkInsert E ctx table columns returningColumns values conflictAction scanFunc w).val =
        .ret none →
      (boundArgs (db.bulkInsert E ctx table columns returningColumns values conflictAction
        scanFunc w).events).length = chunkCount (strideOf columns.length) values.length ∧
      (boundArgs (db.bulkInsert E ctx table columns returningColumns values conflictAction
        scanFunc w).events).flatten = values) ∧
    (∀ ev e, ev ∈ (db.bulkInsert E ctx table columns returningColumns values conflictAction
          scanFunc w).events → ev.err = some e →
      (∃ pre post, dbEvents (db.bulkInsert E ctx table columns returningColumns values
          conflictAction scanFunc w).events = pre ++ ev :: post ∧ boundArgs post = []) ∧
      (preparedTexts (db.bulkInsert E ctx table columns returningColumns values conflictAction
          scanFunc w).events).length =
        (boundArgs (db.bulkInsert E ctx table columns returningColumns values conflictAction
          scanFunc w).events).length + (if ev.prepared.isSome then 1 else 0)) := by
  have hpos : 0 < columns.length := List.length_pos.mpr hc
  have hs := strideOf_pos columns.length hpos hk
  obtain ⟨hle, hb, hnil⟩ := bulkInsert_bound E db ctx table columns returningColumns values
    conflictAction scanFunc w hc hm hk
  have hflat : (boundArgs (db.bulkInsert E ctx table columns returningColumns values
      conflictAction scanFunc w).events).flatten =
      values.take ((boundArgs (db.bulkInsert E ctx table columns returningColumns values
        conflictAction scanFunc w).events).length * strideOf columns.length) := by
    conv_lhs => rw [hb]
    exact chunkSlices_flatten _ _ _
  refine ⟨?_, hle, hflat, ?_, ?_⟩
  · intro i sl hi
    have hil : i < (boundArgs (db.bulkInsert E ctx table columns returningColumns values
        conflictAction scanFunc w).events).length := by
      by_contra hge
      rw [List.getElem?_eq_none (by omega)] at hi
      cases hi
    have hsl : sl = chunkSlice (strideOf columns.length) values i := by
      rw [hb, List.getElem?_map, List.getElem?_range' _ _ hil] at hi
      simpa using hi.symm
    have hlt : i * strideOf columns.length < values.length := by
      by_contra hge
      have := chunkCount_le (strideOf columns.length) values.length i hs (by omega)
      omega
    have hmin := rightBoundOf_eq_min (strideOf columns.length) values.length
      (i * strideOf columns.length)
    refine ⟨by omega, by omega, by rw [hsl, chunkSlice, hmin], ?_⟩
    intro hi2
    have hlt2 : (i + 1) * strideOf columns.length < values.length := by
      by_contra hge
      have := chunkCount_le (strideOf columns.length) values.length (i + 1) hs (by omega)
      omega
    rw [hsl]
    unfold chunkSlice
    rw [slice_length, hmin]
    rw [Nat.add_mul, Nat.one_mul] at hlt2
    omega
  · intro hv
    refine ⟨hnil hv, ?_⟩
    rw [hflat, hnil hv]
    apply List.take_of_length_le
    by_contra hlt
    have := chunkCount_gt (strideOf columns.length) values.length
      (chunkCount (strideOf columns.length) values.length) hs (by omega)
    omega
  · intro ev e hev he
    obtain ⟨n, pre, post, h1, _, h2, _, h4, h5, _⟩ := bulkInsert_failure E db ctx table columns
      returningColumns values conflictAction scanFunc w hc hm hk ev e hev he
    refine ⟨⟨pre, post, h1, ?_⟩, ?_⟩
    · unfold boundArgs
      rw [List.filterMap_eq_nil_iff]
      intro p hp
      rcases h2 p hp with rfl | hcl
      · rfl
      · cases p <;> first | rfl | simp [Event.isStmtClose] at hcl
    · rw [h4, h5]
      simp only [List.length_map, List.length_range']
      split <;> omega

set_option maxRecDepth 100000 in
theorem bulkInsert_slices_witness :
    (boundArgs (DB.bulkInsert okEnv ⟨go "test"⟩ ⟨0⟩ (go "t") [go "colA"] none
        (List.replicate 1500 Value.null) [] none (World.init 0)).events).length = 2 ∧
    (boundArgs (DB.bulkInsert okEnv ⟨go "test"⟩ ⟨0⟩ (go "t") [go "colA"] none
        (List.replicate 1500 Value.null) [] none (World.init 0)).events).flatten =
      List.replicate 1500 Value.null :=
  (bulkInsert_slices okEnv ⟨go "test"⟩ ⟨0⟩ (go "t") [go "colA"] none
    (List.replicate 1500 Value.null) [] none (World.init 0) (by decide)
    (by rw [List.length_replicate]; rfl) (by decide)).2.2.2.1 (by decide)

/-- C27: for every table, column list with at least one column,
returning-column list, conflict clause and `nvalues` that is a multiple of
`len(columns)`, `buildInsertQuery` returns exactly "INSERT INTO <table>
(<columns joined by ', '>) VALUES " followed by `nvalues/len(columns)` groups
"(?,...,?)" of `len(columns)` placeholders each, joined by ", ", then a space
and the conflict clause if and only if the clause is not empty, then
" RETURNING " and the returning columns joined by ", " if and only if there
are any; every statement text of every chunk of a call of `bulkInsert` is such
a text, with the conflict clause of the call. -/
theorem buildInsertQuery_spec (table : GoString) (columns returningColumns : List GoString)
    (nvalues : Nat) (conflictAction : GoString) (hc : columns ≠ [])
    (hdiv : columns.length ∣ nvalues) :
    buildInsertQuery table columns returningColumns nvalues conflictAction =
        insertQueryText table columns returningColumns nvalues conflictAction ∧
      placeholders (placeholderGroup columns.length) = columns.length ∧
      nvalues / columns.length * columns.length = nvalues ∧
      (∀ (σ : Type) (E : Env σ) (db : DB) (ctx : Context) (ret : Option (List GoString))
          (values : List Value) (scanFunc : Option (List Value → Option ExtError))
          (w : World σ),
        ∀ t ∈ preparedTexts (db.bulkInsert E ctx table columns ret values conflictAction
            scanFunc w).events,
          ∃ n, columns.length ∣ n ∧
            t = insertQueryText table columns (ret.getD []) n conflictAction) := by
  refine ⟨buildInsertQuery_eq table columns returningColumns nvalues conflictAction hc,
    placeholders_group columns.length (List.length_pos.mpr hc),
    Nat.div_mul_cancel hdiv, ?_⟩
  intro σ E db ctx ret values scanFunc w t ht
  obtain ⟨_, n, hn, _, e⟩ := bulkInsert_prepared_form E db ctx table columns ret values
    conflictAction scanFunc w t ht
  exact ⟨n, hn, by rw [e, buildInsertQuery_eq table columns _ n conflictAction hc]⟩

theorem buildInsertQuery_spec_witness :
    buildInsertQuery (go "t") [go "colA", go "colB"] [go "id"] 4 OnConflictDoNothing =
      insertQueryText (go "t") [go "colA", go "colB"] [go "id"] 4 OnConflictDoNothing ∧
    buildInsertQuery (go "t") [go "colA", go "colB"] [go "id"] 4 OnConflictDoNothing =
      go "INSERT INTO t (colA, colB) VALUES (?,?), (?,?) ON DUPLICATE KEY UPDATE colA = colA RETURNING id" :=
  ⟨(buildInsertQuery_spec (go "t") [go "colA", go "colB"] [go "id"] 4 OnConflictDoNothing
    (by decide) (by decide)).1, by decide⟩

/-- C28: for every chunk of every call of `bulkInsert`, the number of '?'
placeholders in the statement text that is prepared equals the number of
values bound when that statement is executed, provided the table name, the
column names (those inserted and those returned) and the conflict clause
contain no '?' character. -/
theorem bulkInsert_placeholders {σ : Type} (E : Env σ) (db : DB) (ctx : Context)
    (table : GoString) (columns : List GoString) (returningColumns : Option (List GoString))
    (values : List Value) (conflictAction : GoString)
    (scanFunc : Option (List Value → Option ExtError)) (w : World σ)
    (ht : (0x3F : UInt8) ∉ table) (hcol : ∀ c ∈ columns, (0x3F : UInt8) ∉ c)
    (hret : ∀ c ∈ returningColumns.getD [], (0x3F : UInt8) ∉ c)
    (hconf : (0x3F : UInt8) ∉ conflictAction) :
    ∀ p ∈ stmtRuns (db.bulkInsert E ctx table columns returningColumns values
        conflictAction scanFunc w).events,
      p.1.query ∈ preparedTexts (db.bulkInsert E ctx table columns returningColumns values
        conflictAction scanFunc w).events ∧
      placeholders p.1.query = p.2.length := by
  intro p hp
  obtain ⟨hc, n, hn, hlen, hq, hmem⟩ := bulkInsert_stmtRuns E db ctx table columns
    returningColumns values conflictAction scanFunc w p hp
  refine ⟨hmem, ?_⟩
  rw [hq, buildInsertQuery_eq table columns _ n conflictAction hc,
    placeholders_insertQueryText table columns _ n conflictAction hc ht hcol hret hconf,
    Nat.div_mul_cancel hn, hlen]

set_option maxRecDepth 100000 in
theorem bulkInsert_placeholders_witness :
    stmtRuns (DB.bulkInsert okEnv ⟨go "test"⟩ ⟨0⟩ (go "t") [go "colA", go "colB"] none
        [.str (go "a1"), .str (go "b1"), .str (go "a2"), .null] OnConflictDoNothing none
        (World.init 0)).events =
      [(⟨0, go "INSERT INTO t (colA, colB) VALUES (?,?), (?,?) ON DUPLICATE KEY UPDATE colA = colA"⟩,
        [.str (go "a1"), .str (go "b1"), .str (go "a2"), .null])] ∧
    placeholders (go "INSERT INTO t (colA, colB) VALUES (?,?), (?,?) ON DUPLICATE KEY UPDATE colA = colA")
      = [Value.str (go "a1"), Value.str (go "b1"), Value.str (go "a2"), Value.null].length :=
  ⟨by decide,
    (bulkInsert_placeholders okEnv ⟨go "test"⟩ ⟨0⟩ (go "t") [go "colA", go "colB"] none
      [.str (go "a1"), .str (go "b1"), .str (go "a2"), .null] OnConflictDoNothing none
      (World.init 0) (by decide) (by decide) (by decide) (by decide)
      (⟨0, go "INSERT INTO t (colA, colB) VALUES (?,?), (?,?) ON DUPLICATE KEY UPDATE colA = colA"⟩,
        [.str (go "a1"), .str (go "b1"), .str (go "a2"), .null]) (by decide)).2⟩

/-- C29: every statement that `bulkInsert` prepares has been released by the
time `bulkInsert` returns, on every exit path (all environments, so success, a
failed execution of some chunk, a failed row read, a panic of the row
callback and a failed prepare of a later chunk): the statements prepared in
the call are the ones with the identities from `w.stmts` on, one per prepare
that succeeded; each of them is released exactly once, the last prepared
first, and the releases are the last events of the call. -/
theorem bulkInsert_releases {σ : Type} (E : Env σ) (db : DB) (ctx : Context)
    (table : GoString) (columns : List GoString) (returningColumns : Option (List GoString))
    (values : List Value) (conflictAction : GoString)
    (scanFunc : Option (List Value → Option ExtError)) (w : World σ) :
    closedStmts (db.bulkInsert E ctx table columns returningColumns values conflictAction
        scanFunc w).events =
      ((stmtRuns (db.bulkInsert E ctx table columns returningColumns values conflictAction
        scanFunc w).events).map Prod.fst).reverse ∧
    (closedStmts (db.bulkInsert E ctx table columns returningColumns values conflictAction
        scanFunc w).events).map Stmt.id =
      (List.range' w.stmts ((db.bulkInsert E ctx table columns returningColumns values
        conflictAction scanFunc w).events.countP Event.isPrepared)).reverse ∧
    (db.bulkInsert E ctx table columns returningColumns values conflictAction
        scanFunc w).world.stmts =
      w.stmts + (db.bulkInsert E ctx table columns returningColumns values conflictAction
        scanFunc w).events.countP Event.isPrepared ∧
    (closedStmts (db.bulkInsert E ctx table columns returningColumns values conflictAction
        scanFunc w).events).Nodup ∧
    ∃ body, (db.bulkInsert E ctx table columns returningColumns values conflictAction
        scanFunc w).events =
        body ++ (closedStmts (db.bulkInsert E ctx table columns returningColumns values
          conflictAction scanFunc w).events).map Event.stmtClose ∧
      closedStmts body = [] := by
  obtain ⟨body, d, hev, hcl, hruns, hprep, hids, hst⟩ := bulkInsert_statements E db ctx table
    columns returningColumns values conflictAction scanFunc w
  have hclosed : closedStmts (db.bulkInsert E ctx table columns returningColumns values
      conflictAction scanFunc w).events = d.reverse := by
    rw [hev]
    unfold closedStmts at hcl ⊢
    rw [List.filterMap_append, hcl, List.nil_append]
    exact (closedStmts_stmtClose d.reverse).1
  have hr : stmtRuns (db.bulkInsert E ctx table columns returningColumns values
      conflictAction scanFunc w).events = stmtRuns body := by
    rw [hev]
    have := stmtRuns_stmtClose d.reverse
    unfold stmtRuns at this ⊢
    rw [List.filterMap_append, this, List.append_nil]
  have hp : (db.bulkInsert E ctx table columns returningColumns values
      conflictAction scanFunc w).events.countP Event.isPrepared = d.length := by
    rw [hev, List.countP_append, (closedStmts_stmtClose d.reverse).2, hprep]
    rfl
  have hmap : (d.reverse).map Stmt.id = (List.range' w.stmts d.length).reverse := by
    rw [List.map_reverse, hids]
  refine ⟨by rw [hclosed, hr, hruns], by rw [hclosed, hp, hmap], by rw [hp, hst], ?_,
    body, by rw [hclosed]; exact hev, hcl⟩
  rw [hclosed]
  apply List.Nodup.of_map Stmt.id
  rw [hmap, List.nodup_reverse]
  exact List.nodup_range' _ _

/-- C30 does not hold of the code: with logging enabled, `Prepare` of
"SELECT 1" on the instance "test" first compiles the statement and only then
emits the debug record "test-1 preparing SELECT 1 args=", and no completion
record follows, where `Exec` of the same text emits its record, executes, and
emits the completion record. -/
theorem Prepare_log_order :
    (World.init (0 : Nat)).QueryLoggingDisabled = false ∧
      (DB.Prepare okEnv ⟨go "test"⟩ ⟨0⟩ (go "SELECT 1") (World.init 0)).events =
        [.prepare (go "SELECT 1") none,
          .log .debug (.text (go "test-1 preparing SELECT 1 args="))] ∧
      (DB.Exec okEnv ⟨go "test"⟩ ⟨0⟩ (go "SELECT 1") [] (World.init 0)).events =
        [.log .debug (.text (go "test-1 SELECT 1 args=")),
          .exec (go "SELECT 1") [] none,
          .log .debug (.entry ⟨go "test-1", go "SELECT 1", go "", 1, go ""⟩)] := by
  decide

/-- C24 as stated fails: where the statement that disables the foreign-key
checks fails (here every call fails on a passed deadline), `ResetDB` has issued
it and returns without issuing the statement that re-enables them; the same
holds where the truncation fails (here the table does not exist). -/
theorem ResetDB_counterexample :
    directTexts (ResetDB deadlineEnv ⟨0⟩ ⟨go "test"⟩ (World.init 0)).events = [disableChecks] ∧
      (ResetDB deadlineEnv ⟨0⟩ ⟨go "test"⟩ (World.init 0)).val ≠ none ∧
      directTexts (ResetDB noTableEnv ⟨0⟩ ⟨go "test"⟩ (World.init 0)).events =
        [disableChecks, truncateTable] ∧
      (ResetDB noTableEnv ⟨0⟩ ⟨go "test"⟩ (World.init 0)).val ≠ none := by
  decide

/-- C24, amended: `ResetDB` brackets the truncation with the
referential-integrity switch: the first statement it issues is the one that
disables the foreign-key checks; when that statement fails it returns the
error at once and issues nothing more; on every run in which that statement
and the truncation have both succeeded, it issues the statement that
re-enables the checks before it returns; and when it succeeds the statements
issued are exactly disable, truncate, re-enable in that order, each of them
having succeeded. -/
theorem ResetDB_bracket {σ : Type} (E : Env σ) (ctx : Context) (db : DB) (w : World σ) :
    (directTexts (ResetDB E ctx db w).events).head? = some disableChecks ∧
    ((db.Exec E ctx disableChecks [] w).val.2 ≠ none →
      directTexts (ResetDB E ctx db w).events = [disableChecks] ∧
      (ResetDB E ctx db w).val ≠ none) ∧
    ((db.Exec E ctx disableChecks [] w).val.2 = none →
      (db.Exec E ctx truncateTable [] (db.Exec E ctx disableChecks [] w).world).val.2 = none →
      directTexts (ResetDB E ctx db w).events = [disableChecks, truncateTable, enableChecks]) ∧
    ((ResetDB E ctx db w).val = none →
      directTexts (ResetDB E ctx db w).events = [disableChecks, truncateTable, enableChecks] ∧
      (db.Exec E ctx disableChecks [] w).val.2 = none ∧
      (db.Exec E ctx truncateTable [] (db.Exec E ctx disableChecks [] w).world).val.2 = none ∧
      (db.Exec E ctx enableChecks []
        (db.Exec E ctx truncateTable [] (db.Exec E ctx disableChecks [] w).world).world).val.2
          = none) := by
  obtain ⟨h1, h2, h3, h4⟩ := ResetDB_statements E ctx db w
  exact ⟨h1, h2, h3, h4⟩

set_option maxRecDepth 100000 in
/-- C25: for every request body that is read without error, `decodeBody`
returns, in input order, exactly the blocks of lines delimited by separator
lines (a line equal to "%" once surrounding whitespace is trimmed), each
block joined with newlines and trimmed of surrounding whitespace, keeping only
the blocks whose trimmed length is between 3 and 10000 bytes inclusive; so the
body "mul\n%\ntiple\n\n\n%\ncppkies" yields 3 records,
"bar\n%\n%baz\n%\n    \n%\n\n\n\n%\n" yields 2, "hoi" yields 1, and "%" or
"%\n%\n%\n" yield none. -/
theorem decodeBody_spec (input : GoString) :
    decodeBody (.ok input) = ((recordsOf input).map Value.str, none) ∧
    (decodeBody (.ok (go "mul\n%\ntiple\n\n\n%\ncppkies"))).1 =
      [.str (go "mul"), .str (go "tiple"), .str (go "cppkies")] ∧
    (decodeBody (.ok (go "bar\n%\n%baz\n%\n    \n%\n\n\n\n%\n"))).1 =
      [.str (go "bar"), .str (go "%baz")] ∧
    (decodeBody (.ok (go "hoi"))).1 = [.str (go "hoi")] ∧
    (decodeBody (.ok (go "%"))).1 = [] ∧
    (decodeBody (.ok (go "%\n%\n%\n"))).1 = [] := by
  refine ⟨?_, by decide, by decide, by decide, by decide, by decide⟩
  unfold decodeBody
  simp only
  rw [decodeLines_spec (stringsSplit input 0x0A) [] [] (by simp), recordsOf_eq]
  simp

/-- C21 as stated fails: on a pool of two handles, the test 7 acquires the
handle 0, the test 8 the handle 1, and the test 7 invokes its release function
twice.  Nothing refuses the second invocation: the handle 0 is then in the
queue twice, and the queue and the handles held count three handles, not two. -/
theorem pool_invariant_counterexample :
    (runOps (fun _ => okEnv) [.acquire 7, .acquire 8, .release 7 0, .release 7 0]
      (Pool.init 2 (World.init 0))).map
        (fun p => (p.dbs, p.held, p.dbs.length + p.held.length)) =
      some ([0, 0], [(8, 1)], 3) := by
  decide

/-- C21, amended: after the pool is initialised with `n` handles, in every
state reachable by any sequence of acquire steps and of release steps in which
the release function is invoked by a caller that holds its handle (once per
acquired handle, the protocol of the pool), each handle is either in the queue
or held by exactly one acquirer, never both and never by two acquirers, and the
number of handles in the queue plus the number held is always `n`. -/
theorem pool_invariant {σ : Type} (E : Handle → Env σ) (n : Nat) (w : World σ) (p : Pool σ)
    (h : Reachable E (Pool.init n w) p) :
    (p.dbs ++ p.held.map Prod.snd).Perm (List.range n) ∧
    p.dbs.length + p.held.length = n ∧
    p.capacity = n ∧
    (∀ db, db < n →
      (db ∈ p.dbs ∧ ∀ c, (c, db) ∉ p.held) ∨
      (db ∉ p.dbs ∧ ∃ c, (c, db) ∈ p.held ∧ ∀ c', (c', db) ∈ p.held → c' = c)) ∧
    p.dbs.Nodup ∧ (p.held.map Prod.snd).Nodup := by
  have hinv := Reachable_inv E n w p h
  obtain ⟨h1, h2, h3, h4, h5, h6⟩ := PoolInv_facts n p hinv
  refine ⟨hinv.1, h1, hinv.2, ?_, h2, h3⟩
  intro db hdb
  rcases (h6 db).mp hdb with hq | ⟨c, hc⟩
  · exact Or.inl ⟨hq, h4 db hq⟩
  · exact Or.inr ⟨fun hq => h4 db hq c hc, c, hc, fun c' hc' => h5 c' c db hc' hc⟩

theorem pool_invariant_witness :
    (busyPool.dbs ++ busyPool.held.map Prod.snd).Perm (List.range 2) ∧
    busyPool.dbs.length + busyPool.held.length = 2 :=
  have h := pool_invariant (fun _ => okEnv) 2 (World.init 0) busyPool
    (Reachable.step (Pool.init 2 (World.init 0)) busyPool (.acquire 7) Reachable.start
      trivial rfl)
  ⟨h.1, h.2.1⟩

/-- C22 as stated fails: where the reset fails (here the table to truncate
does not exist) the release function stops the test with `t.Fatalf` and leaves
the queue as it was, without the handle. -/
theorem release_counterexample :
    (release (fun _ => noTableEnv) 7 0 busyPool).2.2 =
        .fatal (go "error resetting test DB: error resetting test DB: Error 1146: Table fortune_cookies does not exist") ∧
      busyPool.dbs = [1] ∧
      (release (fun _ => noTableEnv) 7 0 busyPool).1.dbs = [1] := by
  decide

/-- C22, amended: every invocation of the release function returned by
acquire runs `ResetDB` on the database of its handle; when the reset succeeds
(the statements issued are then disable, truncate, re-enable), it puts that
same handle back into the queue, which has room whenever the caller holds the
handle, so after release returns the queue holds one handle more than before,
the handle last, and the handle is acquired again once the handles before it
are; when the reset fails, the test is stopped by `t.Fatalf` and the queue is
left as it was. -/
theorem release_spec {σ : Type} (E : Handle → Env σ) (caller : Nat) (db : Handle)
    (p : Pool σ) :
    (release E caller db p).2.1 =
      (ResetDB (E db) contextBackground ⟨go "test"⟩ p.world).events ∧
    ((ResetDB (E db) contextBackground ⟨go "test"⟩ p.world).val = none →
      p.dbs.length < p.capacity →
      (release E caller db p).2.2 = .returned ∧
      directTexts (release E caller db p).2.1 = [disableChecks, truncateTable, enableChecks] ∧
      (release E caller db p).1.dbs = p.dbs ++ [db] ∧
      (release E caller db p).1.dbs.length = p.dbs.length + 1 ∧
      (release E caller db p).1.held = p.held.erase (caller, db) ∧
      ∀ callers : List Nat, callers.length = p.dbs.length →
        ∃ q, runOps E (callers.map PoolOp.acquire) (release E caller db p).1 = some q ∧
          ∀ c, ∃ q', acquire q c = some (q', db)) ∧
    (∀ n, PoolInv n p → (caller, db) ∈ p.held → p.dbs.length < p.capacity) ∧
    (∀ err, (ResetDB (E db) contextBackground ⟨go "test"⟩ p.world).val = some err →
      (release E caller db p).2.2 = .fatal (go "error resetting test DB: " ++ err.text) ∧
      (release E caller db p).1.dbs = p.dbs ∧ (release E caller db p).1.held = p.held) := by
  have hval : ∀ v, (ResetDB (E db) contextBackground ⟨go "test"⟩ p.world).val = v →
      (ResetTestDB (E db) ⟨go "test"⟩ p.world).val =
        v.map (fun err => go "error resetting test DB: " ++ err.text) ∧
      (ResetTestDB (E db) ⟨go "test"⟩ p.world).events =
        (ResetDB (E db) contextBackground ⟨go "test"⟩ p.world).events := by
    intro v hv
    unfold ResetTestDB
    simp only [hv]
    cases v <;> exact ⟨rfl, rfl⟩
  obtain ⟨h1, h2⟩ := release_eq E caller db p
  refine ⟨?_, ?_, ?_, ?_⟩
  · cases hv : (ResetDB (E db) contextBackground ⟨go "test"⟩ p.world).val with
    | some err =>
      rw [h1 _ (hval _ hv).1]
      exact (hval _ hv).2
    | none =>
      by_cases hlt : p.dbs.length < p.capacity
      · rw [h2 (hval _ hv).1 hlt]
        exact (hval _ hv).2
      · unfold release
        simp only [(hval _ hv).1, Option.map_none', hlt, if_false]
        exact (hval _ hv).2
  · intro hv hlt
    rw [h2 (hval _ hv).1 hlt]
    refine ⟨rfl, ?_, rfl, by simp, rfl, ?_⟩
    · simp only
      rw [(hval _ hv).2]
      exact ((ResetDB_statements (E db) contextBackground ⟨go "test"⟩ p.world).2.2.2 hv).1
    · intro callers hlen
      obtain ⟨q, hq, hd, _, _⟩ := runOps_acquires E callers
        { p with world := (ResetTestDB (E db) ⟨go "test"⟩ p.world).world,
                 dbs := p.dbs ++ [db], held := p.held.erase (caller, db) }
        (by simp [hlen])
      refine ⟨q, hq, ?_⟩
      intro c
      have hdq : q.dbs = [db] := by
        rw [hd, hlen]
        simp
      exact ⟨_, acquire_head q c db [] hdq⟩
  · intro n hinv hheld
    exact (release_inv E n caller db p hinv hheld).2.2
  · intro err hv
    rw [h1 _ (hval _ hv).1]
    exact ⟨rfl, rfl, rfl⟩

/-- C23 as stated fails: on a pool of two handles with the three callers 7, 8
and 9, the test 7 acquires the handle 0, the test 8 the handle 1, the test 7
invokes its release function twice and acquires again.  It then holds the
handle 0, and the acquire of the test 9 returns the handle 0 as well. -/
theorem pool_blocking_counterexample :
    (runOps (fun _ => okEnv)
      [.acquire 7, .acquire 8, .release 7 0, .release 7 0, .acquire 7]
      (Pool.init 2 (World.init 0))).map
        (fun p => (p.held, (acquire p 9).map Prod.snd)) =
      some ([(8, 1), (7, 0)], some 0) := by
  decide

/-- C23, amended: when `n + 1` callers acquire from a pool of capacity `n`,
the first `n` get a handle and the next caller waits; in every state reachable
by acquire steps and by release steps in which the release function is invoked
by a caller that holds its handle (once per acquired handle), an acquire waits
exactly when all `n` handles are held, it goes on when a holder invokes release
and the release returns, and then gets the handle released, and acquire never
returns a handle that a caller currently holds. -/
theorem pool_blocking {σ : Type} (E : Handle → Env σ) (n : Nat) (w : World σ) (p : Pool σ)
    (h : Reachable E (Pool.init n w) p) :
    (∀ callers : List Nat, callers.length = n →
      ∃ q, runOps E (callers.map PoolOp.acquire) (Pool.init n w) = some q ∧
        q.dbs = [] ∧ ∀ c, acquire q c = none) ∧
    (∀ c, acquire p c = none ↔ p.held.length = n) ∧
    (p.held.length = n → ∀ c db, (c, db) ∈ p.held →
      (release E c db p).2.2 = .returned →
      ∀ c', ∃ q, acquire (release E c db p).1 c' = some (q, db)) ∧
    (p.held.length = n → ∀ c db, (c, db) ∈ p.held →
      (release E c db p).2.2 ≠ .returned →
      ∀ c', acquire (release E c db p).1 c' = none) ∧
    (∀ c q db, acquire p c = some (q, db) →
      (∀ c', (c', db) ∉ p.held) ∧ (c, db) ∈ q.held ∧
      (∀ c', (c', db) ∈ q.held → c' = c) ∧ Reachable E (Pool.init n w) q) := by
  have hinv := Reachable_inv E n w p h
  obtain ⟨hlen, _, _, hdisj, _, _⟩ := PoolInv_facts n p hinv
  have hempty : p.held.length = n ↔ p.dbs = [] := by
    rw [← List.length_eq_zero]
    omega
  refine ⟨?_, ?_, ?_, ?_, ?_⟩
  · intro callers hc
    obtain ⟨q, hq, hd, _, _⟩ := runOps_acquires E callers (Pool.init n w)
      (by simp [Pool.init, hc])
    have hq0 : q.dbs = [] := by
      rw [hd, hc]
      simp [Pool.init]
    exact ⟨q, hq, hq0, fun c => (acquire_eq_none q c).mpr hq0⟩
  · intro c
    rw [acquire_eq_none, hempty]
  · intro hfull c db hheld hret c'
    obtain ⟨_, _, hlt⟩ := release_inv E n c db p hinv hheld
    obtain ⟨h1, h2⟩ := release_eq E c db p
    cases hres : (ResetTestDB (E db) ⟨go "test"⟩ p.world).val with
    | some msg =>
      rw [h1 msg hres] at hret
      cases hret
    | none =>
      rw [h2 hres hlt]
      exact ⟨_, acquire_head _ c' db [] (by simp [hempty.mp hfull])⟩
  · intro hfull c db hheld hret c'
    obtain ⟨_, _, hlt⟩ := release_inv E n c db p hinv hheld
    obtain ⟨h1, h2⟩ := release_eq E c db p
    cases hres : (ResetTestDB (E db) ⟨go "test"⟩ p.world).val with
    | some msg =>
      rw [h1 msg hres, acquire_eq_none]
      exact hempty.mp hfull
    | none =>
      rw [h2 hres hlt] at hret
      exact absurd rfl hret
  · intro c q db ha
    obtain ⟨hq, hd, hh, _⟩ := acquire_inv n p q c db hinv ha
    have hmem : db ∈ p.dbs := by rw [hd]; exact List.mem_cons_self _ _
    have hcq : (c, db) ∈ q.held := by rw [hh]; simp
    refine ⟨hdisj db hmem, hcq, ?_, ?_⟩
    · intro c' hc'
      exact (PoolInv_facts n q hq).2.2.2.2.1 c' c db hc' hcq
    · refine Reachable.step p q (.acquire c) h trivial ?_
      simp [PoolOp.run, ha]

theorem pool_blocking_witness :
    (acquire busyPool 9 = none ↔ busyPool.held.length = 2) ∧
    acquire busyPool 8 =
      some ({ busyPool with dbs := [], held := [(7, 0), (8, 1)] }, 1) :=
  have h := pool_blocking (fun _ => okEnv) 2 (World.init 0) busyPool
    (Reachable.step (Pool.init 2 (World.init 0)) busyPool (.acquire 7) Reachable.start
      trivial rfl)
  ⟨h.2.1 9, rfl⟩

end Fortune
